import Mathlib

/-!
# Verification of the FIDL binding generators and result tooling

The C++ binding generators (`fidlgen_llcpp`, `fidlgen_hlcpp`) are Go `text/template`
programs.  A template is embedded as the function from its data (`.`) to the sequence
of fragments it writes: literal template text, printed values of actions, and calls of
functions or templates that are defined outside the embedded files.  The rendered file
is the concatenation of the fragments.  Whitespace trimming (`{{-` and `-}}`) is applied
as `text/template` does it.
-/

namespace Fidlgen

/-- One fragment of the output of a template.  `text` is literal template text (after
trim markers are applied), `val` is the printed value of a field, `func` is the output of
a template function registered by the generator (for example `MessagePrototype`), and
`tmpl` is the output of a named template that is defined in another template file. -/
inductive Frag (δ : Type) where
  | text (s : String)
  | val (s : String)
  | func (name : String) (args : List δ)
  | tmpl (name : String) (dot : δ)
  deriving DecidableEq, Repr

/-- The printable identity of a declaration: `Str` is what `{{ . }}` prints (the Go
`String()` method), `Name` is the unqualified `.Name`. -/
structure DeclName where
  Str : String
  Name : String
  deriving DecidableEq, Repr
namespace Llcpp

/-! ## Data model of `fidlgen_llcpp` templates

Only the fields that the embedded templates read are kept.  Go `int` fields are `Int`,
slices are lists; a slice is true in a template exactly when it is not empty. -/

/-- A request or response parameter (`Ty` is the printed `.Type`). -/
structure Parameter where
  Ty : String
  Name : String
  Offset : Int
  deriving DecidableEq, Repr

/-- The `.LLProps` of a method. -/
structure LLProps where
  ProtocolName : DeclName
  deriving DecidableEq, Repr

/-- A protocol method as the templates see it.  `Result` is true when the Go pointer
`.Result` is not nil. -/
structure Method where
  Name : String
  DocComments : List String
  OrdinalName : String
  Ordinal : Nat
  HasRequest : Bool
  Request : List Parameter
  RequestCodingTable : DeclName
  RequestSize : Int
  RequestMaxHandles : Int
  RequestMaxOutOfLine : Int
  RequestSentMaxSize : Int
  RequestFlexible : Bool
  RequestHasPointer : Bool
  RequestIsResource : Bool
  HasResponse : Bool
  Response : List Parameter
  ResponseCodingTable : DeclName
  ResponseSize : Int
  ResponseMaxHandles : Int
  ResponseMaxOutOfLine : Int
  ResponseSentMaxSize : Int
  ResponseReceivedMaxSize : Int
  ResponseFlexible : Bool
  ResponseHasPointer : Bool
  ResponseIsResource : Bool
  Transitional : Bool
  Result : Bool
  LLProps : LLProps
  deriving DecidableEq, Repr

/-- A protocol: `Str` is what printing the protocol gives, `Name` its unqualified name.
`ClientMethods`, `Events` and `TwoWayMethods` are separate fields of the Go value, filled
by the generator front end. -/
structure Protocol where
  Str : String
  Name : String
  Methods : List Method
  ClientMethods : List Method
  Events : List Method
  TwoWayMethods : List Method
  deriving DecidableEq, Repr

/-- The kinds of declaration that the header template tells apart (`Kinds.Bits`, ...). -/
inductive declKind where
  | Bits | Const | Enum | Protocol | Service | Struct | Table | Union
  deriving DecidableEq, Repr

/-- A top-level declaration of the library, as the header template sees it. -/
structure Decl where
  Kind : declKind
  Name : DeclName
  deriving DecidableEq, Repr

/-- The root value given to the template "Header". -/
structure Root where
  HandleTypes : List String
  Headers : List String
  IncludeStem : String
  Decls : List Decl
  deriving DecidableEq, Repr

/-- A value handed to a template function or to a template of another file. -/
inductive Dot where
  | str (s : String)
  | bool (b : Bool)
  | name (n : DeclName)
  | param (x : Parameter)
  | params (ps : List Parameter)
  | method (m : Method)
  | protocol (p : Protocol)
  | decl (d : Decl)
  deriving DecidableEq, Repr

/-! ## fragment_protocol.tmpl.go -/

/-- Template "RequestSentSize" (fragment_protocol.tmpl.go, lines 39-45). -/
def RequestSentSize (m : Method) : List (Frag Dot) :=
  (if m.RequestSentMaxSize > 65536 then
    [.text "ZX_CHANNEL_MAX_MSG_BYTES"]
  else
    [.text "PrimarySize + MaxOutOfLine"])

/-- Template "ResponseSentSize" (fragment_protocol.tmpl.go, lines 47-53). -/
def ResponseSentSize (m : Method) : List (Frag Dot) :=
  (if m.ResponseSentMaxSize > 65536 then
    [.text "ZX_CHANNEL_MAX_MSG_BYTES"]
  else
    [.text "PrimarySize + MaxOutOfLine"])

/-- Template "ResponseReceivedSize" (fragment_protocol.tmpl.go, lines 55-61). -/
def ResponseReceivedSize (m : Method) : List (Frag Dot) :=
  (if m.ResponseReceivedMaxSize > 65536 then
    [.text "ZX_CHANNEL_MAX_MSG_BYTES"]
  else
    [.val m.Name,
     .text "Response::PrimarySize + ",
     .val m.Name,
     .text "Response::MaxOutOfLine"])

/-- Template "ResponseReceivedByteAccess" (fragment_protocol.tmpl.go, lines 63-69). -/
def ResponseReceivedByteAccess (m : Method) : List (Frag Dot) :=
  (if m.ResponseReceivedMaxSize > 512 then
    [.text "bytes_->data()"]
  else
    [.text "bytes_"])

/-- The class UnownedEncodedByteMessage of the response message of method m: template "ProtocolDeclaration", fragment_protocol.tmpl.go lines 133-181. -/
def ResponseUnownedEncodedByteMessage (m : Method) : List (Frag Dot) :=
  [.text "    class UnownedEncodedByteMessage final \x7b\n",
   .text "     public:\n",
   .text "      UnownedEncodedByteMessage(uint8_t* _bytes, uint32_t _byte_size",
   .func "CommaMessagePrototype" [.params m.Response],
   .text ")\n",
   .text "          : message_(_bytes, _byte_size, sizeof(",
   .val m.Name,
   .text "Response),"] ++
  (if m.ResponseMaxHandles > 0 then
    [.text "\n",
     .text "        handles_, std::min(ZX_CHANNEL_MAX_MSG_HANDLES, MaxNumHandles), 0"]
  else
    [.text "\n",
     .text "        nullptr, 0, 0"]) ++
  [.text "\n",
   .text "        ) \x7b\n",
   .text "        FIDL_ALIGNDECL ",
   .val m.Name,
   .text "Response _response\x7b",
   .func "ParamNames" [.params m.Response],
   .text "\x7d;\n",
   .text "        message_.Encode<",
   .val m.Name,
   .text "Response>(&_response);\n",
   .text "      \x7d\n",
   .text "      UnownedEncodedByteMessage(uint8_t* bytes, uint32_t byte_size, ",
   .val m.Name,
   .text "Response* response)\n",
   .text "          : message_(bytes, byte_size, sizeof(",
   .val m.Name,
   .text "Response),"] ++
  (if m.ResponseMaxHandles > 0 then
    [.text "\n",
     .text "        handles_, std::min(ZX_CHANNEL_MAX_MSG_HANDLES, MaxNumHandles), 0"]
  else
    [.text "\n",
     .text "        nullptr, 0, 0"]) ++
  [.text "\n",
   .text "        ) \x7b\n",
   .text "        message_.Encode<",
   .val m.Name,
   .text "Response>(response);\n",
   .text "      \x7d\n",
   .text "      UnownedEncodedByteMessage(const UnownedEncodedByteMessage&) = delete;\n",
   .text "      UnownedEncodedByteMessage(UnownedEncodedByteMessage&&) = delete;\n",
   .text "      UnownedEncodedByteMessage* operator=(const UnownedEncodedByteMessage&) = delete;\n",
   .text "      UnownedEncodedByteMessage* operator=(UnownedEncodedByteMessage&&) = delete;\n",
   .text "\n",
   .text "      zx_status_t status() const \x7b return message_.status(); \x7d\n",
   .text "#ifdef __Fuchsia__\n",
   .text "      const char* status_string() const \x7b return message_.status_string(); \x7d\n",
   .text "#endif\n",
   .text "      bool ok() const \x7b return message_.status() == ZX_OK; \x7d\n",
   .text "      const char* error() const \x7b return message_.error(); \x7d\n",
   .text "\n",
   .text "      ::fidl::OutgoingByteMessage& GetOutgoingMessage() \x7b return message_; \x7d\n",
   .text "\n",
   .text "      template <typename ChannelLike>\n",
   .text "      void Write(ChannelLike&& client) \x7b message_.Write(std::forward<ChannelLike>(client)); \x7d\n",
   .text "\n",
   .text "     private:"] ++
  (if m.ResponseMaxHandles > 0 then
    [.text "\n",
     .text "        zx_handle_disposition_t handles_[std::min(ZX_CHANNEL_MAX_MSG_HANDLES, MaxNumHandles)];"]
  else
    []) ++
  [.text "\n",
   .text "      ::fidl::OutgoingByteMessage message_;\n",
   .text "    \x7d;\n"]

/-- The class UnownedEncodedIovecMessage of the response message of method m: template "ProtocolDeclaration", fragment_protocol.tmpl.go lines 183-254. -/
def ResponseUnownedEncodedIovecMessage (m : Method) : List (Frag Dot) :=
  [.text "    class UnownedEncodedIovecMessage final \x7b\n",
   .text "     public:\n",
   .text "      UnownedEncodedIovecMessage(zx_channel_iovec_t* iovecs, uint32_t iovec_size,\n",
   .text "        fidl_iovec_substitution_t* substitutions, uint32_t substitutions_size",
   .func "CommaMessagePrototype" [.params m.Response],
   .text ")\n",
   .text "        : message_(::fidl::OutgoingIovecMessage::constructor_args\x7b\n",
   .text "          .iovecs = iovecs,\n",
   .text "          .iovecs_actual = 0,\n",
   .text "          .iovecs_capacity = iovec_size,\n",
   .text "          .substitutions = substitutions,\n",
   .text "          .substitutions_actual = 0,\n",
   .text "          .substitutions_capacity = substitutions_size,"] ++
  (if m.ResponseMaxHandles > 0 then
    [.text "\n",
     .text "          .handles = handles_,\n",
     .text "          .handle_actual = 0,\n",
     .text "          .handle_capacity = std::min(ZX_CHANNEL_MAX_MSG_HANDLES, MaxNumHandles),"]
  else
    [.text "\n",
     .text "          .handles = nullptr,\n",
     .text "          .handle_actual = 0,\n",
     .text "          .handle_capacity = 0,"]) ++
  [.text "\n",
   .text "        \x7d) \x7b\n",
   .text "        FIDL_ALIGNDECL ",
   .val m.Name,
   .text "Response _response\x7b",
   .func "ParamNames" [.params m.Response],
   .text "\x7d;\n",
   .text "        message_.Encode<",
   .val m.Name,
   .text "Response>(&_response);\n",
   .text "      \x7d\n",
   .text "      UnownedEncodedIovecMessage(zx_channel_iovec_t* iovecs, uint32_t iovec_size,\n",
   .text "        fidl_iovec_substitution_t* substitutions, uint32_t substitutions_size,\n",
   .text "        ",
   .val m.Name,
   .text "Response* response)\n",
   .text "        : message_(::fidl::OutgoingIovecMessage::constructor_args\x7b\n",
   .text "          .iovecs = iovecs,\n",
   .text "          .iovecs_actual = 0,\n",
   .text "          .iovecs_capacity = iovec_size,\n",
   .text "          .substitutions = substitutions,\n",
   .text "          .substitutions_actual = 0,\n",
   .text "          .substitutions_capacity = substitutions_size,"] ++
  (if m.ResponseMaxHandles > 0 then
    [.text "\n",
     .text "          .handles = handles_,\n",
     .text "          .handle_actual = 0,\n",
     .text "          .handle_capacity = std::min(ZX_CHANNEL_MAX_MSG_HANDLES, MaxNumHandles),"]
  else
    [.text "\n",
     .text "          .handles = nullptr,\n",
     .text "          .handle_actual = 0,\n",
     .text "          .handle_capacity = 0,"]) ++
  [.text "\n",
   .text "        \x7d) \x7b\n",
   .text "        message_.Encode<",
   .val m.Name,
   .text "Response>(response);\n",
   .text "      \x7d\n",
   .text "      UnownedEncodedIovecMessage(const UnownedEncodedIovecMessage&) = delete;\n",
   .text "      UnownedEncodedIovecMessage(UnownedEncodedIovecMessage&&) = delete;\n",
   .text "      UnownedEncodedIovecMessage* operator=(const UnownedEncodedIovecMessage&) = delete;\n",
   .text "      UnownedEncodedIovecMessage* operator=(UnownedEncodedIovecMessage&&) = delete;\n",
   .text "\n",
   .text "      zx_status_t status() const \x7b return message_.status(); \x7d\n",
   .text "#ifdef __Fuchsia__\n",
   .text "      const char* status_string() const \x7b return message_.status_string(); \x7d\n",
   .text "#endif\n",
   .text "      bool ok() const \x7b return message_.status() == ZX_OK; \x7d\n",
   .text "      const char* error() const \x7b return message_.error(); \x7d\n",
   .text "\n",
   .text "      ::fidl::OutgoingIovecMessage& GetOutgoingMessage() \x7b return message_; \x7d\n",
   .text "\n",
   .text "      template <typename ChannelLike>\n",
   .text "      void Write(ChannelLike&& client) \x7b message_.Write(std::forward<ChannelLike>(client)); \x7d\n",
   .text "\n",
   .text "     private:"] ++
  (if m.ResponseMaxHandles > 0 then
    [.text "\n",
     .text "        zx_handle_disposition_t handles_[std::min(ZX_CHANNEL_MAX_MSG_HANDLES, MaxNumHandles)];"]
  else
    []) ++
  [.text "\n",
   .text "      ::fidl::OutgoingIovecMessage message_;\n",
   .text "    \x7d;\n"]

/-- The class OwnedEncodedByteMessage of the response message of method m: template "ProtocolDeclaration", fragment_protocol.tmpl.go lines 256-299. -/
def ResponseOwnedEncodedByteMessage (m : Method) : List (Frag Dot) :=
  [.text "    class OwnedEncodedByteMessage final \x7b\n",
   .text "     public:\n",
   .text "      explicit OwnedEncodedByteMessage(",
   .func "MessagePrototype" [.params m.Response],
   .text ")"] ++
  (if m.ResponseSentMaxSize > 512 then
    [.text ": bytes_(std::make_unique<::fidl::internal::AlignedBuffer<"] ++
    ResponseSentSize m ++
    [.text ">>()),\n",
     .text "          message_(bytes_->data(),"] ++
    ResponseSentSize m
  else
    [.text "\n",
     .text "          : message_(bytes_, sizeof(bytes_)"]) ++
  [.func "CommaParamNames" [.params m.Response],
   .text ") \x7b\x7d\n",
   .text "      explicit OwnedEncodedByteMessage(",
   .val m.Name,
   .text "Response* response)"] ++
  (if m.ResponseSentMaxSize > 512 then
    [.text ": bytes_(std::make_unique<::fidl::internal::AlignedBuffer<"] ++
    ResponseSentSize m ++
    [.text ">>()),\n",
     .text "          message_(bytes_->data(),"] ++
    ResponseSentSize m
  else
    [.text "\n",
     .text "          : message_(bytes_, sizeof(bytes_)"]) ++
  [.text "\n",
   .text "          , response) \x7b\x7d\n",
   .text "      OwnedEncodedByteMessage(const OwnedEncodedByteMessage&) = delete;\n",
   .text "      OwnedEncodedByteMessage(OwnedEncodedByteMessage&&) = delete;\n",
   .text "      OwnedEncodedByteMessage* operator=(const OwnedEncodedByteMessage&) = delete;\n",
   .text "      OwnedEncodedByteMessage* operator=(OwnedEncodedByteMessage&&) = delete;\n",
   .text "\n",
   .text "      zx_status_t status() const \x7b return message_.status(); \x7d\n",
   .text "#ifdef __Fuchsia__\n",
   .text "      const char* status_string() const \x7b return message_.status_string(); \x7d\n",
   .text "#endif\n",
   .text "      bool ok() const \x7b return message_.ok(); \x7d\n",
   .text "      const char* error() const \x7b return message_.error(); \x7d\n",
   .text "\n",
   .text "      ::fidl::OutgoingByteMessage& GetOutgoingMessage() \x7b return message_.GetOutgoingMessage(); \x7d\n",
   .text "\n",
   .text "      template <typename ChannelLike>\n",
   .text "      void Write(ChannelLike&& client) \x7b message_.Write(std::forward<ChannelLike>(client)); \x7d\n",
   .text "\n",
   .text "     private:"] ++
  (if m.ResponseSentMaxSize > 512 then
    [.text "\n",
     .text "      std::unique_ptr<::fidl::internal::AlignedBuffer<"] ++
    ResponseSentSize m ++
    [.text ">> bytes_;"]
  else
    [.text "\n",
     .text "      FIDL_ALIGNDECL\n",
     .text "      uint8_t bytes_[PrimarySize + MaxOutOfLine];"]) ++
  [.text "\n",
   .text "      UnownedEncodedByteMessage message_;\n",
   .text "    \x7d;\n"]

/-- The class OwnedEncodedIovecMessage of the response message of method m: template "ProtocolDeclaration", fragment_protocol.tmpl.go lines 301-332. -/
def ResponseOwnedEncodedIovecMessage (m : Method) : List (Frag Dot) :=
  [.text "    class OwnedEncodedIovecMessage final \x7b\n",
   .text "     public:\n",
   .text "      explicit OwnedEncodedIovecMessage(",
   .func "MessagePrototype" [.params m.Response],
   .text ")\n",
   .text "          : message_(iovecs_, ::fidl::internal::kIovecBufferSize,\n",
   .text "            substitutions_, ::fidl::internal::kIovecBufferSize",
   .func "CommaParamNames" [.params m.Response],
   .text ") \x7b\x7d\n",
   .text "      explicit OwnedEncodedIovecMessage(",
   .val m.Name,
   .text "Response* response)\n",
   .text "          : message_(iovecs_, ::fidl::internal::kIovecBufferSize,\n",
   .text "            substitutions_, ::fidl::internal::kIovecBufferSize,\n",
   .text "            response) \x7b\x7d\n",
   .text "      OwnedEncodedIovecMessage(const OwnedEncodedIovecMessage&) = delete;\n",
   .text "      OwnedEncodedIovecMessage(OwnedEncodedIovecMessage&&) = delete;\n",
   .text "      OwnedEncodedIovecMessage* operator=(const OwnedEncodedIovecMessage&) = delete;\n",
   .text "      OwnedEncodedIovecMessage* operator=(OwnedEncodedIovecMessage&&) = delete;\n",
   .text "\n",
   .text "      zx_status_t status() const \x7b return message_.status(); \x7d\n",
   .text "#ifdef __Fuchsia__\n",
   .text "      const char* status_string() const \x7b return message_.status_string(); \x7d\n",
   .text "#endif\n",
   .text "      bool ok() const \x7b return message_.ok(); \x7d\n",
   .text "      const char* error() const \x7b return message_.error(); \x7d\n",
   .text "\n",
   .text "      ::fidl::OutgoingIovecMessage& GetOutgoingMessage() \x7b return message_.GetOutgoingMessage(); \x7d\n",
   .text "\n",
   .text "      template <typename ChannelLike>\n",
   .text "      void Write(ChannelLike&& client) \x7b message_.Write(std::forward<ChannelLike>(client)); \x7d\n",
   .text "\n",
   .text "     private:\n",
   .text "      zx_channel_iovec_t iovecs_[::fidl::internal::kIovecBufferSize];\n",
   .text "      fidl_iovec_substitution_t substitutions_[::fidl::internal::kIovecBufferSize];\n",
   .text "      UnownedEncodedIovecMessage message_;\n",
   .text "    \x7d;\n"]

/-- The class DecodedMessage of the response message of method m: template "ProtocolDeclaration", fragment_protocol.tmpl.go lines 339-370. -/
def ResponseDecodedMessage (m : Method) : List (Frag Dot) :=
  [.text "    class DecodedMessage final : public ::fidl::internal::IncomingMessage \x7b\n",
   .text "     public:\n",
   .text "      DecodedMessage(uint8_t* bytes, uint32_t byte_actual, zx_handle_info_t* handles = nullptr,\n",
   .text "                      uint32_t handle_actual = 0)\n",
   .text "          : ::fidl::internal::IncomingMessage(bytes, byte_actual, handles, handle_actual) \x7b\n",
   .text "        Decode<",
   .val m.Name,
   .text "Response>();\n",
   .text "      \x7d\n",
   .text "      DecodedMessage(fidl_incoming_msg_t* msg) : ::fidl::internal::IncomingMessage(msg) \x7b\n",
   .text "        Decode<",
   .val m.Name,
   .text "Response>();\n",
   .text "      \x7d\n",
   .text "      DecodedMessage(const DecodedMessage&) = delete;\n",
   .text "      DecodedMessage(DecodedMessage&&) = delete;\n",
   .text "      DecodedMessage* operator=(const DecodedMessage&) = delete;\n",
   .text "      DecodedMessage* operator=(DecodedMessage&&) = delete;"] ++
  (if m.ResponseIsResource = true then
    [.text "\n",
     .text "      ~DecodedMessage() \x7b\n",
     .text "        if (ok() && (PrimaryObject() != nullptr)) \x7b\n",
     .text "          PrimaryObject()->_CloseHandles();\n",
     .text "        \x7d\n",
     .text "      \x7d"]
  else
    []) ++
  [.text "\n",
   .text "\n",
   .text "      ",
   .val m.Name,
   .text "Response* PrimaryObject() \x7b\n",
   .text "        ZX_DEBUG_ASSERT(ok());\n",
   .text "        return reinterpret_cast<",
   .val m.Name,
   .text "Response*>(bytes());\n",
   .text "      \x7d\n",
   .text "\n",
   .text "      // Release the ownership of the decoded message. That means that the handles won't be closed\n",
   .text "      // When the object is destroyed.\n",
   .text "      // After calling this method, the DecodedMessage object should not be used anymore.\n",
   .text "      void ReleasePrimaryObject() \x7b ResetBytes(); \x7d\n",
   .text "    \x7d;\n"]

/-- The response message struct of method m: template "ProtocolDeclaration", fragment_protocol.tmpl.go lines 95-375, with the nested classes defined above. -/
def ResponseMessage (m : Method) : List (Frag Dot) :=
  (if m.HasResponse = true then
    [.text "\n",
     .text "  struct ",
     .val m.Name,
     .text "Response final \x7b\n",
     .text "    FIDL_ALIGNDECL",
     .text "\n",
     .text "    fidl_message_header_t _hdr;"] ++
    (m.Response.flatMap fun param =>
      [.text "\n",
       .text "    ",
       .val param.Ty,
       .text " ",
       .val param.Name,
       .text ";"]) ++
    (if m.Response ≠ [] then
      [.text "\n",
       .text "    explicit ",
       .val m.Name,
       .text "Response(",
       .func "MessagePrototype" [.params m.Response],
       .text ")\n",
       .text "    ",
       .func "InitMessage" [.params m.Response],
       .text " \x7b\n",
       .text "      _InitHeader();\n",
       .text "    \x7d"]
    else
      []) ++
    [.text "\n",
     .text "    ",
     .val m.Name,
     .text "Response() \x7b\n",
     .text "      _InitHeader();\n",
     .text "    \x7d\n",
     .text "\n",
     .text "    static constexpr const fidl_type_t* Type ="] ++
    (if m.Response ≠ [] then
      [.text "\n",
       .text "      &",
       .val m.ResponseCodingTable.Str,
       .text ";"]
    else
      [.text "\n",
       .text "      &::fidl::_llcpp_coding_AnyZeroArgMessageTable;"]) ++
    [.text "\n",
     .text "    static constexpr uint32_t MaxNumHandles = ",
     .val (toString m.ResponseMaxHandles),
     .text ";\n",
     .text "    static constexpr uint32_t PrimarySize = ",
     .val (toString m.ResponseSize),
     .text ";\n",
     .text "    static constexpr uint32_t MaxOutOfLine = ",
     .val (toString m.ResponseMaxOutOfLine),
     .text ";\n",
     .text "    static constexpr bool HasFlexibleEnvelope = ",
     .val (toString m.ResponseFlexible),
     .text ";\n",
     .text "    static constexpr bool HasPointer = ",
     .val (toString m.ResponseHasPointer),
     .text ";\n",
     .text "    static constexpr ::fidl::internal::TransactionalMessageKind MessageKind =\n",
     .text "        ::fidl::internal::TransactionalMessageKind::kResponse;"] ++
    (if m.ResponseIsResource = true then
      [.text "\n",
       .text "    void _CloseHandles();"]
    else
      []) ++
    [.text "\n",
     .text "\n",
     .text " private:\n"] ++
    ResponseUnownedEncodedByteMessage m ++
    [.text "\n"] ++
    ResponseUnownedEncodedIovecMessage m ++
    [.text "\n"] ++
    ResponseOwnedEncodedByteMessage m ++
    [.text "\n"] ++
    ResponseOwnedEncodedIovecMessage m ++
    [.text "\n",
     .text "  public:\n",
     .text "    friend ::fidl::internal::EncodedMessageTypes<",
     .val m.Name,
     .text "Response>;\n",
     .text "    using OwnedEncodedMessage = OwnedEncodedByteMessage;\n",
     .text "    using UnownedEncodedMessage = UnownedEncodedByteMessage;\n",
     .text "\n"] ++
    ResponseDecodedMessage m ++
    [.text "\n",
     .text "   private:\n",
     .text "    void _InitHeader();\n",
     .text "  \x7d;"]
  else
    [])

/-- The class UnownedEncodedByteMessage of the request message of method m: template "ProtocolDeclaration", fragment_protocol.tmpl.go lines 421-469. -/
def RequestUnownedEncodedByteMessage (m : Method) : List (Frag Dot) :=
  [.text "    class UnownedEncodedByteMessage final \x7b\n",
   .text "     public:\n",
   .text "      UnownedEncodedByteMessage(uint8_t* _bytes, uint32_t _byte_size, zx_txid_t _txid",
   .func "CommaMessagePrototype" [.params m.Request],
   .text ")\n",
   .text "          : message_(_bytes, _byte_size, sizeof(",
   .val m.Name,
   .text "Request),"] ++
  (if m.RequestMaxHandles > 0 then
    [.text "\n",
     .text "        handles_, std::min(ZX_CHANNEL_MAX_MSG_HANDLES, MaxNumHandles), 0"]
  else
    [.text "\n",
     .text "        nullptr, 0, 0"]) ++
  [.text "\n",
   .text "        ) \x7b\n",
   .text "        FIDL_ALIGNDECL ",
   .val m.Name,
   .text "Request _request(_txid",
   .func "CommaParamNames" [.params m.Request],
   .text ");\n",
   .text "        message_.Encode<",
   .val m.Name,
   .text "Request>(&_request);\n",
   .text "      \x7d\n",
   .text "      UnownedEncodedByteMessage(uint8_t* bytes, uint32_t byte_size, ",
   .val m.Name,
   .text "Request* request)\n",
   .text "          : message_(bytes, byte_size, sizeof(",
   .val m.Name,
   .text "Request),"] ++
  (if m.RequestMaxHandles > 0 then
    [.text "\n",
     .text "        handles_, std::min(ZX_CHANNEL_MAX_MSG_HANDLES, MaxNumHandles), 0"]
  else
    [.text "\n",
     .text "        nullptr, 0, 0"]) ++
  [.text "\n",
   .text "        ) \x7b\n",
   .text "        message_.Encode<",
   .val m.Name,
   .text "Request>(request);\n",
   .text "      \x7d\n",
   .text "      UnownedEncodedByteMessage(const UnownedEncodedByteMessage&) = delete;\n",
   .text "      UnownedEncodedByteMessage(UnownedEncodedByteMessage&&) = delete;\n",
   .text "      UnownedEncodedByteMessage* operator=(const UnownedEncodedByteMessage&) = delete;\n",
   .text "      UnownedEncodedByteMessage* operator=(UnownedEncodedByteMessage&&) = delete;\n",
   .text "\n",
   .text "      zx_status_t status() const \x7b return message_.status(); \x7d\n",
   .text "#ifdef __Fuchsia__\n",
   .text "      const char* status_string() const \x7b return message_.status_string(); \x7d\n",
   .text "#endif\n",
   .text "      bool ok() const \x7b return message_.status() == ZX_OK; \x7d\n",
   .text "      const char* error() const \x7b return message_.error(); \x7d\n",
   .text "\n",
   .text "      ::fidl::OutgoingByteMessage& GetOutgoingMessage() \x7b return message_; \x7d\n",
   .text "\n",
   .text "      template <typename ChannelLike>\n",
   .text "      void Write(ChannelLike&& client) \x7b message_.Write(std::forward<ChannelLike>(client)); \x7d\n",
   .text "\n",
   .text "     private:"] ++
  (if m.RequestMaxHandles > 0 then
    [.text "\n",
     .text "        zx_handle_disposition_t handles_[std::min(ZX_CHANNEL_MAX_MSG_HANDLES, MaxNumHandles)];"]
  else
    []) ++
  [.text "\n",
   .text "      ::fidl::OutgoingByteMessage message_;\n",
   .text "    \x7d;\n"]

/-- The class UnownedEncodedIovecMessage of the request message of method m: template "ProtocolDeclaration", fragment_protocol.tmpl.go lines 471-543. -/
def RequestUnownedEncodedIovecMessage (m : Method) : List (Frag Dot) :=
  [.text "    class UnownedEncodedIovecMessage final \x7b\n",
   .text "     public:\n",
   .text "      UnownedEncodedIovecMessage(zx_channel_iovec_t* iovecs, uint32_t iovec_size,\n",
   .text "        fidl_iovec_substitution_t* substitutions, uint32_t substitutions_size,\n",
   .text "        zx_txid_t _txid",
   .func "CommaMessagePrototype" [.params m.Request],
   .text ")\n",
   .text "        : message_(::fidl::OutgoingIovecMessage::constructor_args\x7b\n",
   .text "          .iovecs = iovecs,\n",
   .text "          .iovecs_actual = 0,\n",
   .text "          .iovecs_capacity = iovec_size,\n",
   .text "          .substitutions = substitutions,\n",
   .text "          .substitutions_actual = 0,\n",
   .text "          .substitutions_capacity = substitutions_size,"] ++
  (if m.RequestMaxHandles > 0 then
    [.text "\n",
     .text "          .handles = handles_,\n",
     .text "          .handle_actual = 0,\n",
     .text "          .handle_capacity = std::min(ZX_CHANNEL_MAX_MSG_HANDLES, MaxNumHandles),"]
  else
    [.text "\n",
     .text "          .handles = nullptr,\n",
     .text "          .handle_actual = 0,\n",
     .text "          .handle_capacity = 0,"]) ++
  [.text "\n",
   .text "        \x7d) \x7b\n",
   .text "        FIDL_ALIGNDECL ",
   .val m.Name,
   .text "Request _request(_txid",
   .func "CommaParamNames" [.params m.Request],
   .text ");\n",
   .text "        message_.Encode<",
   .val m.Name,
   .text "Request>(&_request);\n",
   .text "      \x7d\n",
   .text "      UnownedEncodedIovecMessage(zx_channel_iovec_t* iovecs, uint32_t iovec_size,\n",
   .text "        fidl_iovec_substitution_t* substitutions, uint32_t substitutions_size,\n",
   .text "        ",
   .val m.Name,
   .text "Request* request)\n",
   .text "        : message_(::fidl::OutgoingIovecMessage::constructor_args\x7b\n",
   .text "          .iovecs = iovecs,\n",
   .text "          .iovecs_actual = 0,\n",
   .text "          .iovecs_capacity = iovec_size,\n",
   .text "          .substitutions = substitutions,\n",
   .text "          .substitutions_actual = 0,\n",
   .text "          .substitutions_capacity = substitutions_size,"] ++
  (if m.RequestMaxHandles > 0 then
    [.text "\n",
     .text "          .handles = handles_,\n",
     .text "          .handle_actual = 0,\n",
     .text "          .handle_capacity = std::min(ZX_CHANNEL_MAX_MSG_HANDLES, MaxNumHandles),"]
  else
    [.text "\n",
     .text "          .handles = nullptr,\n",
     .text "          .handle_actual = 0,\n",
     .text "          .handle_capacity = 0,"]) ++
  [.text "\n",
   .text "        \x7d) \x7b\n",
   .text "        message_.Encode<",
   .val m.Name,
   .text "Request>(request);\n",
   .text "      \x7d\n",
   .text "      UnownedEncodedIovecMessage(const UnownedEncodedIovecMessage&) = delete;\n",
   .text "      UnownedEncodedIovecMessage(UnownedEncodedIovecMessage&&) = delete;\n",
   .text "      UnownedEncodedIovecMessage* operator=(const UnownedEncodedIovecMessage&) = delete;\n",
   .text "      UnownedEncodedIovecMessage* operator=(UnownedEncodedIovecMessage&&) = delete;\n",
   .text "\n",
   .text "      zx_status_t status() const \x7b return message_.status(); \x7d\n",
   .text "#ifdef __Fuchsia__\n",
   .text "      const char* status_string() const \x7b return message_.status_string(); \x7d\n",
   .text "#endif\n",
   .text "      bool ok() const \x7b return message_.status() == ZX_OK; \x7d\n",
   .text "      const char* error() const \x7b return message_.error(); \x7d\n",
   .text "\n",
   .text "      ::fidl::OutgoingIovecMessage& GetOutgoingMessage() \x7b return message_; \x7d\n",
   .text "\n",
   .text "      template <typename ChannelLike>\n",
   .text "      void Write(ChannelLike&& client) \x7b message_.Write(std::forward<ChannelLike>(client)); \x7d\n",
   .text "\n",
   .text "     private:"] ++
  (if m.RequestMaxHandles > 0 then
    [.text "\n",
     .text "        zx_handle_disposition_t handles_[std::min(ZX_CHANNEL_MAX_MSG_HANDLES, MaxNumHandles)];"]
  else
    []) ++
  [.text "\n",
   .text "      ::fidl::OutgoingIovecMessage message_;\n",
   .text "    \x7d;\n"]

/-- The class OwnedEncodedByteMessage of the request message of method m: template "ProtocolDeclaration", fragment_protocol.tmpl.go lines 545-589. -/
def RequestOwnedEncodedByteMessage (m : Method) : List (Frag Dot) :=
  [.text "    class OwnedEncodedByteMessage final \x7b\n",
   .text "     public:\n",
   .text "      explicit OwnedEncodedByteMessage(zx_txid_t _txid",
   .func "CommaMessagePrototype" [.params m.Request],
   .text ")"] ++
  (if m.RequestSentMaxSize > 512 then
    [.text ": bytes_(std::make_unique<::fidl::internal::AlignedBuffer<"] ++
    RequestSentSize m ++
    [.text ">>()),\n",
     .text "          message_(bytes_->data(),"] ++
    RequestSentSize m ++
    [.text ", _txid"]
  else
    [.text "\n",
     .text "          : message_(bytes_, sizeof(bytes_), _txid"]) ++
  [.func "CommaParamNames" [.params m.Request],
   .text ") \x7b\x7d\n",
   .text "      explicit OwnedEncodedByteMessage(",
   .val m.Name,
   .text "Request* request)"] ++
  (if m.RequestSentMaxSize > 512 then
    [.text ": bytes_(std::make_unique<::fidl::internal::AlignedBuffer<"] ++
    RequestSentSize m ++
    [.text ">>()),\n",
     .text "          message_(bytes_->data(),"] ++
    RequestSentSize m
  else
    [.text "\n",
     .text "          : message_(bytes_, sizeof(bytes_)"]) ++
  [.text "\n",
   .text "          , request) \x7b\x7d\n",
   .text "      OwnedEncodedByteMessage(const OwnedEncodedByteMessage&) = delete;\n",
   .text "      OwnedEncodedByteMessage(OwnedEncodedByteMessage&&) = delete;\n",
   .text "      OwnedEncodedByteMessage* operator=(const OwnedEncodedByteMessage&) = delete;\n",
   .text "      OwnedEncodedByteMessage* operator=(OwnedEncodedByteMessage&&) = delete;\n",
   .text "\n",
   .text "      zx_status_t status() const \x7b return message_.status(); \x7d\n",
   .text "#ifdef __Fuchsia__\n",
   .text "      const char* status_string() const \x7b return message_.status_string(); \x7d\n",
   .text "#endif\n",
   .text "      bool ok() const \x7b return message_.ok(); \x7d\n",
   .text "      const char* error() const \x7b return message_.error(); \x7d\n",
   .text "\n",
   .text "      ::fidl::OutgoingByteMessage& GetOutgoingMessage() \x7b return message_.GetOutgoingMessage(); \x7d\n",
   .text "\n",
   .text "      template <typename ChannelLike>\n",
   .text "      void Write(ChannelLike&& client) \x7b message_.Write(std::forward<ChannelLike>(client)); \x7d\n",
   .text "\n",
   .text "     private:"] ++
  (if m.RequestSentMaxSize > 512 then
    [.text "\n",
     .text "      std::unique_ptr<::fidl::internal::AlignedBuffer<"] ++
    RequestSentSize m ++
    [.text ">> bytes_;"]
  else
    [.text "\n",
     .text "      FIDL_ALIGNDECL\n",
     .text "      uint8_t bytes_[PrimarySize + MaxOutOfLine];"]) ++
  [.text "\n",
   .text "      UnownedEncodedByteMessage message_;\n",
   .text "    \x7d;\n"]

/-- The class OwnedEncodedIovecMessage of the request message of method m: template "ProtocolDeclaration", fragment_protocol.tmpl.go lines 591-623. -/
def RequestOwnedEncodedIovecMessage (m : Method) : List (Frag Dot) :=
  [.text "    class OwnedEncodedIovecMessage final \x7b\n",
   .text "     public:\n",
   .text "      explicit OwnedEncodedIovecMessage(zx_txid_t _txid",
   .func "CommaMessagePrototype" [.params m.Request],
   .text ")\n",
   .text "          : message_(iovecs_, ::fidl::internal::kIovecBufferSize,\n",
   .text "            substitutions_, ::fidl::internal::kIovecBufferSize, _txid",
   .func "CommaParamNames" [.params m.Request],
   .text ") \x7b\x7d\n",
   .text "      explicit OwnedEncodedIovecMessage(",
   .val m.Name,
   .text "Request* request)\n",
   .text "          : message_(iovecs_, ::fidl::internal::kIovecBufferSize,\n",
   .text "            substitutions_, ::fidl::internal::kIovecBufferSize,\n",
   .text "            request) \x7b\x7d\n",
   .text "      OwnedEncodedIovecMessage(const OwnedEncodedIovecMessage&) = delete;\n",
   .text "      OwnedEncodedIovecMessage(OwnedEncodedIovecMessage&&) = delete;\n",
   .text "      OwnedEncodedIovecMessage* operator=(const OwnedEncodedIovecMessage&) = delete;\n",
   .text "      OwnedEncodedIovecMessage* operator=(OwnedEncodedIovecMessage&&) = delete;\n",
   .text "\n",
   .text "      zx_status_t status() const \x7b return message_.status(); \x7d\n",
   .text "#ifdef __Fuchsia__\n",
   .text "      const char* status_string() const \x7b return message_.status_string(); \x7d\n",
   .text "#endif\n",
   .text "      bool ok() const \x7b return message_.ok(); \x7d\n",
   .text "      const char* error() const \x7b return message_.error(); \x7d\n",
   .text "\n",
   .text "      ::fidl::OutgoingIovecMessage& GetOutgoingMessage() \x7b return message_.GetOutgoingMessage(); \x7d\n",
   .text "\n",
   .text "      template <typename ChannelLike>\n",
   .text "      void Write(ChannelLike&& client) \x7b message_.Write(std::forward<ChannelLike>(client)); \x7d\n",
   .text "\n",
   .text "     private:\n",
   .text "      zx_channel_iovec_t iovecs_[::fidl::internal::kIovecBufferSize];\n",
   .text "      fidl_iovec_substitution_t substitutions_[::fidl::internal::kIovecBufferSize];\n",
   .text "      UnownedEncodedIovecMessage message_;\n",
   .text "    \x7d;\n"]

/-- The class DecodedMessage of the request message of method m: template "ProtocolDeclaration", fragment_protocol.tmpl.go lines 630-661. -/
def RequestDecodedMessage (m : Method) : List (Frag Dot) :=
  [.text "    class DecodedMessage final : public ::fidl::internal::IncomingMessage \x7b\n",
   .text "     public:\n",
   .text "      DecodedMessage(uint8_t* bytes, uint32_t byte_actual, zx_handle_info_t* handles = nullptr,\n",
   .text "                      uint32_t handle_actual = 0)\n",
   .text "          : ::fidl::internal::IncomingMessage(bytes, byte_actual, handles, handle_actual) \x7b\n",
   .text "        Decode<",
   .val m.Name,
   .text "Request>();\n",
   .text "      \x7d\n",
   .text "      DecodedMessage(fidl_incoming_msg_t* msg) : ::fidl::internal::IncomingMessage(msg) \x7b\n",
   .text "        Decode<",
   .val m.Name,
   .text "Request>();\n",
   .text "      \x7d\n",
   .text "      DecodedMessage(const DecodedMessage&) = delete;\n",
   .text "      DecodedMessage(DecodedMessage&&) = delete;\n",
   .text "      DecodedMessage* operator=(const DecodedMessage&) = delete;\n",
   .text "      DecodedMessage* operator=(DecodedMessage&&) = delete;"] ++
  (if m.RequestIsResource = true then
    [.text "\n",
     .text "      ~DecodedMessage() \x7b\n",
     .text "        if (ok() && (PrimaryObject() != nullptr)) \x7b\n",
     .text "          PrimaryObject()->_CloseHandles();\n",
     .text "        \x7d\n",
     .text "      \x7d"]
  else
    []) ++
  [.text "\n",
   .text "\n",
   .text "      ",
   .val m.Name,
   .text "Request* PrimaryObject() \x7b\n",
   .text "        ZX_DEBUG_ASSERT(ok());\n",
   .text "        return reinterpret_cast<",
   .val m.Name,
   .text "Request*>(bytes());\n",
   .text "      \x7d\n",
   .text "\n",
   .text "      // Release the ownership of the decoded message. That means that the handles won't be closed\n",
   .text "      // When the object is destroyed.\n",
   .text "      // After calling this method, the DecodedMessage object should not be used anymore.\n",
   .text "      void ReleasePrimaryObject() \x7b ResetBytes(); \x7d\n",
   .text "    \x7d;\n"]

/-- The request message struct of method m: template "ProtocolDeclaration", fragment_protocol.tmpl.go lines 377-667, with the nested classes defined above. -/
def RequestMessage (m : Method) : List (Frag Dot) :=
  (if m.HasRequest = true then
    [.text "\n",
     .text "  struct ",
     .val m.Name,
     .text "Request final \x7b\n",
     .text "    FIDL_ALIGNDECL",
     .text "\n",
     .text "    fidl_message_header_t _hdr;"] ++
    (m.Request.flatMap fun param =>
      [.text "\n",
       .text "    ",
       .val param.Ty,
       .text " ",
       .val param.Name,
       .text ";"]) ++
    (if m.Request ≠ [] then
      [.text "\n",
       .text "    explicit ",
       .val m.Name,
       .text "Request(zx_txid_t _txid",
       .func "CommaMessagePrototype" [.params m.Request],
       .text ")\n",
       .text "    ",
       .func "InitMessage" [.params m.Request],
       .text " \x7b\n",
       .text "      _InitHeader(_txid);\n",
       .text "    \x7d"]
    else
      []) ++
    [.text "\n",
     .text "    explicit ",
     .val m.Name,
     .text "Request(zx_txid_t _txid) \x7b\n",
     .text "      _InitHeader(_txid);\n",
     .text "    \x7d\n",
     .text "\n",
     .text "    static constexpr const fidl_type_t* Type ="] ++
    (if m.Request ≠ [] then
      [.text "\n",
       .text "      &",
       .val m.RequestCodingTable.Str,
       .text ";"]
    else
      [.text "\n",
       .text "      &::fidl::_llcpp_coding_AnyZeroArgMessageTable;"]) ++
    [.text "\n",
     .text "    static constexpr uint32_t MaxNumHandles = ",
     .val (toString m.RequestMaxHandles),
     .text ";\n",
     .text "    static constexpr uint32_t PrimarySize = ",
     .val (toString m.RequestSize),
     .text ";\n",
     .text "    static constexpr uint32_t MaxOutOfLine = ",
     .val (toString m.RequestMaxOutOfLine),
     .text ";\n",
     .text "    static constexpr uint32_t AltPrimarySize = ",
     .val (toString m.RequestSize),
     .text ";\n",
     .text "    static constexpr uint32_t AltMaxOutOfLine = ",
     .val (toString m.RequestMaxOutOfLine),
     .text ";\n",
     .text "    static constexpr bool HasFlexibleEnvelope = ",
     .val (toString m.RequestFlexible),
     .text ";\n",
     .text "    static constexpr bool HasPointer = ",
     .val (toString m.RequestHasPointer),
     .text ";\n",
     .text "    static constexpr ::fidl::internal::TransactionalMessageKind MessageKind =\n",
     .text "        ::fidl::internal::TransactionalMessageKind::kRequest;"] ++
    (if m.HasResponse = true ∧ m.Response ≠ [] then
      [.text "\n",
       .text "    using ResponseType = ",
       .val m.Name,
       .text "Response;"]
    else
      []) ++
    (if m.RequestIsResource = true then
      [.text "\n",
       .text "    void _CloseHandles();"]
    else
      []) ++
    [.text "\n",
     .text "\n",
     .text "  private:\n"] ++
    RequestUnownedEncodedByteMessage m ++
    [.text "\n"] ++
    RequestUnownedEncodedIovecMessage m ++
    [.text "\n"] ++
    RequestOwnedEncodedByteMessage m ++
    [.text "\n"] ++
    RequestOwnedEncodedIovecMessage m ++
    [.text "\n",
     .text "  public:\n",
     .text "    friend ::fidl::internal::EncodedMessageTypes<",
     .val m.Name,
     .text "Request>;\n",
     .text "    using OwnedEncodedMessage = OwnedEncodedByteMessage;\n",
     .text "    using UnownedEncodedMessage = UnownedEncodedByteMessage;\n",
     .text "\n"] ++
    RequestDecodedMessage m ++
    [.text "\n",
     .text "   private:\n",
     .text "    void _InitHeader(zx_txid_t _txid);\n",
     .text "  \x7d;\n"]
  else
    [])

/-- The private section of the class ResultOf::<Method>: template "ProtocolDeclaration", fragment_protocol.tmpl.go lines 756-763. -/
def ResultOfBytes (m : Method) : List (Frag Dot) :=
  (if m.HasResponse = true then
    (if m.ResponseReceivedMaxSize > 512 then
      [.text "\n",
       .text "        std::unique_ptr<::fidl::internal::AlignedBuffer<"] ++
      ResponseReceivedSize m ++
      [.text ">> bytes_;"]
    else
      [.text "\n",
       .text "        FIDL_ALIGNDECL\n",
       .text "        uint8_t bytes_[",
       .val m.Name,
       .text "Response::PrimarySize + ",
       .val m.Name,
       .text "Response::MaxOutOfLine];"])
  else
    [])

/-- The class ResultOf::<Method> of a client method m of protocol p: body of the range over .ClientMethods, fragment_protocol.tmpl.go lines 706-764. -/
def ResultOfMethod (p : Protocol) (m : Method) : List (Frag Dot) :=
  (if m.HasResponse = true then
    []
  else
    []) ++
  [.text "\n",
   .text "    class ",
   .val m.Name,
   .text " final : public ::fidl::Result \x7b\n",
   .text "     public:\n",
   .text "      explicit ",
   .val m.Name,
   .text "(\n",
   .text "          ::fidl::UnownedClientEnd<",
   .val p.Str,
   .text "> _client",
   .func "CommaMessagePrototype" [.params m.Request],
   .text ");"] ++
  (if m.HasResponse = true then
    [.text "\n",
     .text "      ",
     .val m.Name,
     .text "(\n",
     .text "          ::fidl::UnownedClientEnd<",
     .val p.Str,
     .text "> _client",
     .func "CommaMessagePrototype" [.params m.Request],
     .text ",\n",
     .text "          zx_time_t _deadline);"]
  else
    []) ++
  [.text "\n",
   .text "      explicit ",
   .val m.Name,
   .text "(const ::fidl::Result& result) : ::fidl::Result(result) \x7b\x7d\n",
   .text "      ",
   .val m.Name,
   .text "(",
   .val m.Name,
   .text "&&) = delete;\n",
   .text "      ",
   .val m.Name,
   .text "(const ",
   .val m.Name,
   .text "&) = delete;\n",
   .text "      ",
   .val m.Name,
   .text "* operator=(",
   .val m.Name,
   .text "&&) = delete;\n",
   .text "      ",
   .val m.Name,
   .text "* operator=(const ",
   .val m.Name,
   .text "&) = delete;"] ++
  (if m.HasResponse = true ∧ m.ResponseIsResource = true then
    [.text "\n",
     .text "      ~",
     .val m.Name,
     .text "() \x7b\n",
     .text "        if (ok()) \x7b\n",
     .text "          Unwrap()->_CloseHandles();\n",
     .text "        \x7d\n",
     .text "      \x7d"]
  else
    [.text "\n",
     .text "      ~",
     .val m.Name,
     .text "() = default;"]) ++
  (if m.HasResponse = true then
    [.text "\n",
     .text "\n",
     .text "      ",
     .val m.Name,
     .text "Response* Unwrap() \x7b\n",
     .text "        ZX_DEBUG_ASSERT(ok());\n",
     .text "        return reinterpret_cast<",
     .val m.Name,
     .text "Response*>("] ++
    ResponseReceivedByteAccess m ++
    [.text ");\n",
     .text "      \x7d\n",
     .text "      const ",
     .val m.Name,
     .text "Response* Unwrap() const \x7b\n",
     .text "        ZX_DEBUG_ASSERT(ok());\n",
     .text "        return reinterpret_cast<const ",
     .val m.Name,
     .text "Response*>("] ++
    ResponseReceivedByteAccess m ++
    [.text ");\n",
     .text "      \x7d\n",
     .text "\n",
     .text "      ",
     .val m.Name,
     .text "Response& value() \x7b return *Unwrap(); \x7d\n",
     .text "      const ",
     .val m.Name,
     .text "Response& value() const \x7b return *Unwrap(); \x7d\n",
     .text "\n",
     .text "      ",
     .val m.Name,
     .text "Response* operator->() \x7b return &value(); \x7d\n",
     .text "      const ",
     .val m.Name,
     .text "Response* operator->() const \x7b return &value(); \x7d\n",
     .text "\n",
     .text "      ",
     .val m.Name,
     .text "Response& operator*() \x7b return value(); \x7d\n",
     .text "      const ",
     .val m.Name,
     .text "Response& operator*() const \x7b return value(); \x7d"]
  else
    []) ++
  [.text "\n",
   .text "\n",
   .text "     private:"] ++
  ResultOfBytes m ++
  [.text "\n",
   .text "    \x7d;"]

/-- Template "SyncServerDispatchMethodSignature" (fragment_sync_server.tmpl.go, lines 8-10). -/
def SyncServerDispatchMethodSignature : List (Frag Dot) :=
  [.text "(Interface* impl, fidl_incoming_msg_t* msg, ::fidl::Transaction* txn)"]

/-- Template "SyncServerDispatchMoveParams" (fragment_sync_server.tmpl.go, lines 12-16):
the dot is the parameter list, `index` is the range index. -/
def SyncServerDispatchMoveParams (ps : List Parameter) : List (Frag Dot) :=
  (ps.enum.flatMap fun (ip : Nat × Parameter) =>
    (if ip.1 ≠ 0 then
      [.text ", "]
    else
      []) ++
    [.text "std::move(message->",
     .val ip.2.Name,
     .text ")"])

/-- The dispatch function in namespace methods for method m: body of the range over .Methods, fragment_sync_server.tmpl.go lines 21-33. -/
def DispatchMethod (m : Method) : List (Frag Dot) :=
  (if m.HasRequest = true then
    [.text "\n",
     .text "\n",
     .text "void ",
     .val m.LLProps.ProtocolName.Name,
     .text "Dispatch",
     .val m.Name,
     .text "(void* interface, void* bytes,\n",
     .text "    ::fidl::Transaction* txn) \x7b"] ++
    (if m.Request ≠ [] then
      [.text "\n",
       .text "  auto message = reinterpret_cast<",
       .val m.LLProps.ProtocolName.Str,
       .text "::",
       .val m.Name,
       .text "Request*>(bytes);"]
    else
      []) ++
    [.text "\n",
     .text "  ",
     .val m.LLProps.ProtocolName.Str,
     .text "::Interface::",
     .val m.Name,
     .text "Completer::Sync completer(txn);\n",
     .text "  reinterpret_cast<",
     .val m.LLProps.ProtocolName.Str,
     .text "::Interface*>(interface)\n",
     .text "      ->",
     .val m.Name,
     .text "("] ++
    SyncServerDispatchMoveParams m.Request ++
    (if m.Request ≠ [] then
      [.text ","]
    else
      []) ++
    [.text "\n",
     .text "                    completer);\n",
     .text "\x7d"]
  else
    [])

/-- The entry of the dispatch table for client method m: body of the range over .ClientMethods, fragment_sync_server.tmpl.go lines 42-43. -/
def MethodEntry (m : Method) : List (Frag Dot) :=
  [.text "  \x7b ",
   .val m.OrdinalName,
   .text ", ",
   .val m.LLProps.ProtocolName.Str,
   .text "::",
   .val m.Name,
   .text "Request::Type,\n",
   .text "    methods::",
   .val m.LLProps.ProtocolName.Name,
   .text "Dispatch",
   .val m.Name,
   .text " \x7d,"]

/-- The body of the generated TryDispatch: fragment_sync_server.tmpl.go lines 50-57. -/
def TryDispatchBody (p : Protocol) : List (Frag Dot) :=
  (if p.ClientMethods ≠ [] then
    [.text "\n",
     .text "  return ::fidl::internal::TryDispatch(\n",
     .text "      impl, msg, txn,\n",
     .text "      entries::",
     .val p.Name,
     .text ",\n",
     .text "      entries::",
     .val p.Name,
     .text " + sizeof(entries::",
     .val p.Name,
     .text ") / sizeof(::fidl::internal::MethodEntry));"]
  else
    [.text "\n",
     .text "    return ::fidl::DispatchResult::kNotFound;"])

/-- Template "SyncServerTryDispatchMethodDefinition" (fragment_sync_server.tmpl.go, lines 18-59). -/
def SyncServerTryDispatchMethodDefinition (p : Protocol) : List (Frag Dot) :=
  [.text "\n",
   .text "namespace methods \x7b"] ++
  (p.Methods.flatMap fun m =>
    DispatchMethod m) ++
  [.text "\n",
   .text "\n",
   .text "\x7d  // namespace methods\n",
   .text "\n",
   .text "namespace entries \x7b\n",
   .text "\n",
   .text "::fidl::internal::MethodEntry ",
   .val p.Name,
   .text "[] = \x7b"] ++
  (p.ClientMethods.flatMap fun m =>
    [.text "\n"] ++
    MethodEntry m) ++
  [.text "\n",
   .text "\x7d;\n",
   .text "\n",
   .text "\x7d  // namespace entries\n",
   .text "\n",
   .text "::fidl::DispatchResult ",
   .val p.Name,
   .text "::TryDispatch"] ++
  SyncServerDispatchMethodSignature ++
  [.text " \x7b"] ++
  TryDispatchBody p ++
  [.text "\n",
   .text "\x7d"]

/-- The body of the generated Dispatch: fragment_sync_server.tmpl.go lines 63-74. -/
def DispatchBody (p : Protocol) : List (Frag Dot) :=
  (if p.ClientMethods ≠ [] then
    [.text "\n",
     .text "  ::fidl::DispatchResult dispatch_result = TryDispatch(impl, msg, txn);\n",
     .text "  if (dispatch_result == ::fidl::DispatchResult::kNotFound) \x7b\n",
     .text "    FidlHandleInfoCloseMany(msg->handles, msg->num_handles);\n",
     .text "    txn->InternalError(\x7b::fidl::UnbindInfo::kUnexpectedMessage, ZX_ERR_NOT_SUPPORTED\x7d);\n",
     .text "  \x7d\n",
     .text "  return dispatch_result;"]
  else
    [.text "\n",
     .text "  FidlHandleInfoCloseMany(msg->handles, msg->num_handles);\n",
     .text "  txn->InternalError(\x7b::fidl::UnbindInfo::kUnexpectedMessage, ZX_ERR_NOT_SUPPORTED\x7d);\n",
     .text "  return ::fidl::DispatchResult::kNotFound;"])

/-- Template "SyncServerDispatchMethodDefinition" (fragment_sync_server.tmpl.go, lines 61-82). -/
def SyncServerDispatchMethodDefinition (p : Protocol) : List (Frag Dot) :=
  [.text "\n",
   .text "::fidl::DispatchResult ",
   .val p.Name,
   .text "::Dispatch"] ++
  SyncServerDispatchMethodSignature ++
  [.text " \x7b"] ++
  DispatchBody p ++
  [.text "\n",
   .text "\x7d\n",
   .text "\n",
   .text "::fidl::DispatchResult ",
   .val p.Name,
   .text "::Interface::dispatch_message(fidl_incoming_msg_t* msg,\n",
   .text "                                                         ::fidl::Transaction* txn) \x7b\n",
   .text "  return ",
   .val p.Name,
   .text "::Dispatch(this, msg, txn);\n",
   .text "\x7d"]

/-! ## fragment_protocol.tmpl.go, template "ProtocolDefinition" -/

/-- The out-of-line definitions of _InitHeader and _CloseHandles for method m: body of the range over .Methods in template "ProtocolDefinition", fragment_protocol.tmpl.go lines 1167-1195. -/
def MethodDefinitions (m : Method) : List (Frag Dot) :=
  (if m.HasRequest = true then
    [.text "\n",
     .text "\n",
     .text "    void ",
     .val m.LLProps.ProtocolName.Str,
     .text "::",
     .val m.Name,
     .text "Request::_InitHeader(zx_txid_t _txid) \x7b\n",
     .text "      fidl_init_txn_header(&_hdr, _txid, ",
     .val m.OrdinalName,
     .text ");\n",
     .text "    \x7d"] ++
    (if m.RequestIsResource = true then
      [.text "\n",
       .text "\n",
       .text "    void ",
       .val m.LLProps.ProtocolName.Str,
       .text "::",
       .val m.Name,
       .text "Request::_CloseHandles() \x7b"] ++
      (m.Request.flatMap fun x =>
        [.func "CloseHandles" [.param x, .bool false, .bool false]]) ++
      [.text "\n",
       .text "    \x7d"]
    else
      [])
  else
    []) ++
  (if m.HasResponse = true then
    [.text "\n",
     .text "\n",
     .text "    void ",
     .val m.LLProps.ProtocolName.Str,
     .text "::",
     .val m.Name,
     .text "Response::_InitHeader() \x7b\n",
     .text "      fidl_init_txn_header(&_hdr, 0, ",
     .val m.OrdinalName,
     .text ");\n",
     .text "    \x7d"] ++
    (if m.ResponseIsResource = true then
      [.text "\n",
       .text "\n",
       .text "    void ",
       .val m.LLProps.ProtocolName.Str,
       .text "::",
       .val m.Name,
       .text "Response::_CloseHandles() \x7b"] ++
      (m.Response.flatMap fun x =>
        [.func "CloseHandles" [.param x, .bool false, .bool false]]) ++
      [.text "\n",
       .text "    \x7d"]
    else
      [])
  else
    [])

/-- Template "ProtocolDefinition" (fragment_protocol.tmpl.go, lines 1096-1199). -/
def ProtocolDefinition (p : Protocol) : List (Frag Dot) :=
  [.text "\n",
   .func "EnsureNamespace" [.protocol p],
   .text "\n",
   .text "namespace \x7b\n"] ++
  (p.Methods.flatMap fun m =>
    [.text "\n",
     .text "[[maybe_unused]]\n",
     .text "constexpr uint64_t ",
     .val m.OrdinalName,
     .text " = ",
     .val (toString m.Ordinal),
     .text "lu; ",
     .text "\n",
     .func "EnsureNamespace" [.name m.RequestCodingTable],
     .text "\n",
     .text "extern \"C\" const fidl_type_t ",
     .val m.RequestCodingTable.Name,
     .text ";\n",
     .func "EnsureNamespace" [.name m.ResponseCodingTable],
     .text "\n",
     .text "extern \"C\" const fidl_type_t ",
     .val m.ResponseCodingTable.Name,
     .text ";"]) ++
  [.text "\n",
   .text "\n",
   .text "\x7d  // namespace"] ++
  (p.ClientMethods.flatMap fun m =>
    [.tmpl "SyncRequestManagedMethodDefinition" (.method m)] ++
    (if m.Request ≠ [] ∨ m.Response ≠ [] then
      [.text "\n",
       .tmpl "SyncRequestCallerAllocateMethodDefinition" (.method m)]
    else
      []) ++
    [.text "\n"]) ++
  (p.ClientMethods.flatMap fun m =>
    [.text "\n",
     .tmpl "ClientSyncRequestManagedMethodDefinition" (.method m)] ++
    (if m.Request ≠ [] ∨ m.Response ≠ [] then
      [.text "\n",
       .tmpl "ClientSyncRequestCallerAllocateMethodDefinition" (.method m)]
    else
      []) ++
    (if m.HasResponse = true then
      [.text "\n",
       .tmpl "ClientAsyncRequestManagedMethodDefinition" (.method m)]
    else
      [])) ++
  [.text "\n",
   .tmpl "ClientDispatchDefinition" (.protocol p),
   .text "\n"] ++
  (if p.Events ≠ [] then
    [.tmpl "EventHandlerHandleOneEventMethodDefinition" (.protocol p)]
  else
    []) ++
  [.text "\n"] ++
  SyncServerTryDispatchMethodDefinition p ++
  [.text "\n"] ++
  SyncServerDispatchMethodDefinition p ++
  (if p.Methods ≠ [] then
    [.text "\n"] ++
    (p.TwoWayMethods.flatMap fun m =>
      [.tmpl "ReplyManagedMethodDefinition" (.method m)] ++
      (if m.Result = true then
        [.tmpl "ReplyManagedResultSuccessMethodDefinition" (.method m),
         .tmpl "ReplyManagedResultErrorMethodDefinition" (.method m)]
      else
        []) ++
      (if m.Response ≠ [] then
        [.text "\n",
         .tmpl "ReplyCallerAllocateMethodDefinition" (.method m)] ++
        (if m.Result = true then
          [.tmpl "ReplyCallerAllocateResultSuccessMethodDefinition" (.method m)]
        else
          [])
      else
        []) ++
      [.text "\n"]) ++
    [.text "\n"] ++
    (p.Methods.flatMap fun m =>
      [.text "\n"] ++
      MethodDefinitions m)
  else
    [])

/-! ## file_header.tmpl.go -/

/-- The forward declaration of d: body of the first range over .Decls in template "Header", file_header.tmpl.go lines 62-68. -/
def ForwardDeclarations (d : Decl) : List (Frag Dot) :=
  (if d.Kind = declKind.Bits then
    [.tmpl "BitsForwardDeclaration" (.decl d)]
  else
    []) ++
  (if d.Kind = declKind.Enum then
    [.tmpl "EnumForwardDeclaration" (.decl d)]
  else
    []) ++
  (if d.Kind = declKind.Protocol then
    [.tmpl "ProtocolForwardDeclaration" (.decl d)]
  else
    []) ++
  (if d.Kind = declKind.Service then
    [.tmpl "ServiceForwardDeclaration" (.decl d)]
  else
    []) ++
  (if d.Kind = declKind.Struct then
    [.tmpl "StructForwardDeclaration" (.decl d)]
  else
    []) ++
  (if d.Kind = declKind.Table then
    [.tmpl "TableForwardDeclaration" (.decl d)]
  else
    []) ++
  (if d.Kind = declKind.Union then
    [.tmpl "UnionForwardDeclaration" (.decl d)]
  else
    [])

/-- The full declaration of d when it is a table or a union: body of the second range over .Decls, file_header.tmpl.go lines 75-76. -/
def TableAndUnionDeclarations (d : Decl) : List (Frag Dot) :=
  (if d.Kind = declKind.Table then
    [.tmpl "TableDeclaration" (.decl d)]
  else
    []) ++
  (if d.Kind = declKind.Union then
    [.tmpl "UnionDeclaration" (.decl d)]
  else
    [])

/-- The full declaration of d when it is a constant, protocol, service or struct: body of the third range over .Decls, file_header.tmpl.go lines 80-83. -/
def OtherDeclarations (d : Decl) : List (Frag Dot) :=
  (if d.Kind = declKind.Const then
    [.tmpl "ConstDeclaration" (.decl d)]
  else
    []) ++
  (if d.Kind = declKind.Protocol then
    [.tmpl "ProtocolDeclaration" (.decl d)]
  else
    []) ++
  (if d.Kind = declKind.Service then
    [.tmpl "ServiceDeclaration" (.decl d)]
  else
    []) ++
  (if d.Kind = declKind.Struct then
    [.tmpl "StructDeclaration" (.decl d)]
  else
    [])

/-- The traits of d: body of the fourth range over .Decls, file_header.tmpl.go lines 90-95. -/
def Traits (d : Decl) : List (Frag Dot) :=
  (if d.Kind = declKind.Bits then
    [.tmpl "BitsTraits" (.decl d)]
  else
    []) ++
  (if d.Kind = declKind.Protocol then
    [.tmpl "ProtocolTraits" (.decl d)]
  else
    []) ++
  (if d.Kind = declKind.Struct then
    [.tmpl "StructTraits" (.decl d)]
  else
    []) ++
  (if d.Kind = declKind.Table then
    [.tmpl "TableTraits" (.decl d)]
  else
    []) ++
  (if d.Kind = declKind.Union then
    [.tmpl "UnionTraits" (.decl d)]
  else
    []) ++
  (if d.Kind = declKind.Enum then
    [.tmpl "EnumTraits" (.decl d)]
  else
    [])

/-- Template "Header" (file_header.tmpl.go, lines 8-111). -/
def Header (root : Root) : List (Frag Dot) :=
  [.func "UseWire" [],
   .text "// WARNING: This file is machine generated by fidlgen.\n",
   .text "\n",
   .text "#pragma once\n",
   .text "\n",
   .text "#include <algorithm>\n",
   .text "#include <cstddef>\n",
   .text "#include <variant>\n",
   .text "\n",
   .text "#include <lib/fidl/internal.h>\n",
   .text "#include <lib/fidl/llcpp/array.h>\n",
   .text "#include <lib/fidl/llcpp/buffer_allocator.h>\n",
   .text "#include <lib/fidl/llcpp/buffer_then_heap_allocator.h>\n",
   .text "#include <lib/fidl/llcpp/coding.h>\n",
   .text "#include <lib/fidl/llcpp/envelope.h>\n",
   .text "#include <lib/fidl/llcpp/errors.h>\n",
   .text "#include <lib/fidl/llcpp/memory.h>\n",
   .text "#include <lib/fidl/llcpp/message.h>\n",
   .text "#include <lib/fidl/llcpp/message_storage.h>\n",
   .text "#include <lib/fidl/llcpp/object_view.h>\n",
   .text "#include <lib/fidl/llcpp/string_view.h>\n",
   .text "#include <lib/fidl/llcpp/tracking_ptr.h>\n",
   .text "#include <lib/fidl/llcpp/traits.h>\n",
   .text "#include <lib/fidl/llcpp/vector_view.h>\n",
   .text "#include <lib/fit/function.h>\n",
   .text "#include <lib/stdcompat/optional.h>\n",
   .text "#ifdef __Fuchsia__",
   .func "PushNamespace" [],
   .text "\n",
   .text "#include <lib/fidl/llcpp/client.h>\n",
   .text "#include <lib/fidl/llcpp/client_end.h>\n",
   .text "#include <lib/fidl/llcpp/connect_service.h>\n",
   .text "#include <lib/fidl/llcpp/result.h>\n",
   .text "#include <lib/fidl/llcpp/server.h>\n",
   .text "#include <lib/fidl/llcpp/server_end.h>\n",
   .text "#include <lib/fidl/llcpp/service_handler_interface.h>\n",
   .text "#include <lib/fidl/llcpp/sync_call.h>\n",
   .text "#include <lib/fidl/llcpp/transaction.h>\n",
   .text "#include <lib/fidl/txn_header.h>\n"] ++
  (root.HandleTypes.flatMap fun h =>
    [.text "#include <lib/zx/",
     .val h,
     .text ".h>\n"]) ++
  [.func "PopNamespace" [],
   .text "\n",
   .text "#endif  // __Fuchsia__\n",
   .text "#include <zircon/fidl.h>\n"] ++
  (if root.Headers ≠ [] then
    [.text "\n"] ++
    (root.Headers.flatMap fun h =>
      [.text "#include <",
       .val h,
       .text "/",
       .val root.IncludeStem,
       .text ".h>\n"])
  else
    []) ++
  (root.Decls.flatMap fun d =>
    ForwardDeclarations d) ++
  (root.Decls.flatMap fun d =>
    TableAndUnionDeclarations d) ++
  (root.Decls.flatMap fun d =>
    OtherDeclarations d) ++
  [.text "\n",
   .text "\n",
   .text "\n",
   .func "EnsureNamespace" [.str "fidl"]] ++
  (root.Decls.flatMap fun d =>
    Traits d) ++
  (root.Decls.flatMap fun d =>
    [.text "\n",
     .func "EnsureNamespace" [.decl d]] ++
    (if d.Kind = declKind.Protocol then
      [.text "\n",
       .tmpl "ClientDeclaration" (.decl d),
       .text "\n",
       .text "\n",
       .tmpl "EventSenderDeclaration" (.decl d),
       .text "\n"]
    else
      [])) ++
  [.text "\n",
   .text "\n",
   .text "\n",
   .func "EndOfFile" [],
   .text "\n"]

/-! ## Meaning of the generated dispatch functions

The bodies that the templates write for `TryDispatch` and `Dispatch` are straight-line
C++ with one `if`.  `exec` runs such a body, statement by statement, on the rendered
fragments themselves. -/

/-- The values of `::fidl::DispatchResult`. -/
inductive DispatchResult where
  | kNotFound
  | kFound
  deriving DecidableEq, Repr

/-- The fields of `fidl_incoming_msg_t` that the generated code reads. -/
structure IncomingMsg where
  handles : List Nat
  num_handles : Nat
  deriving DecidableEq, Repr

/-- What a dispatch does to the message and to the transaction, in order.  `library` is
any effect of the runtime dispatcher `::fidl::internal::TryDispatch` and of the handler
it calls. -/
inductive Effect where
  | FidlHandleInfoCloseMany (handles : List Nat) (num_handles : Nat)
  | InternalError (reason : String) (status : String)
  | library (e : Nat)
  deriving DecidableEq, Repr

/-- The state of a running body: the local `dispatch_result`, the effects so far, and
whether control is inside an `if` block whose condition was false. -/
structure Frame where
  dispatch_result : Option DispatchResult
  effects : List Effect
  skipping : Bool
  deriving DecidableEq, Repr

/-- Runs a generated function body.  `lib` is the runtime `::fidl::internal::TryDispatch`
on the named method table, `tryDispatch` is what the call `TryDispatch(impl, msg, txn)`
of the sibling generated function yields.  The result is `none` when the body holds a
statement that is not one of those the two templates write, or ends without `return`. -/
def exec (lib : String → IncomingMsg → DispatchResult × List Effect)
    (tryDispatch : Option (DispatchResult × List Effect)) (msg : IncomingMsg) :
    List (Frag Dot) → Frame → Option (DispatchResult × List Effect)
  | [], _ => none
  | .text s :: rest, fr =>
    if fr.skipping then
      if s = "  \x7d\n" then exec lib tryDispatch msg rest { fr with skipping := false }
      else exec lib tryDispatch msg rest fr
    else if s = "\n" ∨ s = "  \x7d\n" then exec lib tryDispatch msg rest fr
    else if s = "  ::fidl::DispatchResult dispatch_result = TryDispatch(impl, msg, txn);\n" then
      match tryDispatch with
      | none => none
      | some (r, es) =>
        exec lib tryDispatch msg rest
          { fr with dispatch_result := some r, effects := fr.effects ++ es }
    else if s = "  if (dispatch_result == ::fidl::DispatchResult::kNotFound) \x7b\n" then
      match fr.dispatch_result with
      | none => none
      | some r =>
        exec lib tryDispatch msg rest { fr with skipping := decide (r ≠ DispatchResult.kNotFound) }
    else if s = "    FidlHandleInfoCloseMany(msg->handles, msg->num_handles);\n"
        ∨ s = "  FidlHandleInfoCloseMany(msg->handles, msg->num_handles);\n" then
      exec lib tryDispatch msg rest
        { fr with effects := fr.effects ++ [Effect.FidlHandleInfoCloseMany msg.handles msg.num_handles] }
    else if s = "    txn->InternalError(\x7b::fidl::UnbindInfo::kUnexpectedMessage, ZX_ERR_NOT_SUPPORTED\x7d);\n"
        ∨ s = "  txn->InternalError(\x7b::fidl::UnbindInfo::kUnexpectedMessage, ZX_ERR_NOT_SUPPORTED\x7d);\n" then
      exec lib tryDispatch msg rest
        { fr with effects := fr.effects ++
            [Effect.InternalError "::fidl::UnbindInfo::kUnexpectedMessage" "ZX_ERR_NOT_SUPPORTED"] }
    else if s = "  return dispatch_result;" then
      fr.dispatch_result.map fun r => (r, fr.effects)
    else if s = "  return ::fidl::DispatchResult::kNotFound;"
        ∨ s = "    return ::fidl::DispatchResult::kNotFound;" then
      some (DispatchResult.kNotFound, fr.effects)
    else if s = "  return ::fidl::internal::TryDispatch(\n" then
      match rest with
      | [.text "      impl, msg, txn,\n", .text "      entries::", .val first, .text ",\n",
         .text "      entries::", .val last, .text " + sizeof(entries::", .val size,
         .text ") / sizeof(::fidl::internal::MethodEntry));"] =>
        if first = last ∧ last = size then
          some ((lib first msg).1, fr.effects ++ (lib first msg).2)
        else none
      | _ => none
    else none
  | _ :: _, _ => none

/-- The generated `TryDispatch` of protocol `p`, run on `msg`. -/
def TryDispatch (p : Protocol) (lib : String → IncomingMsg → DispatchResult × List Effect)
    (msg : IncomingMsg) : Option (DispatchResult × List Effect) :=
  exec lib none msg (TryDispatchBody p) ⟨none, [], false⟩

/-- The generated `Dispatch` of protocol `p`, run on `msg`; its call of `TryDispatch` is
the generated `TryDispatch` of the same protocol. -/
def Dispatch (p : Protocol) (lib : String → IncomingMsg → DispatchResult × List Effect)
    (msg : IncomingMsg) : Option (DispatchResult × List Effect) :=
  exec lib (TryDispatch p lib msg) msg (DispatchBody p) ⟨none, [], false⟩

/-! ## Declaration passes of the header, as the specification words them -/

/-- The template that forward-declares a declaration of kind `k`, if any. -/
def forwardDeclarationOf : declKind → Option String
  | .Bits => some "BitsForwardDeclaration"
  | .Enum => some "EnumForwardDeclaration"
  | .Protocol => some "ProtocolForwardDeclaration"
  | .Service => some "ServiceForwardDeclaration"
  | .Struct => some "StructForwardDeclaration"
  | .Table => some "TableForwardDeclaration"
  | .Union => some "UnionForwardDeclaration"
  | .Const => none

/-- The template that fully declares a table or a union. -/
def tableOrUnionDeclarationOf : declKind → Option String
  | .Table => some "TableDeclaration"
  | .Union => some "UnionDeclaration"
  | _ => none

/-- The template that fully declares a constant, protocol, service or struct. -/
def otherDeclarationOf : declKind → Option String
  | .Const => some "ConstDeclaration"
  | .Protocol => some "ProtocolDeclaration"
  | .Service => some "ServiceDeclaration"
  | .Struct => some "StructDeclaration"
  | _ => none

/-- Whether a fragment is the call of a template that forward-declares or fully
declares a type or a constant. -/
def isDeclaration : Frag Dot → Bool
  | .tmpl n _ =>
    ["BitsForwardDeclaration", "EnumForwardDeclaration", "ProtocolForwardDeclaration",
     "ServiceForwardDeclaration", "StructForwardDeclaration", "TableForwardDeclaration",
     "UnionForwardDeclaration", "TableDeclaration", "UnionDeclaration", "ConstDeclaration",
     "ProtocolDeclaration", "ServiceDeclaration", "StructDeclaration"].contains n
  | _ => false

/-- Whether a fragment is the call of a template that fully declares a type or constant. -/
def isFullDeclaration : Frag Dot → Bool
  | .tmpl n _ =>
    ["TableDeclaration", "UnionDeclaration", "ConstDeclaration", "ProtocolDeclaration",
     "ServiceDeclaration", "StructDeclaration"].contains n
  | _ => false

/-- The calls of template `name d.Kind`, one for each declaration that has one, in the
order of the declarations. -/
def declarationPass (name : declKind → Option String) (ds : List Decl) : List (Frag Dot) :=
  ds.filterMap fun d => (name d.Kind).map fun n => Frag.tmpl n (Dot.decl d)

/-! ## Example values -/

/-- A two-way method without request or response parameters, such as `Ping() -> ()`. -/
def pingMethod : Method where
  Name := "Ping"
  DocComments := []
  OrdinalName := "kPinger_Ping_Ordinal"
  Ordinal := 7
  HasRequest := true
  Request := []
  RequestCodingTable := ⟨"::example_PingerPingRequestTable", "example_PingerPingRequestTable"⟩
  RequestSize := 16
  RequestMaxHandles := 0
  RequestMaxOutOfLine := 0
  RequestSentMaxSize := 16
  RequestFlexible := false
  RequestHasPointer := false
  RequestIsResource := false
  HasResponse := true
  Response := []
  ResponseCodingTable := ⟨"::example_PingerPingResponseTable", "example_PingerPingResponseTable"⟩
  ResponseSize := 16
  ResponseMaxHandles := 0
  ResponseMaxOutOfLine := 0
  ResponseSentMaxSize := 16
  ResponseReceivedMaxSize := 16
  ResponseFlexible := false
  ResponseHasPointer := false
  ResponseIsResource := false
  Transitional := false
  Result := false
  LLProps := ⟨⟨"::llcpp::example::Pinger", "Pinger"⟩⟩

/-- A two-way method with one request and one response parameter, such as
`Echo(string s) -> (string r)`. -/
def echoMethod : Method :=
  { pingMethod with
    Name := "Echo"
    OrdinalName := "kPinger_Echo_Ordinal"
    Ordinal := 8
    RequestCodingTable := ⟨"::example_PingerEchoRequestTable", "example_PingerEchoRequestTable"⟩
    ResponseCodingTable := ⟨"::example_PingerEchoResponseTable", "example_PingerEchoResponseTable"⟩
    Request := [⟨"::fidl::StringView", "s", 16⟩]
    RequestSize := 32
    RequestMaxOutOfLine := 4294967295
    RequestSentMaxSize := 4294967327
    RequestHasPointer := true
    Response := [⟨"::fidl::StringView", "r", 16⟩]
    ResponseSize := 32
    ResponseMaxOutOfLine := 4294967295
    ResponseSentMaxSize := 4294967327
    ResponseReceivedMaxSize := 4294967327
    ResponseHasPointer := true }

/-- A protocol with the two methods above. -/
def pingerProtocol : Protocol where
  Str := "::llcpp::example::Pinger"
  Name := "Pinger"
  Methods := [pingMethod, echoMethod]
  ClientMethods := [pingMethod, echoMethod]
  Events := []
  TwoWayMethods := [pingMethod, echoMethod]

end Llcpp

namespace Hlcpp

/-! ## Data model of `fidlgen_hlcpp` struct templates -/

/-- The handle information of a member (object type and rights, as printed). -/
structure HandleInformation where
  ObjectType : String
  Rights : String
  deriving DecidableEq, Repr

/-- A member of a struct, as the templates "StructTraits" and "StructDefinition" read
it; `HandleInformation` is a pointer, `none` when nil. -/
structure StructMember where
  Name : String
  Offset : Int
  HandleInformation : Option HandleInformation
  deriving DecidableEq, Repr

/-- A struct declaration: `Str` is what printing the struct gives (its qualified name). -/
structure Struct where
  Str : String
  Name : String
  Namespace : String
  IsResourceType : Bool
  InlineSize : Int
  HasPadding : Bool
  FullDeclMemcpyCompatibleDeps : List String
  Members : List StructMember
  deriving DecidableEq, Repr

/-- A value handed to a template function. -/
inductive Dot where
  | struct (s : Struct)
  deriving DecidableEq, Repr

/-! ## natural_types_struct.tmpl.go -/

/-- The HasPadding specialization of template "StructTraits": natural_types_struct.tmpl.go lines 147-150. -/
def StructTraitsHasPadding (s : Struct) : List (Frag Dot) :=
  (if s.HasPadding = true then
    [.text "\n",
     .text "template<>\n",
     .text "struct HasPadding<",
     .val s.Str,
     .text "> : public std::true_type \x7b\x7d;\n"]
  else
    [])

/-- The IsMemcpyCompatible specialization of template "StructTraits": natural_types_struct.tmpl.go lines 152-160. -/
def StructTraitsIsMemcpyCompatible (s : Struct) : List (Frag Dot) :=
  (if s.FullDeclMemcpyCompatibleDeps ≠ [] then
    [.text "\n",
     .text "template<>\n",
     .text "struct IsMemcpyCompatible<",
     .val s.Str,
     .text "> : public internal::BoolConstant<\n",
     .text "    !HasPadding<",
     .val s.Str,
     .text ">::value"] ++
    (s.FullDeclMemcpyCompatibleDeps.flatMap fun dep =>
      [.text "\n",
       .text "    && IsMemcpyCompatible<",
       .val dep,
       .text ">::value"]) ++
    [.text "> \x7b\x7d;\n"]
  else
    [])

/-- Template "StructTraits" (natural_types_struct.tmpl.go, lines 138-183). -/
def StructTraits (s : Struct) : List (Frag Dot) :=
  (if s.IsResourceType = true then
    [.text "\n",
     .text "#ifdef __Fuchsia__",
     .func "PushNamespace" []]
  else
    []) ++
  [.text "\n",
   .text "template <>\n",
   .text "struct CodingTraits<",
   .val s.Str,
   .text ">\n",
   .text "    : public EncodableCodingTraits<",
   .val s.Str,
   .text ", ",
   .val (toString s.InlineSize),
   .text "> \x7b\x7d;\n",
   .text "\n"] ++
  StructTraitsHasPadding s ++
  [.text "\n",
   .text "\n"] ++
  StructTraitsIsMemcpyCompatible s ++
  [.text "\n",
   .text "\n",
   .text "inline zx_status_t Clone(const ",
   .val s.Str,
   .text "& value,\n",
   .text "                         ",
   .val s.Str,
   .text "* result) \x7b\n",
   .text "  return ",
   .val s.Namespace,
   .text "::Clone(value, result);\n",
   .text "\x7d\n",
   .text "\n",
   .text "template<>\n",
   .text "struct Equality<",
   .val s.Str,
   .text "> \x7b\n",
   .text "  bool operator()(const ",
   .val s.Str,
   .text "& _lhs, const ",
   .val s.Str,
   .text "& _rhs) const \x7b"] ++
  (s.Members.flatMap fun member =>
    [.text "\n",
     .text "    if (!::fidl::Equals(_lhs.",
     .val member.Name,
     .text ", _rhs.",
     .val member.Name,
     .text ")) \x7b\n",
     .text "      return false;\n",
     .text "    \x7d"]) ++
  [.text "\n",
   .text "    return true;\n",
   .text "  \x7d\n",
   .text "\x7d;"] ++
  (if s.IsResourceType = true then
    [.func "PopNamespace" [],
     .text "\n",
     .text "#endif  // __Fuchsia__\n"]
  else
    [])

/-! ## Meaning of the generated traits

The traits are C++ constant expressions.  They are evaluated on the rendered fragments:
`primary` is the value of the primary template `HasPadding<T>::value` of the runtime
library (used when the generated header holds no specialization for `T`), and `mc` gives
`IsMemcpyCompatible<D>::value` for the types `D` a struct depends on. -/

/-- The value of `HasPadding<T>::value` after the text `spec` written by lines 147-150:
the specialization, when written for `T`, derives from `std::true_type`. -/
def hasPaddingValue (primary : String → Bool) (spec : List (Frag Dot)) (T : String) : Bool :=
  match spec with
  | [.text "\n", .text "template<>\n", .text "struct HasPadding<", .val T',
     .text "> : public std::true_type \x7b\x7d;\n"] => if T' = T then true else primary T
  | _ => primary T

/-- Evaluates the tail `&& IsMemcpyCompatible<D>::value ... > {};` of the argument of
`internal::BoolConstant`, left to right, starting from the value `acc` of what precedes. -/
def evalConjuncts (mc : String → Bool) : Bool → List (Frag Dot) → Option Bool
  | acc, [.text "> \x7b\x7d;\n"] => some acc
  | acc, .text "\n" :: .text "    && IsMemcpyCompatible<" :: .val D :: .text ">::value" :: rest =>
    evalConjuncts mc (acc && mc D) rest
  | _, _ => none

/-- Evaluates the specialization written by lines 152-160: the type it specializes
`IsMemcpyCompatible` for, and the value of the trait.  The result is `none` when the text
is not such a specialization (in particular when nothing was written). -/
def isMemcpyCompatibleValue (hp : String → Bool) (mc : String → Bool) :
    List (Frag Dot) → Option (String × Bool)
  | .text "\n" :: .text "template<>\n" :: .text "struct IsMemcpyCompatible<" :: .val T ::
      .text "> : public internal::BoolConstant<\n" :: .text "    !HasPadding<" :: .val T' ::
      .text ">::value" :: rest =>
    (evalConjuncts mc (!hp T') rest).map fun b => (T, b)
  | _ => none

/-! ## Example values -/

/-- A struct of two `int32` members, without padding. -/
def pointStruct : Struct where
  Str := "::example::Point"
  Name := "Point"
  Namespace := "::example"
  IsResourceType := false
  InlineSize := 8
  HasPadding := false
  FullDeclMemcpyCompatibleDeps := ["int32_t"]
  Members := [⟨"x", 0, none⟩, ⟨"y", 4, none⟩]

/-- A struct declaration without padding whose list `.FullDeclMemcpyCompatibleDeps` is
empty. -/
def bareStruct : Struct where
  Str := "::example::Bare"
  Name := "Bare"
  Namespace := "::example"
  IsResourceType := false
  InlineSize := 1
  HasPadding := false
  FullDeclMemcpyCompatibleDeps := []
  Members := []

end Hlcpp

namespace Resultdb

/-! ## tools/testing/resultdb

Go functions that return `(value, error)` are embedded as functions to a pair of the
value and an optional error message; a function that can panic returns an `Option`. -/

/-- The enumeration `resultpb.TestStatus`. -/
inductive TestStatus where
  | STATUS_UNSPECIFIED
  | PASS
  | FAIL
  | CRASH
  | ABORT
  | SKIP
  deriving DecidableEq, Repr

/-- The string type `testparser.TestCaseStatus`: the three constants that the code
names, and any other value. -/
inductive TestCaseStatus where
  | Pass
  | Fail
  | Skip
  | other (s : String)
  deriving DecidableEq, Repr

/-- The string type `runtests.TestResult`: the two constants that the code names, and
any other value. -/
inductive TestResult where
  | TestSuccess
  | TestFailure
  | other (s : String)
  deriving DecidableEq, Repr

/-- The fields of `testparser.TestCaseResult` that the code reads. -/
structure TestCaseResult where
  SuiteName : String
  CaseName : String
  Status : TestCaseStatus
  Format : String
  Duration : Int
  deriving DecidableEq, Repr

/-- The fields of `runtests.TestDetails` that the code reads; `StartTime` is a
`time.Time`, kept as a number. -/
structure TestDetails where
  Name : String
  GNLabel : String
  OutputFile : String
  Result : TestResult
  Cases : List TestCaseResult
  StartTime : Int
  DurationMillis : Int
  deriving DecidableEq, Repr

/-- The message `resultpb.StringPair`. -/
structure StringPair where
  Key : String
  Value : String
  deriving DecidableEq, Repr

/-- The message `sinkpb.Artifact` with a file path body. -/
structure Artifact where
  FilePath : String
  ContentType : String
  deriving DecidableEq, Repr

/-- The message `sinkpb.TestResult`; an unset message field is `none`, an unset map is
empty.  `Duration` is in nanoseconds. -/
structure SinkTestResult where
  TestId : String
  Tags : List StringPair
  Status : TestStatus := TestStatus.STATUS_UNSPECIFIED
  StartTime : Option Int := none
  Duration : Option Int := none
  Expected : Bool := false
  Artifacts : List (String × Artifact) := []
  deriving DecidableEq, Repr

/-- What the code asks of the operating system and of libraries outside the
repository: `ptypes.TimestampProto` (`none` when it returns an error), `filepath.Join`,
`filepath.Base`, whether a file can be opened for reading (`isReadable`), the directory
that `os.Getwd` returns and the path that `filepath.Abs` returns. -/
structure System where
  TimestampProto : Int → Option Int
  Join : String → String → String
  Base : String → String
  isReadable : String → Bool
  Getwd : String
  Abs : String → String

/-- Adds `result` to the request at `requestIndex`, as
`requests[requestIndex].TestResults = append(requests[requestIndex].TestResults, result)`
does; `none` when the index is out of range.  A `ReportTestResultsRequest` is kept as
its only field, the list `TestResults`. -/
def appendAt {α : Type} : List (List α) → Nat → α → Option (List (List α))
  | [], _, _ => none
  | r :: rs, 0, result => some ((r ++ [result]) :: rs)
  | r :: rs, k + 1, result => (appendAt rs k result).map fun rs' => r :: rs'

/-- The loop `for i, result := range results` of createTestResultsRequests (main.go,
lines 128-131), from index `i` on. -/
def appendResults {α : Type} (chunkSize : Int) : Nat → List α → List (List α) →
    Option (List (List α))
  | _, [], requests => some requests
  | i, result :: rest, requests =>
    let requestIndex := (i : Int).tdiv chunkSize
    if requestIndex < 0 then none
    else
      match appendAt requests requestIndex.toNat result with
      | none => none
      | some requests' => appendResults chunkSize (i + 1) rest requests'

/-- The constant `maxAlloc` of the Go runtime (runtime/malloc.go), the largest number of
bytes of one allocation, on a host with addresses of 48 bits (linux and darwin on amd64
and arm64): 2^48. -/
def maxAlloc : Int := 281474976710656

/-- The check that `make([]*T, len, cap)` makes before it allocates a slice of pointers
(runtime/slice.go, makeslice; a pointer takes 8 bytes): true when make goes on to
allocate, false when it panics with `len out of range` or `cap out of range`.  It panics
when the 8 * cap bytes, computed on unsigned words of 64 bits, overflow or exceed
`maxAlloc`, which a negative `cap` always does and another `cap` does when 8 * cap is
above `maxAlloc`; when `len` is negative; and when `len` exceeds `cap`.  Running out of
memory below `maxAlloc` ends the process and is not a panic of make: it is not
described. -/
def makeslice (len cap : Int) : Bool :=
  decide (0 ≤ cap) && decide (8 * cap ≤ maxAlloc) && decide (0 ≤ len) && decide (len ≤ cap)

/-- Function createTestResultsRequests (main.go, lines 120-133).  Go's integer division
truncates toward zero (`Int.tdiv`) and panics on a zero divisor; `make` panics as
`makeslice` tells, for the slice of `totalChunks` requests and, in the first loop (which
runs when `totalChunks` is above 0), for the slice of capacity `chunkSize` of a request. -/
def createTestResultsRequests {α : Type} (results : List α) (chunkSize : Int) :
    Option (List (List α)) :=
  if chunkSize = 0 then none
  else
    let totalChunks := ((results.length : Int) - 1).tdiv chunkSize + 1
    if makeslice totalChunks totalChunks = false then none
    else if 0 < totalChunks ∧ makeslice 0 chunkSize = false then none
    else appendResults chunkSize 0 results (List.replicate totalChunks.toNat [])

/-- Function determineExpected (summary.go, lines 160-173). -/
def determineExpected (testStatus : TestStatus) (testCaseStatus : TestStatus) : Bool :=
  match testStatus with
  | .PASS | .SKIP => true
  | .FAIL | .CRASH | .ABORT | .STATUS_UNSPECIFIED =>
    match testCaseStatus with
    | .PASS | .SKIP => true
    | .FAIL | .CRASH | .ABORT | .STATUS_UNSPECIFIED => false

/-- The text of a `testparser.TestCaseStatus` under `%s`; the strings of the three
constants are declared outside the embedded files and are never printed. -/
def TestCaseStatus.text : TestCaseStatus → String
  | .other s => s
  | _ => ""

/-- The text of a `runtests.TestResult` under `%s`; the strings of the two constants are
declared outside the embedded files and are never printed. -/
def TestResult.text : TestResult → String
  | .other s => s
  | _ => ""

/-- Function testCaseStatusToResultDBStatus (summary.go, lines 175-185). -/
def testCaseStatusToResultDBStatus (result : TestCaseStatus) : TestStatus × Option String :=
  match result with
  | .Pass => (TestStatus.PASS, none)
  | .Fail => (TestStatus.FAIL, none)
  | .Skip => (TestStatus.SKIP, none)
  | _ => (TestStatus.STATUS_UNSPECIFIED,
      some ("Cannot map Result: " ++ result.text ++ " to result_sink test_result status"))

/-- Function testDetailResultToResultDBStatus (summary.go, lines 187-195). -/
def testDetailResultToResultDBStatus (result : TestResult) : TestStatus × Option String :=
  match result with
  | .TestSuccess => (TestStatus.PASS, none)
  | .TestFailure => (TestStatus.FAIL, none)
  | _ => (TestStatus.STATUS_UNSPECIFIED,
      some ("Cannot map Result: " ++ result.text ++ " to result_sink test_result status"))

/-- One pass of the loop of testCaseToResultSink (summary.go, lines 87-107): `testResult`
is the slice built so far; a case whose status cannot be mapped is skipped. -/
def testCaseStep (sys : System) (testDetail : TestDetails) (testStatus : TestStatus)
    (testResult : List SinkTestResult) (testCase : TestCaseResult) : List SinkTestResult :=
  let testID := testDetail.Name ++ "/" ++ testCase.SuiteName ++ ":" ++ testCase.CaseName
  let r : SinkTestResult := { TestId := testID, Tags := [⟨"format", testCase.Format⟩] }
  match testCaseStatusToResultDBStatus testCase.Status with
  | (_, some _) => testResult
  | (testCaseStatus, none) =>
    let r := { r with Status := testCaseStatus }
    let r := match sys.TimestampProto testDetail.StartTime with
      | some startTime => { r with StartTime := some startTime }
      | none => r
    let r := if testCase.Duration > 0 then { r with Duration := some testCase.Duration } else r
    let r := { r with Expected := determineExpected testStatus testCaseStatus }
    testResult ++ [r]

/-- Function testCaseToResultSink (summary.go, lines 80-109).  The error of
testDetailResultToResultDBStatus is dropped and the status it returns is used. -/
def testCaseToResultSink (sys : System) (testCases : List TestCaseResult)
    (testDetail : TestDetails) : List SinkTestResult :=
  let testStatus := (testDetailResultToResultDBStatus testDetail.Result).1
  testCases.foldl (testCaseStep sys testDetail testStatus) []

/-- The value that an `int64` holds for the exact result `x`. -/
def wrapInt64 (x : Int) : Int :=
  (x + 9223372036854775808) % 18446744073709551616 - 9223372036854775808

/-- Function testDetailsToResultSink (summary.go, lines 114-148): the result, `none` for
Go's `nil`, and the error.  `time.Duration` is an `int64` of nanoseconds and
`time.Millisecond` is 1000000, so the product is taken modulo 2^64. -/
def testDetailsToResultSink (sys : System) (testDetail : TestDetails) (outputRoot : String) :
    Option SinkTestResult × Option String :=
  let r : SinkTestResult :=
    { TestId := testDetail.Name
      Tags := [⟨"gn_label", testDetail.GNLabel⟩,
               ⟨"test_case_count", toString testDetail.Cases.length⟩] }
  match testDetailResultToResultDBStatus testDetail.Result with
  | (_, some err) => (none, some err)
  | (testStatus, none) =>
    let r := { r with Status := testStatus }
    let r := match sys.TimestampProto testDetail.StartTime with
      | some startTime => { r with StartTime := some startTime }
      | none => r
    let r := if testDetail.DurationMillis > 0 then
        { r with Duration := some (wrapInt64 (testDetail.DurationMillis * 1000000)) } else r
    let outputFile := sys.Join outputRoot testDetail.OutputFile
    let r := if sys.isReadable outputFile then
        { r with Artifacts := [(sys.Base outputFile, ⟨outputFile, "text/plain"⟩)] } else r
    let r := { r with Expected := determineExpected testStatus TestStatus.STATUS_UNSPECIFIED }
    (some r, none)

/-- The test id and status of the result that testCaseToResultSink makes of a test
case, `none` for a case that it drops. -/
def convertedCase (testDetail : TestDetails) (testCase : TestCaseResult) :
    Option (String × TestStatus) :=
  let testID := testDetail.Name ++ "/" ++ testCase.SuiteName ++ ":" ++ testCase.CaseName
  match testCase.Status with
  | .Pass => some (testID, TestStatus.PASS)
  | .Fail => some (testID, TestStatus.FAIL)
  | .Skip => some (testID, TestStatus.SKIP)
  | .other _ => none

/-! ## Example values -/

/-- A system in which every time converts and no output file is readable. -/
def exampleSystem : System where
  TimestampProto := fun t => some t
  Join := fun a b => a ++ "/" ++ b
  Base := fun p => p
  isReadable := fun _ => false
  Getwd := "/out"
  Abs := fun p => p

/-- A failed test with a passed, a failed and an unfinished case. -/
def exampleTest : TestDetails where
  Name := "foo_test"
  GNLabel := "//src/foo:foo_test"
  OutputFile := "foo/stdout.txt"
  Result := TestResult.TestFailure
  Cases := [⟨"Suite", "A", TestCaseStatus.Pass, "GoogleTest", 5⟩,
            ⟨"Suite", "B", TestCaseStatus.Fail, "GoogleTest", 0⟩,
            ⟨"Suite", "C", TestCaseStatus.other "Abort", "GoogleTest", 0⟩]
  StartTime := 0
  DurationMillis := 12

end Resultdb

namespace Gidl

/-! ## tools/fidl/gidl/golang/common.go

The packages `gidlir`, `gidlmixer` and `fidlgen` are not among the embedded files: of
their types only what common.go reads is kept, and their functions are parameters.  A
Go function that can panic returns an `Option`. -/

/-- The type `gidlir.ErrorCode`: the fourteen constants that common.go names, and any
other code. -/
inductive ErrorCode where
  | StringTooLong
  | StringNotUtf8
  | NonEmptyStringWithNullBody
  | StrictUnionFieldNotSet
  | StrictUnionUnknownField
  | InvalidPaddingByte
  | StrictEnumUnknownValue
  | StrictBitsUnknownBit
  | ExceededMaxOutOfLineDepth
  | InvalidNumBytesInEnvelope
  | InvalidNumHandlesInEnvelope
  | ExtraHandles
  | TooFewHandles
  | NonResourceUnknownHandles
  | other (code : String)
  deriving DecidableEq, Repr

/-- The text of an error code under `%s`; the strings of the fourteen constants are
declared outside the embedded files and are never printed. -/
def ErrorCode.text : ErrorCode → String
  | .other code => code
  | _ => ""

/-- The map goErrorCodeNames (common.go, lines 294-309). -/
def goErrorCodeNames : ErrorCode → Option String
  | .StringTooLong => some "ErrStringTooLong"
  | .StringNotUtf8 => some "ErrStringNotUTF8"
  | .NonEmptyStringWithNullBody => some "ErrUnexpectedNullRef"
  | .StrictUnionFieldNotSet => some "ErrInvalidXUnionTag"
  | .StrictUnionUnknownField => some "ErrInvalidXUnionTag"
  | .InvalidPaddingByte => some "ErrNonZeroPadding"
  | .StrictEnumUnknownValue => some "ErrInvalidEnumValue"
  | .StrictBitsUnknownBit => some "ErrInvalidBitsValue"
  | .ExceededMaxOutOfLineDepth => some "ErrExceededMaxOutOfLineDepth"
  | .InvalidNumBytesInEnvelope => some "ErrInvalidNumBytesInEnvelope"
  | .InvalidNumHandlesInEnvelope => some "ErrInvalidNumHandlesInEnvelope"
  | .ExtraHandles => some "ErrTooManyHandles"
  | .TooFewHandles => some "ErrNotEnoughHandles"
  | .NonResourceUnknownHandles => some "ErrValueTypeHandles"
  | .other _ => none

/-- Function goErrorCode (common.go, lines 311-316): the string and the error, `none`
for a nil error. -/
def goErrorCode (code : ErrorCode) : String × Option String :=
  match goErrorCodeNames code with
  | some str => ("fidl." ++ str, none)
  | none => ("", some ("no go error string defined for error code " ++ code.text))

/-- The struct `gidlir.UnknownData`; a `gidlir.Handle` is an `int`. -/
structure UnknownData where
  Bytes : List UInt8
  Handles : List Int
  deriving DecidableEq, Repr

/-- The struct `gidlir.FieldKey`; `IsUnknown` is the result of its method `IsUnknown()`. -/
structure FieldKey where
  Name : String
  UnknownOrdinal : Nat
  IsUnknown : Bool
  deriving DecidableEq, Repr

/-- A value of a field (`interface{}`): `nil`, a `gidlir.UnknownData`, or a value of any
other dynamic type, kept as `α`. -/
inductive Value (α : Type) where
  | nil
  | unknownData (data : UnknownData)
  | other (v : α)
  deriving DecidableEq, Repr

/-- The comparison `value == nil` of an interface value. -/
def Value.isNil {α : Type} : Value α → Bool
  | .nil => true
  | _ => false

/-- The struct `gidlir.Field`. -/
structure Field (α : Type) where
  Key : FieldKey
  Value : Value α
  deriving DecidableEq, Repr

/-- The struct `gidlir.Record`. -/
structure Record (α : Type) where
  Name : String
  Fields : List (Field α)
  deriving DecidableEq, Repr

/-- The dynamic type of a `gidlmixer.RecordDeclaration`. -/
inductive RecordKind where
  | StructDecl
  | TableDecl
  | UnionDecl
  deriving DecidableEq, Repr

/-- What onRecord asks of a `gidlmixer.RecordDeclaration`: its dynamic type, `Name()`,
`IsNullable()` and `Field(name)`; `D` is the type of the declarations of its fields. -/
structure RecordDeclaration (D : Type) where
  kind : RecordKind
  Name : String
  IsNullable : Bool
  Field : String → Option D

/-- The functions of package `fidlgen` that common.go calls. -/
structure CaseConversions where
  ToUpperCamelCase : String → String
  ToLowerCamelCase : String → String
  ToSnakeCase : String → String

/-- The output of `fmt.Sprintf("0x%02x,", b)`: two lower-case hexadecimal digits. -/
def sprintfByte (b : UInt8) : String :=
  "0x" ++ String.mk [Nat.digitChar (b.toNat / 16), Nat.digitChar (b.toNat % 16)] ++ ","

/-- Function buildBytes (common.go, lines 40-51); `builder` is the text written so far. -/
def buildBytes (bytes : List UInt8) : String :=
  let builder := "[]byte\x7b\n"
  let builder := bytes.enum.foldl (fun (builder : String) (ib : Nat × UInt8) =>
    let builder := builder ++ sprintfByte ib.2
    if ib.1 % 8 = 7 then builder ++ "\n" else builder) builder
  builder ++ "\x7d"

/-- Function buildHandleInfos (common.go, lines 75-86). -/
def buildHandleInfos (handles : List Int) : String :=
  if handles.length = 0 then "nil"
  else
    let builder := "[]zx.HandleInfo\x7b\n"
    let builder := handles.foldl (fun (builder : String) (handle : Int) =>
      builder ++ ("\x7bHandle: handles[" ++ toString handle ++ "], Type: handleTypes["
        ++ toString handle ++ "]\x7d,\n")) builder
    builder ++ "\x7d"

/-- Function buildUnknownData (common.go, lines 88-93). -/
def buildUnknownData (data : UnknownData) : String :=
  "fidl.UnknownData\x7b\nBytes: " ++ buildBytes data.Bytes ++ ", \nHandles: "
    ++ buildHandleInfos data.Handles ++ ",\n\x7d"

/-- Function buildUnknownDataMap (common.go, lines 95-109); the type assertion
`field.Value.(gidlir.UnknownData)` panics on another value. -/
def buildUnknownDataMap {α : Type} (fields : List (Field α)) : Option String :=
  if fields.length = 0 then some "nil"
  else
    let builder := "map[uint64]fidl.UnknownData\x7b\n"
    let builder := fields.foldl (fun (builder : Option String) (field : Field α) =>
      match builder, field.Value with
      | some builder, .unknownData data =>
        some (builder ++ (toString field.Key.UnknownOrdinal ++ ": " ++ buildUnknownData data ++ ","))
      | _, _ => none) (some builder)
    builder.map fun builder => builder ++ "\x7d"

/-- Function identifierName (common.go, lines 280-291). -/
def identifierName (fidl : CaseConversions) (qualifiedName : String) : String :=
  let parts := qualifiedName.splitOn "/"
  let lastPartsIndex := parts.length - 1
  let parts := parts.enum.map fun (ip : Nat × String) =>
    if ip.1 = lastPartsIndex then fidl.ToUpperCamelCase ip.2 else fidl.ToSnakeCase ip.2
  ".".intercalate parts

/-- Function declName (common.go, lines 273-275). -/
def declName {D : Type} (fidl : CaseConversions) (decl : RecordDeclaration D) : String :=
  identifierName fidl decl.Name

/-- Function typeNameHelper (common.go, lines 241-271) on a record declaration, which is
a `gidlmixer.NamedDeclaration` and not a primitive one. -/
def typeNameHelper {D : Type} (fidl : CaseConversions) (decl : RecordDeclaration D)
    (pointerPrefix : String) : String :=
  let pointerPrefix := if !decl.IsNullable then "" else pointerPrefix
  pointerPrefix ++ declName fidl decl

/-- Function typeLiteral (common.go, lines 237-239) on a record declaration. -/
def typeLiteral {D : Type} (fidl : CaseConversions) (decl : RecordDeclaration D) : String :=
  typeNameHelper fidl decl "&"

/-- The loop `for _, field := range value.Fields` of onRecord (common.go, lines
187-207): the state is the slice `fields` and the slice `unknownTableFields`.  `visit`
is the function visit of common.go on the value and the declaration of a known field;
it and the lookup `decl.Field` can panic. -/
def onRecordLoop {α D : Type} (fidl : CaseConversions) (visit : Value α → D → Option String)
    (decl : RecordDeclaration D) (isTable : Bool) :
    List (Field α) → List String × List (Field α) → Option (List String × List (Field α))
  | [], state => some state
  | field :: rest, (fields, unknownTableFields) =>
    if field.Key.IsUnknown then
      if isTable then
        onRecordLoop fidl visit decl isTable rest (fields, unknownTableFields ++ [field])
      else
        match field.Value with
        | .unknownData data =>
          onRecordLoop fidl visit decl isTable rest
            (fields ++ ["I_unknownData: " ++ buildUnknownData data], unknownTableFields)
        | _ => none
    else
      let fieldName := fidl.ToUpperCamelCase field.Key.Name
      match decl.Field field.Key.Name with
      | none => none
      | some fieldDecl =>
        match visit field.Value fieldDecl with
        | none => none
        | some visited =>
          let fields := fields ++ [fieldName ++ ": " ++ visited]
          let fields :=
            if isTable && !field.Value.isNil then fields ++ [fieldName ++ "Present: true"]
            else fields
          onRecordLoop fidl visit decl isTable rest (fields, unknownTableFields)

/-- The slice `fields` that onRecord builds (common.go, lines 169-211). -/
def onRecordFields {α D : Type} (fidl : CaseConversions)
    (visit : Value α → D → Option String) (value : Record α) (decl : RecordDeclaration D) :
    Option (List String) :=
  let fields : List String :=
    match decl.kind, value.Fields with
    | .UnionDecl, field :: _ =>
      let fullName := declName fidl decl
      let tagValue :=
        if field.Key.IsUnknown then toString field.Key.UnknownOrdinal
        else fullName ++ fidl.ToUpperCamelCase field.Key.Name
      let parts := decl.Name.splitOn "/"
      let unqualifiedName := fidl.ToLowerCamelCase (parts.getLastD "")
      ["I_" ++ unqualifiedName ++ "Tag: " ++ tagValue]
    | _, _ => []
  let isTable := decide (decl.kind = RecordKind.TableDecl)
  match onRecordLoop fidl visit decl isTable value.Fields (fields, []) with
  | none => none
  | some (fields, unknownTableFields) =>
    if unknownTableFields.length > 0 then
      (buildUnknownDataMap unknownTableFields).map fun m => fields ++ ["I_unknownData: " ++ m]
    else some fields

/-- Function onRecord (common.go, lines 168-218). -/
def onRecord {α D : Type} (fidl : CaseConversions)
    (visit : Value α → D → Option String) (value : Record α) (decl : RecordDeclaration D) :
    Option String :=
  (onRecordFields fidl visit value decl).map fun fields =>
    if fields.length = 0 then typeLiteral fidl decl ++ "\x7b\x7d"
    else typeLiteral fidl decl ++ "\x7b\n" ++ ",\n".intercalate fields ++ ",\n\x7d"

/-! ### Example values -/

/-- Case conversions that leave every name as it is. -/
def exampleConversions : CaseConversions :=
  { ToUpperCamelCase := fun s => s, ToLowerCamelCase := fun s => s, ToSnakeCase := fun s => s }

/-- A visit function that prints a natural number in decimal and nil as "nil". -/
def exampleVisit : Value Nat → Unit → Option String
  | .other v, _ => some (toString v)
  | .nil, _ => some "nil"
  | .unknownData _, _ => none

/-- A table declaration with the single field A. -/
def exampleTableDecl : RecordDeclaration Unit :=
  { kind := RecordKind.TableDecl, Name := "lib/T", IsNullable := false,
    Field := fun name => if name = "A" then some () else none }

/-- A union declaration with the single field A. -/
def exampleUnionDecl : RecordDeclaration Unit :=
  { kind := RecordKind.UnionDecl, Name := "lib/U", IsNullable := false,
    Field := fun name => if name = "A" then some () else none }

/-- Unknown data of two bytes and one handle. -/
def exampleUnknownData : UnknownData := { Bytes := [1, 255], Handles := [3] }

/-- A table record with an unknown field of ordinal 7, the known field A and an unknown
field of ordinal 9. -/
def exampleTableRecord : Record Nat :=
  { Name := "lib/T",
    Fields := [⟨⟨"", 7, true⟩, Value.unknownData exampleUnknownData⟩,
      ⟨⟨"A", 0, false⟩, Value.other 5⟩,
      ⟨⟨"", 9, true⟩, Value.unknownData ⟨[], []⟩⟩] }

/-- A union record whose only field is unknown, of ordinal 7. -/
def exampleUnionRecord : Record Nat :=
  { Name := "lib/U", Fields := [⟨⟨"", 7, true⟩, Value.unknownData exampleUnknownData⟩] }

end Gidl

namespace Hlcpp

/-! ## natural_types_struct.tmpl.go, template "StructDefinition": Encode and Decode -/

/-- The definition of Encode in template "StructDefinition": natural_types_struct.tmpl.go lines 94-110. -/
def StructDefinitionEncode (s : Struct) : List (Frag Dot) :=
  [.text "void ",
   .val s.Name,
   .text "::Encode(::fidl::Encoder* _encoder, size_t _offset,\n",
   .text "                         cpp17::optional<::fidl::HandleInformation> maybe_handle_info) \x7b\n",
   .text "  if (::fidl::IsMemcpyCompatible<",
   .val s.Name,
   .text ">::value) \x7b\n",
   .text "    memcpy(_encoder->template GetPtr<",
   .val s.Name,
   .text ">(_offset), this, sizeof(",
   .val s.Name,
   .text "));\n",
   .text "  \x7d else \x7b"] ++
  (s.Members.flatMap fun x =>
    (match x.HandleInformation with
    | some info =>
      [.text "\n",
       .text "    ::fidl::Encode(_encoder, &",
       .val x.Name,
       .text ", _offset + ",
       .val (toString x.Offset),
       .text ", ::fidl::HandleInformation \x7b\n",
       .text "      .object_type = ",
       .val info.ObjectType,
       .text ",\n",
       .text "      .rights = ",
       .val info.Rights,
       .text ",\n",
       .text "    \x7d);\n",
       .text "    "]
    | none =>
      [.text "::fidl::Encode(_encoder, &",
       .val x.Name,
       .text ", _offset + ",
       .val (toString x.Offset),
       .text ");\n",
       .text "    "])) ++
  [.text "\n",
   .text "  \x7d\n",
   .text "\x7d\n"]

/-- The definition of Decode in template "StructDefinition": natural_types_struct.tmpl.go lines 112-120. -/
def StructDefinitionDecode (s : Struct) : List (Frag Dot) :=
  [.text "void ",
   .val s.Name,
   .text "::Decode(::fidl::Decoder* _decoder, ",
   .val s.Name,
   .text "* _value, size_t _offset) \x7b\n",
   .text "  if (::fidl::IsMemcpyCompatible<",
   .val s.Name,
   .text ">::value) \x7b\n",
   .text "    memcpy(_value, _decoder->template GetPtr<",
   .val s.Name,
   .text ">(_offset), sizeof(",
   .val s.Name,
   .text "));\n",
   .text "  \x7d else \x7b"] ++
  (s.Members.flatMap fun x =>
    [.text "\n",
     .text "    ::fidl::Decode(_decoder, &_value->",
     .val x.Name,
     .text ", _offset + ",
     .val (toString x.Offset),
     .text ");"]) ++
  [.text "\n",
   .text "  \x7d\n",
   .text "\x7d\n"]

/-! ## Meaning of the generated Encode and Decode

The two functions are run on the rendered fragments.  The bytes of the message are a
function from positions to bytes: the encoder writes them and the decoder reads them,
and `GetPtr<T>(_offset)` is position `_offset` in both.  An object of the struct is a
function from member names to values of a type `V`.  The offsets are positions inside
one buffer, so `_offset + n` does not wrap around. -/

/-- What the generated code takes from the C++ runtime library and the compiler:
`IsMemcpyCompatible T` is `::fidl::IsMemcpyCompatible<T>::value`, `sizeof T` is
`sizeof(T)`, `representation` is the object representation that memcpy copies from an
object of the struct and `ofRepresentation` the object that memcpy leaves, `Encode name`
gives the bytes that `::fidl::Encode` writes for the member `name` (with the handle
information it is passed, if any), and `Decode name` the value that `::fidl::Decode`
reads for that member from its `InlineSize name` bytes. -/
structure Runtime (V : Type) where
  IsMemcpyCompatible : String → Bool
  sizeof : String → Nat
  representation : (String → V) → List UInt8
  ofRepresentation : List UInt8 → String → V
  Encode : String → Option HandleInformation → V → List UInt8
  InlineSize : String → Nat
  Decode : String → List UInt8 → V

/-- The message after `bytes` are written at position `pos`. -/
def writeBytes (message : Nat → UInt8) (pos : Nat) (bytes : List UInt8) : Nat → UInt8 :=
  fun i => if pos ≤ i ∧ i < pos + bytes.length then bytes.getD (i - pos) 0 else message i

/-- The `n` bytes of the message from position `pos`. -/
def readBytes (message : Nat → UInt8) (pos n : Nat) : List UInt8 :=
  (List.range n).map fun i => message (pos + i)

/-- The object after the member `name` is assigned `v`. -/
def assign {V : Type} (value : String → V) (name : String) (v : V) : String → V :=
  fun n => if n = name then v else value n

/-- The value of a decimal digit. -/
def digitValue (c : Char) : Option Nat :=
  if '0' ≤ c ∧ c ≤ '9' then some (c.toNat - '0'.toNat) else none

/-- The value of a C++ decimal literal: a non-empty string of decimal digits, which
starts with 0 only when it is "0" (otherwise the literal would be octal). -/
def literalValue (s : String) : Option Nat :=
  match s.data with
  | [] => none
  | '0' :: _ :: _ => none
  | cs => cs.foldl (fun acc c =>
      match acc, digitValue c with
      | some a, some d => some (a * 10 + d)
      | _, _ => none) (some 0)

/-- Runs the statements of the `else` branch of Encode, up to the end of the function:
each statement `::fidl::Encode(_encoder, &name, _offset + n[, handle information]);`
writes the encoding of member `name` at position `_offset + n`. -/
def encodeMembers {V : Type} (rt : Runtime V) (this : String → V) (offset : Nat) :
    (Nat → UInt8) → List (Frag Dot) → Option (Nat → UInt8)
  | message, [.text "\n", .text "  \x7d\n", .text "\x7d\n"] => some message
  | message, .text "::fidl::Encode(_encoder, &" :: .val name :: .text ", _offset + " ::
      .val n :: .text ");\n" :: .text "    " :: rest =>
    match literalValue n with
    | some n =>
      encodeMembers rt this offset
        (writeBytes message (offset + n) (rt.Encode name none (this name))) rest
    | none => none
  | message, .text "\n" :: .text "    ::fidl::Encode(_encoder, &" :: .val name ::
      .text ", _offset + " :: .val n :: .text ", ::fidl::HandleInformation \x7b\n" ::
      .text "      .object_type = " :: .val objectType :: .text ",\n" ::
      .text "      .rights = " :: .val rights :: .text ",\n" :: .text "    \x7d);\n" ::
      .text "    " :: rest =>
    match literalValue n with
    | some n =>
      encodeMembers rt this offset
        (writeBytes message (offset + n)
          (rt.Encode name (some ⟨objectType, rights⟩) (this name))) rest
    | none => none
  | _, _ => none

/-- Runs the text of Encode on the object `this`, the offset and the message so far;
`none` when the text is not such a function.  The bulk branch copies `sizeof(U)` bytes
of the object to position `_offset`. -/
def execEncode {V : Type} (rt : Runtime V) (this : String → V) (offset : Nat)
    (message : Nat → UInt8) : List (Frag Dot) → Option (Nat → UInt8)
  | .text "void " :: .val _ :: .text "::Encode(::fidl::Encoder* _encoder, size_t _offset,\n" ::
      .text "                         cpp17::optional<::fidl::HandleInformation> maybe_handle_info) \x7b\n" ::
      .text "  if (::fidl::IsMemcpyCompatible<" :: .val T :: .text ">::value) \x7b\n" ::
      .text "    memcpy(_encoder->template GetPtr<" :: .val _ ::
      .text ">(_offset), this, sizeof(" :: .val U :: .text "));\n" ::
      .text "  \x7d else \x7b" :: rest =>
    if rt.IsMemcpyCompatible T then
      some (writeBytes message offset ((rt.representation this).take (rt.sizeof U)))
    else encodeMembers rt this offset message rest
  | _ => none

/-- Runs the statements of the `else` branch of Decode, up to the end of the function:
each statement `::fidl::Decode(_decoder, &_value->name, _offset + n);` assigns to member
`name` the value decoded from the bytes at position `_offset + n`. -/
def decodeMembers {V : Type} (rt : Runtime V) (offset : Nat) (message : Nat → UInt8) :
    (String → V) → List (Frag Dot) → Option (String → V)
  | value, [.text "\n", .text "  \x7d\n", .text "\x7d\n"] => some value
  | value, .text "\n" :: .text "    ::fidl::Decode(_decoder, &_value->" :: .val name ::
      .text ", _offset + " :: .val n :: .text ");" :: rest =>
    match literalValue n with
    | some n =>
      decodeMembers rt offset message
        (assign value name (rt.Decode name (readBytes message (offset + n) (rt.InlineSize name))))
        rest
    | none => none
  | _, _ => none

/-- Runs the text of Decode on the object `value` that `_value` points to, the offset
and the message; `none` when the text is not such a function.  The bulk branch copies
`sizeof(U)` bytes from position `_offset` over the object. -/
def execDecode {V : Type} (rt : Runtime V) (value : String → V) (offset : Nat)
    (message : Nat → UInt8) : List (Frag Dot) → Option (String → V)
  | .text "void " :: .val _ :: .text "::Decode(::fidl::Decoder* _decoder, " :: .val _ ::
      .text "* _value, size_t _offset) \x7b\n" ::
      .text "  if (::fidl::IsMemcpyCompatible<" :: .val T :: .text ">::value) \x7b\n" ::
      .text "    memcpy(_value, _decoder->template GetPtr<" :: .val _ ::
      .text ">(_offset), sizeof(" :: .val U :: .text "));\n" ::
      .text "  \x7d else \x7b" :: rest =>
    if rt.IsMemcpyCompatible T then
      some (rt.ofRepresentation (readBytes message offset (rt.sizeof U)))
    else decodeMembers rt offset message value rest
  | _ => none

/-! ### Example values for Encode and Decode -/

/-- A struct of two `uint8` members at offsets 0 and 1. -/
def pairStruct : Struct where
  Str := "::example::Pair"
  Name := "Pair"
  Namespace := "::example"
  IsResourceType := false
  InlineSize := 2
  HasPadding := false
  FullDeclMemcpyCompatibleDeps := ["uint8_t"]
  Members := [⟨"a", 0, none⟩, ⟨"b", 1, none⟩]

/-- A runtime for objects whose members are bytes: a member is encoded as itself, and
the struct is not taken to be copy-compatible. -/
def byteRuntime : Runtime UInt8 where
  IsMemcpyCompatible := fun _ => false
  sizeof := fun _ => 2
  representation := fun value => [value "a", value "b"]
  ofRepresentation := fun bytes name => if name = "a" then bytes.getD 0 0 else bytes.getD 1 0
  Encode := fun _ _ v => [v]
  InlineSize := fun _ => 1
  Decode := fun _ bytes => bytes.getD 0 0

/-- The object with a = 7 and b = 9 (and 0 for any other name). -/
def pairValue : String → UInt8 :=
  fun name => if name = "a" then 7 else if name = "b" then 9 else 0

end Hlcpp

namespace Resultdb

/-! ## tools/testing/resultdb, summary.go: SummaryToResultSink -/

/-- The field of `runtests.TestSummary` that the code reads. -/
structure TestSummary where
  Tests : List TestDetails
  deriving DecidableEq, Repr

/-- Function SummaryToResultSink (summary.go, lines 38-55).  The result is a slice of
pointers, `none` for a nil pointer; the errors of `os.Getwd` and `filepath.Abs` are
dropped by the code. -/
def SummaryToResultSink (sys : System) (s : TestSummary) (outputRoot : String) :
    List (Option SinkTestResult) :=
  let outputRoot := if outputRoot.utf8ByteSize = 0 then sys.Getwd else outputRoot
  let rootPath := sys.Abs outputRoot
  s.Tests.foldl (fun r test =>
    let r :=
      if test.Cases.length > 0 then r ++ (testCaseToResultSink sys test.Cases test).map some
      else r
    match testDetailsToResultSink sys test rootPath with
    | (testResult, none) => r ++ [testResult]
    | (_, some _) => r) []

/-- A summary of the example test and of a test that did not finish. -/
def exampleSummary : TestSummary where
  Tests := [exampleTest, { exampleTest with Name := "bar_test", Result := TestResult.other "ABORT" }]

end Resultdb

namespace Gidl

/-! ### Reading the output of buildBytes back

That buildBytes loses nothing is stated with a reader of the text, which is not part
of common.go: it reads a Go literal `[]byte{ 0xhh, ... }` of two-digit hexadecimal
literals, each followed by a comma, with newlines between them. -/

/-- The value of a lower-case hexadecimal digit. -/
def hexValue (c : Char) : Option Nat :=
  if '0' ≤ c ∧ c ≤ '9' then some (c.toNat - '0'.toNat)
  else if 'a' ≤ c ∧ c ≤ 'f' then some (c.toNat - 'a'.toNat + 10)
  else none

/-- Reads the literals `0xhh,` up to the closing brace, skipping newlines. -/
def readLiterals : List Char → Option (List UInt8)
  | ['\x7d'] => some []
  | '\n' :: rest => readLiterals rest
  | '0' :: 'x' :: h :: l :: ',' :: rest =>
    match hexValue h, hexValue l, readLiterals rest with
    | some a, some b, some bytes => some (UInt8.ofNat (a * 16 + b) :: bytes)
    | _, _, _ => none
  | _ => none

/-- Reads a text `[]byte{` newline `0xhh,` ... `}` back as bytes. -/
def readByteSlice (s : String) : Option (List UInt8) :=
  match s.data with
  | '[' :: ']' :: 'b' :: 'y' :: 't' :: 'e' :: '\x7b' :: '\n' :: rest => readLiterals rest
  | _ => none

end Gidl

namespace Llcpp

/-! ## Reading the generated method table and the receive buffer

The array `entries::<Protocol>` is a list of initializers `{ ordinal, type, function }`;
`readEntries` reads them from the rendered fragments.  The storage of `bytes_` is read
from its declaration, and the storage that an access expression assumes from the
expression. -/

/-- Where the bytes of a received response are kept. -/
inductive Storage where
  | heap
  | inline
  deriving DecidableEq, Repr

/-- The storage that a declaration of `bytes_` gives it: a `unique_ptr` to an
`AlignedBuffer` is on the heap, an array `uint8_t bytes_[...]` is inline. -/
def storageDeclared : List (Frag Dot) → Option Storage
  | .text "\n" :: .text "        std::unique_ptr<::fidl::internal::AlignedBuffer<" :: _ =>
    some Storage.heap
  | .text "\n" :: .text "        FIDL_ALIGNDECL\n" :: .text "        uint8_t bytes_[" :: _ =>
    some Storage.inline
  | _ => none

/-- The storage that an access to the bytes assumes: `bytes_->data()` dereferences a
pointer to a buffer, `bytes_` names an array. -/
def storageAccessed : List (Frag Dot) → Option Storage
  | [.text "bytes_->data()"] => some Storage.heap
  | [.text "bytes_"] => some Storage.inline
  | _ => none

/-- A protocol with one event and no client method. -/
def notifierProtocol : Protocol where
  Str := "::llcpp::example::Notifier"
  Name := "Notifier"
  Methods := [{ pingMethod with
    Name := "OnPing", OrdinalName := "kNotifier_OnPing_Ordinal", HasRequest := false,
    LLProps := ⟨⟨"::llcpp::example::Notifier", "Notifier"⟩⟩ }]
  ClientMethods := []
  Events := [{ pingMethod with
    Name := "OnPing", OrdinalName := "kNotifier_OnPing_Ordinal", HasRequest := false,
    LLProps := ⟨⟨"::llcpp::example::Notifier", "Notifier"⟩⟩ }]
  TwoWayMethods := []

end Llcpp

namespace Mdlint

/-! ## tools/mdlint/core/reporter.go

The types `Token` and `Doc`, the constant `generalName` and the function
`isSeparatorSpace` are declared in files of package core that are not embedded: of the
types only the fields that reporter.go reads are kept, the constant and the function are
parameters.  A Go string is a Lean `String` (so it is valid UTF-8): `len` is its number
of bytes and `range` goes over its characters.  A Go `int` has 64 bits and is kept as an
`Int`: the subtractions of Less, the counters of numLinesAndCharsOnLastLine and the sums
and differences that messagesToFindingsJSON writes into a finding are taken modulo 2^64
(`wrapInt`).  In makeSquiggle the counter starts at 1 and is raised once for a character
of the line, and 1 is taken from a length or from an index that is not negative: these
stay in the range of an `int` and are exact.  `sort.Sort` and `fmt.Sprintf` belong to the
Go library: the sort is a parameter, and a message is recorded with the text that
Sprintf returned. -/

/-- The fields of `Doc` that reporter.go reads. -/
structure Doc where
  filename : String
  lines : List String
  deriving DecidableEq, Repr

/-- The fields of `Token` that reporter.go reads. -/
structure Token where
  Doc : Doc
  Content : String
  ln : Int
  col : Int
  deriving DecidableEq, Repr

/-- The struct `message` (reporter.go, lines 54-58). -/
structure message where
  category : String
  tok : Token
  content : String
  deriving DecidableEq, Repr

/-- The type `sortableMessages` (reporter.go, line 60). -/
abbrev sortableMessages := List message

/-- The struct `RootReporter` (reporter.go, lines 28-34). -/
structure RootReporter where
  messages : sortableMessages
  JSONOutput : Bool
  deriving DecidableEq, Repr

/-- The struct `ruleReporter` (reporter.go, lines 36-39); its `parent` is the root
reporter that made it, which is passed to its methods. -/
structure ruleReporter where
  rule : String
  deriving DecidableEq, Repr

/-- Method ForRule (reporter.go, lines 42-47). -/
def RootReporter.ForRule (_r : RootReporter) (rule : String) : ruleReporter :=
  { rule := rule }

/-- The bytes of a Go string, as numbers below 256. -/
def bytesOf (s : String) : List Nat :=
  (s.data.flatMap String.utf8EncodeChar).map UInt8.toNat

/-- Lexicographic comparison of two byte sequences: -1, 0 or 1. -/
def compareBytes : List Nat → List Nat → Int
  | [], [] => 0
  | [], _ :: _ => -1
  | _ :: _, [] => 1
  | a :: as, b :: bs => if a < b then -1 else if b < a then 1 else compareBytes as bs

/-- The library function `strings.Compare`: the strings are compared byte by byte. -/
def Compare (a b : String) : Int :=
  compareBytes (bytesOf a) (bytesOf b)

/-- The value that a Go `int` of 64 bits holds for the exact result `x`. -/
def wrapInt (x : Int) : Int :=
  (x + 9223372036854775808) % 18446744073709551616 - 9223372036854775808

/-- The body of method Less (reporter.go, lines 68-89) on the messages `s[i]` and
`s[j]`. -/
def lessMessage (a b : message) : Bool :=
  let byFilename := Compare a.tok.Doc.filename b.tok.Doc.filename
  if byFilename < 0 then true
  else if byFilename > 0 then false
  else
    let byLnNo := wrapInt (a.tok.ln - b.tok.ln)
    if byLnNo < 0 then true
    else if byLnNo > 0 then false
    else
      let byColNo := wrapInt (a.tok.col - b.tok.col)
      if byColNo < 0 then true
      else if byColNo > 0 then false
      else
        let byContent := Compare a.content b.content
        decide (byContent < 0)

/-- Method Less of sortableMessages (reporter.go, lines 68-89); `none` when an index is
out of range (the code panics). -/
def sortableMessages.Less (s : sortableMessages) (i j : Nat) : Option Bool :=
  match s[i]?, s[j]? with
  | some a, some b => some (lessMessage a b)
  | _, _ => none

/-- Method warnf (reporter.go, lines 103-109); `content` is `fmt.Sprintf(format, a...)`. -/
def RootReporter.warnf (r : RootReporter) (category : String) (tok : Token)
    (content : String) : RootReporter :=
  { r with messages := r.messages ++ [{ category := category, tok := tok, content := content }] }

/-- Method Warnf of RootReporter (reporter.go, lines 95-97). -/
def RootReporter.Warnf (generalName : String) (r : RootReporter) (tok : Token)
    (content : String) : RootReporter :=
  r.warnf generalName tok content

/-- Method Warnf of ruleReporter (reporter.go, lines 99-101), on the state of its
parent. -/
def ruleReporter.Warnf (r : ruleReporter) (parent : RootReporter) (tok : Token)
    (content : String) : RootReporter :=
  parent.warnf r.rule tok content

/-- The struct `findingJSON` (reporter.go, lines 119-127). -/
structure findingJSON where
  Category : String
  Message : String
  Path : String
  StartLine : Int
  StartChar : Int
  EndLine : Int
  EndChar : Int
  deriving DecidableEq, Repr

/-- Function numLinesAndCharsOnLastLine (reporter.go, lines 150-164). -/
def numLinesAndCharsOnLastLine (tok : Token) : Int × Int :=
  tok.Content.data.foldl (fun (state : Int × Int) (r : Char) =>
    let (numLines, numCharsOnLastLine) := state
    if r = '\n' then (wrapInt (numLines + 1), 0)
    else (numLines, wrapInt (numCharsOnLastLine + 1))) (0, wrapInt (tok.col - 1))

/-- The finding that the loop of messagesToFindingsJSON appends for a message
(reporter.go, lines 136-145). -/
def findingOf (msg : message) : findingJSON :=
  { Category := "mdlint/" ++ msg.category
    Message := msg.content
    Path := msg.tok.Doc.filename
    StartLine := msg.tok.ln
    StartChar := wrapInt (msg.tok.col - 1)
    EndLine := wrapInt (msg.tok.ln + (numLinesAndCharsOnLastLine msg.tok).1)
    EndChar := (numLinesAndCharsOnLastLine msg.tok).2 }

/-- Method messagesToFindingsJSON (reporter.go, lines 132-148): the reporter, whose
messages are now sorted, and the findings.  `sort` is what `sort.Sort` makes of the
messages with the methods Len, Less and Swap. -/
def messagesToFindingsJSON (sort : sortableMessages → sortableMessages) (r : RootReporter) :
    RootReporter × List findingJSON :=
  let r := { r with messages := sort r.messages }
  let findings := r.messages.foldl (fun (findings : List findingJSON) (msg : message) =>
    let (numLines, numCharsOnLastLine) := numLinesAndCharsOnLastLine msg.tok
    findings ++ [{
      Category := "mdlint/" ++ msg.category
      Message := msg.content
      Path := msg.tok.Doc.filename
      StartLine := msg.tok.ln
      StartChar := wrapInt (msg.tok.col - 1)
      EndLine := wrapInt (msg.tok.ln + numLines)
      EndChar := numCharsOnLastLine }]) []
  (r, findings)

/-- The loop of makeSquiggle (reporter.go, lines 217-227), from column `col` on:
`squiggle` is the buffer. -/
def squiggleLoop (isSeparatorSpace : Char → Bool) (tok : Token) :
    List Char → Int → List Char → List Char
  | [], _, squiggle => squiggle
  | r :: rest, col, squiggle =>
    if col = tok.col then squiggle
    else
      let squiggle := if isSeparatorSpace r then squiggle ++ [r] else squiggle ++ [' ']
      squiggleLoop isSeparatorSpace tok rest (col + 1) squiggle

/-- The library call `strings.Index(s, "\n")` on the characters of `s`: the number of
bytes before the first newline, -1 when there is none. -/
def IndexNewline : List Char → Int
  | [] => -1
  | r :: rest =>
    if r = '\n' then 0
    else
      let index := IndexNewline rest
      if index = -1 then -1 else (r.utf8Size : Int) + index

/-- Function makeSquiggle (reporter.go, lines 212-235); `none` when `strings.Repeat`
panics on a negative count. -/
def makeSquiggle (isSeparatorSpace : Char → Bool) (line : String) (tok : Token) :
    Option String :=
  let squiggle := squiggleLoop isSeparatorSpace tok line.data 1 []
  let squiggle := squiggle ++ ['^']
  let squiggleLen := (tok.Content.utf8ByteSize : Int) - 1
  let index := IndexNewline tok.Content.data
  let squiggleLen := if index ≠ -1 then index - 1 else squiggleLen
  if squiggleLen < 0 then none
  else some (String.mk (squiggle ++ List.replicate squiggleLen.toNat '~'))

/-! ### Orders of the specification, recorded calls and example values -/

/-- The strict lexicographic order of the tuples (filename, line, column, content) of two
messages, the strings compared as byte sequences. -/
def keyLt (a b : message) : Prop :=
  bytesOf a.tok.Doc.filename < bytesOf b.tok.Doc.filename ∨
  (bytesOf a.tok.Doc.filename = bytesOf b.tok.Doc.filename ∧
    (a.tok.ln < b.tok.ln ∨
      (a.tok.ln = b.tok.ln ∧
        (a.tok.col < b.tok.col ∨
          (a.tok.col = b.tok.col ∧ bytesOf a.content < bytesOf b.content)))))

/-- The strict lexicographic order of the tuples (Path, StartLine, StartChar, Message) of
two findings, the strings compared as byte sequences. -/
def findingLt (f g : findingJSON) : Prop :=
  bytesOf f.Path < bytesOf g.Path ∨
  (bytesOf f.Path = bytesOf g.Path ∧
    (f.StartLine < g.StartLine ∨
      (f.StartLine = g.StartLine ∧
        (f.StartChar < g.StartChar ∨
          (f.StartChar = g.StartChar ∧ bytesOf f.Message < bytesOf g.Message)))))

/-- A call of Warnf: on the root reporter, or on the reporter that ForRule made for a
rule. -/
inductive Call where
  | root (tok : Token) (content : String)
  | rule (rule : String) (tok : Token) (content : String)
  deriving DecidableEq, Repr

/-- The reporter after the calls, in order. -/
def record (generalName : String) (r : RootReporter) (calls : List Call) : RootReporter :=
  calls.foldl (fun r call =>
    match call with
    | .root tok content => r.Warnf generalName tok content
    | .rule rule tok content => (r.ForRule rule).Warnf r tok content) r

/-- The token of a call. -/
def Call.tok : Call → Token
  | .root tok _ => tok
  | .rule _ tok _ => tok

/-- The message that a call records: its category is `generalName` on the root reporter
and the name of the rule on a rule reporter. -/
def Call.recorded (generalName : String) : Call → Mdlint.message
  | .root token content => { category := generalName, tok := token, content := content }
  | .rule name token content => { category := name, tok := token, content := content }

/-- Insertion sort by Less: an example of what `sort.Sort` may return. -/
def insertionSort (s : sortableMessages) : sortableMessages :=
  s.foldr (fun m sorted =>
    (sorted.takeWhile fun x => lessMessage x m) ++ m :: (sorted.dropWhile fun x => lessMessage x m)) []

/-- A document of two lines. -/
def exampleDoc : Doc :=
  { filename := "docs/a.md", lines := ["# Title", "some  text here"] }

/-- The word `text` on line 2, column 7. -/
def exampleToken : Token :=
  { Doc := exampleDoc, Content := "text", ln := 2, col := 7 }

/-- The title on line 1, column 1, with the newline that ends it. -/
def titleToken : Token :=
  { Doc := exampleDoc, Content := "# Title\n", ln := 1, col := 1 }

end Mdlint

/-! # Theorems -/

/-- Membership in the output of an `{{ if }}` action. -/
theorem mem_ite_iff {α : Type} (c : Prop) [Decidable c] (x : α) (a b : List α) :
    x ∈ (if c then a else b) ↔ (c ∧ x ∈ a) ∨ (¬ c ∧ x ∈ b) := by
  split <;> simp [*]

namespace Llcpp

/-! ## Storage of owned encoded messages -/

theorem mem_heap_member_response_owned (m : Method) :
    Frag.text "      std::unique_ptr<::fidl::internal::AlignedBuffer<" ∈ ResponseOwnedEncodedByteMessage m
      ↔ 512 < m.ResponseSentMaxSize := by
  by_cases h : m.ResponseSentMaxSize > 512
  · by_cases h3 : m.ResponseSentMaxSize > 65536 <;>
      simp [ResponseOwnedEncodedByteMessage, ResponseSentSize, h, h3]
  · simp [ResponseOwnedEncodedByteMessage, ResponseSentSize, h]

theorem mem_heap_member_request_owned (m : Method) :
    Frag.text "      std::unique_ptr<::fidl::internal::AlignedBuffer<" ∈ RequestOwnedEncodedByteMessage m
      ↔ 512 < m.RequestSentMaxSize := by
  by_cases h : m.RequestSentMaxSize > 512
  · by_cases h3 : m.RequestSentMaxSize > 65536 <;>
      simp [RequestOwnedEncodedByteMessage, RequestSentSize, h, h3]
  · simp [RequestOwnedEncodedByteMessage, RequestSentSize, h]

theorem mem_inline_member_response_owned (m : Method) :
    Frag.text "      uint8_t bytes_[PrimarySize + MaxOutOfLine];" ∈ ResponseOwnedEncodedByteMessage m
      ↔ m.ResponseSentMaxSize ≤ 512 := by
  by_cases h : m.ResponseSentMaxSize > 512
  · have h2 : ¬ m.ResponseSentMaxSize ≤ 512 := by omega
    by_cases h3 : m.ResponseSentMaxSize > 65536 <;>
      simp [ResponseOwnedEncodedByteMessage, ResponseSentSize, h, h2, h3]
  · have h2 : m.ResponseSentMaxSize ≤ 512 := by omega
    simp [ResponseOwnedEncodedByteMessage, ResponseSentSize, h, h2]

theorem mem_inline_member_request_owned (m : Method) :
    Frag.text "      uint8_t bytes_[PrimarySize + MaxOutOfLine];" ∈ RequestOwnedEncodedByteMessage m
      ↔ m.RequestSentMaxSize ≤ 512 := by
  by_cases h : m.RequestSentMaxSize > 512
  · have h2 : ¬ m.RequestSentMaxSize ≤ 512 := by omega
    by_cases h3 : m.RequestSentMaxSize > 65536 <;>
      simp [RequestOwnedEncodedByteMessage, RequestSentSize, h, h2, h3]
  · have h2 : m.RequestSentMaxSize ≤ 512 := by omega
    simp [RequestOwnedEncodedByteMessage, RequestSentSize, h, h2]

theorem count_initialisers_response_owned (m : Method) :
    (ResponseOwnedEncodedByteMessage m).count
        (Frag.text "          : message_(bytes_, sizeof(bytes_)")
      = (if m.ResponseSentMaxSize ≤ 512 then 2 else 0) ∧
    (ResponseOwnedEncodedByteMessage m).count
        (Frag.text ": bytes_(std::make_unique<::fidl::internal::AlignedBuffer<")
      = (if 512 < m.ResponseSentMaxSize then 2 else 0) := by
  by_cases h : m.ResponseSentMaxSize > 512
  · have h2 : ¬ m.ResponseSentMaxSize ≤ 512 := by omega
    by_cases h3 : m.ResponseSentMaxSize > 65536 <;>
    · simp only [ResponseOwnedEncodedByteMessage, ResponseSentSize, h, h2, h3, if_true, if_false,
        List.count_append, List.count_cons, beq_iff_eq, Frag.text.injEq, reduceCtorEq,
        List.count_nil, String.reduceEq]
      simp
  · have h2 : m.ResponseSentMaxSize ≤ 512 := by omega
    simp only [ResponseOwnedEncodedByteMessage, ResponseSentSize, h, h2, if_true, if_false,
      List.count_append, List.count_cons, beq_iff_eq, Frag.text.injEq, reduceCtorEq,
      List.count_nil, String.reduceEq]
    simp

theorem count_initialisers_request_owned (m : Method) :
    (RequestOwnedEncodedByteMessage m).count
        (Frag.text "          : message_(bytes_, sizeof(bytes_), _txid")
      = (if m.RequestSentMaxSize ≤ 512 then 1 else 0) ∧
    (RequestOwnedEncodedByteMessage m).count
        (Frag.text "          : message_(bytes_, sizeof(bytes_)")
      = (if m.RequestSentMaxSize ≤ 512 then 1 else 0) ∧
    (RequestOwnedEncodedByteMessage m).count
        (Frag.text ": bytes_(std::make_unique<::fidl::internal::AlignedBuffer<")
      = (if 512 < m.RequestSentMaxSize then 2 else 0) := by
  by_cases h : m.RequestSentMaxSize > 512
  · have h2 : ¬ m.RequestSentMaxSize ≤ 512 := by omega
    by_cases h3 : m.RequestSentMaxSize > 65536 <;>
    · simp only [RequestOwnedEncodedByteMessage, RequestSentSize, h, h2, h3, if_true, if_false,
        List.count_append, List.count_cons, beq_iff_eq, Frag.text.injEq, reduceCtorEq,
        List.count_nil, String.reduceEq]
      simp
  · have h2 : m.RequestSentMaxSize ≤ 512 := by omega
    simp only [RequestOwnedEncodedByteMessage, RequestSentSize, h, h2, if_true, if_false,
      List.count_append, List.count_cons, beq_iff_eq, Frag.text.injEq, reduceCtorEq,
      List.count_nil, String.reduceEq]
    simp

/-- C1. For every method, the class OwnedEncodedByteMessage of the response and of the
request declares the inline array `uint8_t bytes_[PrimarySize + MaxOutOfLine]` exactly
when the sent max size is at most 512 and the `unique_ptr` to an `AlignedBuffer` exactly
when it is above 512; both constructors take the initialiser of the same mode as the
member (two inline initialisers and no heap one, or two heap ones and no inline one); a
size of 512 gives the inline array and a size of 513 the heap buffer. -/
theorem owned_encoded_byte_message_storage (m : Method) :
    ((Frag.text "      uint8_t bytes_[PrimarySize + MaxOutOfLine];" ∈ ResponseOwnedEncodedByteMessage m
        ↔ m.ResponseSentMaxSize ≤ 512) ∧
     (Frag.text "      std::unique_ptr<::fidl::internal::AlignedBuffer<" ∈ ResponseOwnedEncodedByteMessage m
        ↔ 512 < m.ResponseSentMaxSize) ∧
     (ResponseOwnedEncodedByteMessage m).count
          (Frag.text "          : message_(bytes_, sizeof(bytes_)")
        = (if m.ResponseSentMaxSize ≤ 512 then 2 else 0) ∧
     (ResponseOwnedEncodedByteMessage m).count
          (Frag.text ": bytes_(std::make_unique<::fidl::internal::AlignedBuffer<")
        = (if 512 < m.ResponseSentMaxSize then 2 else 0)) ∧
    ((Frag.text "      uint8_t bytes_[PrimarySize + MaxOutOfLine];" ∈ RequestOwnedEncodedByteMessage m
        ↔ m.RequestSentMaxSize ≤ 512) ∧
     (Frag.text "      std::unique_ptr<::fidl::internal::AlignedBuffer<" ∈ RequestOwnedEncodedByteMessage m
        ↔ 512 < m.RequestSentMaxSize) ∧
     (RequestOwnedEncodedByteMessage m).count
          (Frag.text "          : message_(bytes_, sizeof(bytes_), _txid")
        = (if m.RequestSentMaxSize ≤ 512 then 1 else 0) ∧
     (RequestOwnedEncodedByteMessage m).count
          (Frag.text "          : message_(bytes_, sizeof(bytes_)")
        = (if m.RequestSentMaxSize ≤ 512 then 1 else 0) ∧
     (RequestOwnedEncodedByteMessage m).count
          (Frag.text ": bytes_(std::make_unique<::fidl::internal::AlignedBuffer<")
        = (if 512 < m.RequestSentMaxSize then 2 else 0)) ∧
    (Frag.text "      uint8_t bytes_[PrimarySize + MaxOutOfLine];"
        ∈ ResponseOwnedEncodedByteMessage { m with ResponseSentMaxSize := 512 } ∧
     Frag.text "      std::unique_ptr<::fidl::internal::AlignedBuffer<"
        ∈ ResponseOwnedEncodedByteMessage { m with ResponseSentMaxSize := 513 } ∧
     Frag.text "      uint8_t bytes_[PrimarySize + MaxOutOfLine];"
        ∈ RequestOwnedEncodedByteMessage { m with RequestSentMaxSize := 512 } ∧
     Frag.text "      std::unique_ptr<::fidl::internal::AlignedBuffer<"
        ∈ RequestOwnedEncodedByteMessage { m with RequestSentMaxSize := 513 }) :=
  ⟨⟨mem_inline_member_response_owned m, mem_heap_member_response_owned m,
      count_initialisers_response_owned m⟩,
   ⟨mem_inline_member_request_owned m, mem_heap_member_request_owned m,
      count_initialisers_request_owned m⟩,
   (mem_inline_member_response_owned _).2 (by simp),
   (mem_heap_member_response_owned _).2 (by simp),
   (mem_inline_member_request_owned _).2 (by simp),
   (mem_heap_member_request_owned _).2 (by simp)⟩

/-! ## Size of the heap buffer -/

theorem heap_member_infix_response_owned (m : Method) :
    [Frag.text "      std::unique_ptr<::fidl::internal::AlignedBuffer<"] ++ ResponseSentSize m
        ++ [Frag.text ">> bytes_;"] <:+: ResponseOwnedEncodedByteMessage m
      ↔ 512 < m.ResponseSentMaxSize := by
  constructor
  · intro h
    exact (mem_heap_member_response_owned m).1 (h.subset (by simp))
  · intro h
    have h' : m.ResponseSentMaxSize > 512 := h
    simp only [ResponseOwnedEncodedByteMessage, h', if_true]
    refine List.IsInfix.trans ?_ (List.infix_append _ _ _)
    exact (List.suffix_cons _ _).isInfix

theorem heap_member_infix_request_owned (m : Method) :
    [Frag.text "      std::unique_ptr<::fidl::internal::AlignedBuffer<"] ++ RequestSentSize m
        ++ [Frag.text ">> bytes_;"] <:+: RequestOwnedEncodedByteMessage m
      ↔ 512 < m.RequestSentMaxSize := by
  constructor
  · intro h
    exact (mem_heap_member_request_owned m).1 (h.subset (by simp))
  · intro h
    have h' : m.RequestSentMaxSize > 512 := h
    simp only [RequestOwnedEncodedByteMessage, h', if_true]
    refine List.IsInfix.trans ?_ (List.infix_append _ _ _)
    exact (List.suffix_cons _ _).isInfix

/-- C2. For every method, the templates "RequestSentSize" and "ResponseSentSize" write
the constant `ZX_CHANNEL_MAX_MSG_BYTES` exactly when the sent max size is above 65536 and
`PrimarySize + MaxOutOfLine` exactly when it is at most 65536 (so also at 65536 itself);
what they write is the size argument of the `AlignedBuffer` that OwnedEncodedByteMessage
declares, which is there exactly when the sent max size is above 512. -/
theorem sent_size_clamped_to_channel_max (m : Method) :
    ((RequestSentSize m = [Frag.text "ZX_CHANNEL_MAX_MSG_BYTES"] ↔ 65536 < m.RequestSentMaxSize) ∧
     (RequestSentSize m = [Frag.text "PrimarySize + MaxOutOfLine"] ↔ m.RequestSentMaxSize ≤ 65536) ∧
     RequestSentSize { m with RequestSentMaxSize := 65536 } = [Frag.text "PrimarySize + MaxOutOfLine"] ∧
     RequestSentSize { m with RequestSentMaxSize := 65537 } = [Frag.text "ZX_CHANNEL_MAX_MSG_BYTES"]) ∧
    ((ResponseSentSize m = [Frag.text "ZX_CHANNEL_MAX_MSG_BYTES"] ↔ 65536 < m.ResponseSentMaxSize) ∧
     (ResponseSentSize m = [Frag.text "PrimarySize + MaxOutOfLine"] ↔ m.ResponseSentMaxSize ≤ 65536) ∧
     ResponseSentSize { m with ResponseSentMaxSize := 65536 } = [Frag.text "PrimarySize + MaxOutOfLine"] ∧
     ResponseSentSize { m with ResponseSentMaxSize := 65537 } = [Frag.text "ZX_CHANNEL_MAX_MSG_BYTES"]) ∧
    ([Frag.text "      std::unique_ptr<::fidl::internal::AlignedBuffer<"] ++ RequestSentSize m
        ++ [Frag.text ">> bytes_;"] <:+: RequestOwnedEncodedByteMessage m
      ↔ 512 < m.RequestSentMaxSize) ∧
    ([Frag.text "      std::unique_ptr<::fidl::internal::AlignedBuffer<"] ++ ResponseSentSize m
        ++ [Frag.text ">> bytes_;"] <:+: ResponseOwnedEncodedByteMessage m
      ↔ 512 < m.ResponseSentMaxSize) := by
  refine ⟨⟨?_, ?_, ?_, ?_⟩, ⟨?_, ?_, ?_, ?_⟩, heap_member_infix_request_owned m,
    heap_member_infix_response_owned m⟩
  · by_cases h : m.RequestSentMaxSize > 65536 <;> simp [RequestSentSize, h]
  · by_cases h : m.RequestSentMaxSize > 65536
    · simp [RequestSentSize, h]
    · simp only [RequestSentSize, h, if_false, true_iff]; omega
  · simp [RequestSentSize]
  · simp [RequestSentSize]
  · by_cases h : m.ResponseSentMaxSize > 65536 <;> simp [ResponseSentSize, h]
  · by_cases h : m.ResponseSentMaxSize > 65536
    · simp [ResponseSentSize, h]
    · simp only [ResponseSentSize, h, if_false, true_iff]; omega
  · simp [ResponseSentSize]
  · simp [ResponseSentSize]

/-! ## Handle arrays of unowned encoded messages -/

theorem handles_response_unowned_byte (m : Method) :
    (Frag.text "        zx_handle_disposition_t handles_[std::min(ZX_CHANNEL_MAX_MSG_HANDLES, MaxNumHandles)];"
        ∈ ResponseUnownedEncodedByteMessage m ↔ 0 < m.ResponseMaxHandles) ∧
    (ResponseUnownedEncodedByteMessage m).count (Frag.text "        handles_, std::min(ZX_CHANNEL_MAX_MSG_HANDLES, MaxNumHandles), 0")
        = (if 0 < m.ResponseMaxHandles then 2 else 0) ∧
    (ResponseUnownedEncodedByteMessage m).count (Frag.text "        nullptr, 0, 0")
        = (if 0 < m.ResponseMaxHandles then 0 else 2) := by
  by_cases h : m.ResponseMaxHandles > 0
  · have h2 : 0 < m.ResponseMaxHandles := h
    simp only [ResponseUnownedEncodedByteMessage, h, h2, if_true, if_false, List.count_append, List.count_cons,
      beq_iff_eq, Frag.text.injEq, reduceCtorEq, List.count_nil, String.reduceEq, List.mem_append,
      List.mem_cons, List.not_mem_nil]
    simp
  · have h2 : ¬ 0 < m.ResponseMaxHandles := h
    simp only [ResponseUnownedEncodedByteMessage, h, h2, if_true, if_false, List.count_append, List.count_cons,
      beq_iff_eq, Frag.text.injEq, reduceCtorEq, List.count_nil, String.reduceEq, List.mem_append,
      List.mem_cons, List.not_mem_nil]
    simp

theorem handles_response_unowned_iovec (m : Method) :
    (Frag.text "        zx_handle_disposition_t handles_[std::min(ZX_CHANNEL_MAX_MSG_HANDLES, MaxNumHandles)];"
        ∈ ResponseUnownedEncodedIovecMessage m ↔ 0 < m.ResponseMaxHandles) ∧
    (ResponseUnownedEncodedIovecMessage m).count (Frag.text "          .handles = handles_,\n")
        = (if 0 < m.ResponseMaxHandles then 2 else 0) ∧
    (ResponseUnownedEncodedIovecMessage m).count (Frag.text "          .handle_capacity = std::min(ZX_CHANNEL_MAX_MSG_HANDLES, MaxNumHandles),")
        = (if 0 < m.ResponseMaxHandles then 2 else 0) ∧
    (ResponseUnownedEncodedIovecMessage m).count (Frag.text "          .handles = nullptr,\n")
        = (if 0 < m.ResponseMaxHandles then 0 else 2) ∧
    (ResponseUnownedEncodedIovecMessage m).count (Frag.text "          .handle_capacity = 0,")
        = (if 0 < m.ResponseMaxHandles then 0 else 2) := by
  by_cases h : m.ResponseMaxHandles > 0
  · have h2 : 0 < m.ResponseMaxHandles := h
    simp only [ResponseUnownedEncodedIovecMessage, h, h2, if_true, if_false, List.count_append, List.count_cons,
      beq_iff_eq, Frag.text.injEq, reduceCtorEq, List.count_nil, String.reduceEq, List.mem_append,
      List.mem_cons, List.not_mem_nil]
    simp
  · have h2 : ¬ 0 < m.ResponseMaxHandles := h
    simp only [ResponseUnownedEncodedIovecMessage, h, h2, if_true, if_false, List.count_append, List.count_cons,
      beq_iff_eq, Frag.text.injEq, reduceCtorEq, List.count_nil, String.reduceEq, List.mem_append,
      List.mem_cons, List.not_mem_nil]
    simp

theorem handles_request_unowned_byte (m : Method) :
    (Frag.text "        zx_handle_disposition_t handles_[std::min(ZX_CHANNEL_MAX_MSG_HANDLES, MaxNumHandles)];"
        ∈ RequestUnownedEncodedByteMessage m ↔ 0 < m.RequestMaxHandles) ∧
    (RequestUnownedEncodedByteMessage m).count (Frag.text "        handles_, std::min(ZX_CHANNEL_MAX_MSG_HANDLES, MaxNumHandles), 0")
        = (if 0 < m.RequestMaxHandles then 2 else 0) ∧
    (RequestUnownedEncodedByteMessage m).count (Frag.text "        nullptr, 0, 0")
        = (if 0 < m.RequestMaxHandles then 0 else 2) := by
  by_cases h : m.RequestMaxHandles > 0
  · have h2 : 0 < m.RequestMaxHandles := h
    simp only [RequestUnownedEncodedByteMessage, h, h2, if_true, if_false, List.count_append, List.count_cons,
      beq_iff_eq, Frag.text.injEq, reduceCtorEq, List.count_nil, String.reduceEq, List.mem_append,
      List.mem_cons, List.not_mem_nil]
    simp
  · have h2 : ¬ 0 < m.RequestMaxHandles := h
    simp only [RequestUnownedEncodedByteMessage, h, h2, if_true, if_false, List.count_append, List.count_cons,
      beq_iff_eq, Frag.text.injEq, reduceCtorEq, List.count_nil, String.reduceEq, List.mem_append,
      List.mem_cons, List.not_mem_nil]
    simp

theorem handles_request_unowned_iovec (m : Method) :
    (Frag.text "        zx_handle_disposition_t handles_[std::min(ZX_CHANNEL_MAX_MSG_HANDLES, MaxNumHandles)];"
        ∈ RequestUnownedEncodedIovecMessage m ↔ 0 < m.RequestMaxHandles) ∧
    (RequestUnownedEncodedIovecMessage m).count (Frag.text "          .handles = handles_,\n")
        = (if 0 < m.RequestMaxHandles then 2 else 0) ∧
    (RequestUnownedEncodedIovecMessage m).count (Frag.text "          .handle_capacity = std::min(ZX_CHANNEL_MAX_MSG_HANDLES, MaxNumHandles),")
        = (if 0 < m.RequestMaxHandles then 2 else 0) ∧
    (RequestUnownedEncodedIovecMessage m).count (Frag.text "          .handles = nullptr,\n")
        = (if 0 < m.RequestMaxHandles then 0 else 2) ∧
    (RequestUnownedEncodedIovecMessage m).count (Frag.text "          .handle_capacity = 0,")
        = (if 0 < m.RequestMaxHandles then 0 else 2) := by
  by_cases h : m.RequestMaxHandles > 0
  · have h2 : 0 < m.RequestMaxHandles := h
    simp only [RequestUnownedEncodedIovecMessage, h, h2, if_true, if_false, List.count_append, List.count_cons,
      beq_iff_eq, Frag.text.injEq, reduceCtorEq, List.count_nil, String.reduceEq, List.mem_append,
      List.mem_cons, List.not_mem_nil]
    simp
  · have h2 : ¬ 0 < m.RequestMaxHandles := h
    simp only [RequestUnownedEncodedIovecMessage, h, h2, if_true, if_false, List.count_append, List.count_cons,
      beq_iff_eq, Frag.text.injEq, reduceCtorEq, List.count_nil, String.reduceEq, List.mem_append,
      List.mem_cons, List.not_mem_nil]
    simp

/-- C3. For every method and direction, the byte and the iovec flavour of the unowned
encoded message declare the array `handles_` of `std::min(ZX_CHANNEL_MAX_MSG_HANDLES,
MaxNumHandles)` handle dispositions exactly when the max handle count is above 0.  Both
constructors then pass `handles_` with that capacity; otherwise no array is declared and
both constructors pass `nullptr` with capacity 0. -/
theorem unowned_encoded_message_handles (m : Method) :
    ((Frag.text "        zx_handle_disposition_t handles_[std::min(ZX_CHANNEL_MAX_MSG_HANDLES, MaxNumHandles)];"
         ∈ ResponseUnownedEncodedByteMessage m ↔ 0 < m.ResponseMaxHandles) ∧
     (ResponseUnownedEncodedByteMessage m).count (Frag.text "        handles_, std::min(ZX_CHANNEL_MAX_MSG_HANDLES, MaxNumHandles), 0")
         = (if 0 < m.ResponseMaxHandles then 2 else 0) ∧
     (ResponseUnownedEncodedByteMessage m).count (Frag.text "        nullptr, 0, 0")
         = (if 0 < m.ResponseMaxHandles then 0 else 2)) ∧
    ((Frag.text "        zx_handle_disposition_t handles_[std::min(ZX_CHANNEL_MAX_MSG_HANDLES, MaxNumHandles)];"
         ∈ ResponseUnownedEncodedIovecMessage m ↔ 0 < m.ResponseMaxHandles) ∧
     (ResponseUnownedEncodedIovecMessage m).count (Frag.text "          .handles = handles_,\n")
         = (if 0 < m.ResponseMaxHandles then 2 else 0) ∧
     (ResponseUnownedEncodedIovecMessage m).count (Frag.text "          .handle_capacity = std::min(ZX_CHANNEL_MAX_MSG_HANDLES, MaxNumHandles),")
         = (if 0 < m.ResponseMaxHandles then 2 else 0) ∧
     (ResponseUnownedEncodedIovecMessage m).count (Frag.text "          .handles = nullptr,\n")
         = (if 0 < m.ResponseMaxHandles then 0 else 2) ∧
     (ResponseUnownedEncodedIovecMessage m).count (Frag.text "          .handle_capacity = 0,")
         = (if 0 < m.ResponseMaxHandles then 0 else 2)) ∧
    ((Frag.text "        zx_handle_disposition_t handles_[std::min(ZX_CHANNEL_MAX_MSG_HANDLES, MaxNumHandles)];"
         ∈ RequestUnownedEncodedByteMessage m ↔ 0 < m.RequestMaxHandles) ∧
     (RequestUnownedEncodedByteMessage m).count (Frag.text "        handles_, std::min(ZX_CHANNEL_MAX_MSG_HANDLES, MaxNumHandles), 0")
         = (if 0 < m.RequestMaxHandles then 2 else 0) ∧
     (RequestUnownedEncodedByteMessage m).count (Frag.text "        nullptr, 0, 0")
         = (if 0 < m.RequestMaxHandles then 0 else 2)) ∧
    ((Frag.text "        zx_handle_disposition_t handles_[std::min(ZX_CHANNEL_MAX_MSG_HANDLES, MaxNumHandles)];"
         ∈ RequestUnownedEncodedIovecMessage m ↔ 0 < m.RequestMaxHandles) ∧
     (RequestUnownedEncodedIovecMessage m).count (Frag.text "          .handles = handles_,\n")
         = (if 0 < m.RequestMaxHandles then 2 else 0) ∧
     (RequestUnownedEncodedIovecMessage m).count (Frag.text "          .handle_capacity = std::min(ZX_CHANNEL_MAX_MSG_HANDLES, MaxNumHandles),")
         = (if 0 < m.RequestMaxHandles then 2 else 0) ∧
     (RequestUnownedEncodedIovecMessage m).count (Frag.text "          .handles = nullptr,\n")
         = (if 0 < m.RequestMaxHandles then 0 else 2) ∧
     (RequestUnownedEncodedIovecMessage m).count (Frag.text "          .handle_capacity = 0,")
         = (if 0 < m.RequestMaxHandles then 0 else 2)) :=
  ⟨handles_response_unowned_byte m, handles_response_unowned_iovec m,
   handles_request_unowned_byte m, handles_request_unowned_iovec m⟩

/-! ## Receive buffer of the managed result -/

theorem result_of_bytes_part (p : Protocol) (m : Method) :
    ResultOfBytes m <:+: ResultOfMethod p m := by
  unfold ResultOfMethod
  exact List.infix_append _ _ _

theorem result_of_bytes_eq (m : Method) (h : m.HasResponse = true) :
    ResultOfBytes m =
      (if m.ResponseReceivedMaxSize ≤ 512 then
        [Frag.text "\n", .text "        FIDL_ALIGNDECL\n", .text "        uint8_t bytes_[",
         .val m.Name, .text "Response::PrimarySize + ", .val m.Name,
         .text "Response::MaxOutOfLine];"]
      else if m.ResponseReceivedMaxSize ≤ 65536 then
        [Frag.text "\n", .text "        std::unique_ptr<::fidl::internal::AlignedBuffer<",
         .val m.Name, .text "Response::PrimarySize + ", .val m.Name,
         .text "Response::MaxOutOfLine", .text ">> bytes_;"]
      else
        [Frag.text "\n", .text "        std::unique_ptr<::fidl::internal::AlignedBuffer<",
         .text "ZX_CHANNEL_MAX_MSG_BYTES", .text ">> bytes_;"]) := by
  by_cases h1 : m.ResponseReceivedMaxSize > 512
  · have h1' : ¬ m.ResponseReceivedMaxSize ≤ 512 := by omega
    by_cases h2 : m.ResponseReceivedMaxSize > 65536
    · have h2' : ¬ m.ResponseReceivedMaxSize ≤ 65536 := by omega
      simp [ResultOfBytes, ResponseReceivedSize, h, h1, h1', h2, h2']
    · have h2' : m.ResponseReceivedMaxSize ≤ 65536 := by omega
      simp [ResultOfBytes, ResponseReceivedSize, h, h1, h1', h2, h2']
  · have h1' : m.ResponseReceivedMaxSize ≤ 512 := by omega
    simp [ResultOfBytes, h, h1, h1']

theorem mem_bytes_result_of (p : Protocol) (m : Method) :
    (Frag.text "        uint8_t bytes_[" ∈ ResultOfMethod p m
      ↔ m.HasResponse = true ∧ m.ResponseReceivedMaxSize ≤ 512) ∧
    (Frag.text "        std::unique_ptr<::fidl::internal::AlignedBuffer<" ∈ ResultOfMethod p m
      ↔ m.HasResponse = true ∧ 512 < m.ResponseReceivedMaxSize) := by
  cases h : m.HasResponse
  · simp [ResultOfMethod, ResultOfBytes, h]
  · by_cases h1 : m.ResponseReceivedMaxSize > 512
    · have h1' : ¬ m.ResponseReceivedMaxSize ≤ 512 := by omega
      have h1'' : 512 < m.ResponseReceivedMaxSize := h1
      by_cases h2 : m.ResponseReceivedMaxSize > 65536 <;> by_cases h3 : m.ResponseIsResource = true <;>
        simp [ResultOfMethod, ResultOfBytes, ResponseReceivedSize, ResponseReceivedByteAccess, h, h1,
          h1', h1'', h2, h3]
    · have h1' : m.ResponseReceivedMaxSize ≤ 512 := by omega
      have h1'' : ¬ 512 < m.ResponseReceivedMaxSize := h1
      by_cases h3 : m.ResponseIsResource = true <;>
        simp [ResultOfMethod, ResultOfBytes, ResponseReceivedByteAccess, h, h1, h1', h1'', h3]

/-- C4. For every two-way client method m of a protocol p, the private section of the
class ResultOf::<m> is part of that class and declares `bytes_` as follows: an inline
array of `<m>Response::PrimarySize + <m>Response::MaxOutOfLine` bytes when the response
received max size is at most 512; otherwise a `unique_ptr` to an `AlignedBuffer` whose
size is `<m>Response::PrimarySize + <m>Response::MaxOutOfLine` when the received max size
is at most 65536 and `ZX_CHANNEL_MAX_MSG_BYTES` when it is above 65536.  The class holds
no other declaration of `bytes_`. -/
theorem result_of_receive_buffer (p : Protocol) (m : Method) (h : m.HasResponse = true) :
    ResultOfBytes m <:+: ResultOfMethod p m ∧
    ResultOfBytes m =
      (if m.ResponseReceivedMaxSize ≤ 512 then
        [Frag.text "\n", .text "        FIDL_ALIGNDECL\n", .text "        uint8_t bytes_[",
         .val m.Name, .text "Response::PrimarySize + ", .val m.Name,
         .text "Response::MaxOutOfLine];"]
      else if m.ResponseReceivedMaxSize ≤ 65536 then
        [Frag.text "\n", .text "        std::unique_ptr<::fidl::internal::AlignedBuffer<",
         .val m.Name, .text "Response::PrimarySize + ", .val m.Name,
         .text "Response::MaxOutOfLine", .text ">> bytes_;"]
      else
        [Frag.text "\n", .text "        std::unique_ptr<::fidl::internal::AlignedBuffer<",
         .text "ZX_CHANNEL_MAX_MSG_BYTES", .text ">> bytes_;"]) ∧
    (Frag.text "        uint8_t bytes_[" ∈ ResultOfMethod p m
      ↔ m.ResponseReceivedMaxSize ≤ 512) ∧
    (Frag.text "        std::unique_ptr<::fidl::internal::AlignedBuffer<" ∈ ResultOfMethod p m
      ↔ 512 < m.ResponseReceivedMaxSize) :=
  ⟨result_of_bytes_part p m, result_of_bytes_eq m h,
   by rw [(mem_bytes_result_of p m).1]; simp [h],
   by rw [(mem_bytes_result_of p m).2]; simp [h]⟩

/-- Witness of C4: the response of `Echo` can be larger than a channel message, so the
receive buffer is on the heap and has the size of the largest channel message. -/
theorem result_of_receive_buffer_witness :
    echoMethod.HasResponse = true ∧
    ResultOfBytes echoMethod =
      [Frag.text "\n", .text "        std::unique_ptr<::fidl::internal::AlignedBuffer<",
       .text "ZX_CHANNEL_MAX_MSG_BYTES", .text ">> bytes_;"] :=
  ⟨rfl, by
    have h := (result_of_receive_buffer pingerProtocol echoMethod rfl).2.1
    rw [h]
    simp [echoMethod]⟩

/-! ## Server dispatch -/

theorem try_dispatch_eq (p : Protocol)
    (lib : String → IncomingMsg → DispatchResult × List Effect) (msg : IncomingMsg) :
    TryDispatch p lib msg =
      (if p.ClientMethods = [] then some (DispatchResult.kNotFound, [])
       else some ((lib p.Name msg).1, (lib p.Name msg).2)) := by
  by_cases h : p.ClientMethods = [] <;> simp [TryDispatch, TryDispatchBody, h, exec]

/-- C5. For every protocol, the generated TryDispatch and Dispatch both return, and
Dispatch returns the result of TryDispatch.  After the effects of TryDispatch, Dispatch
itself closes the handles of the message (`FidlHandleInfoCloseMany(msg->handles,
msg->num_handles)`) and then reports the internal error `{kUnexpectedMessage,
ZX_ERR_NOT_SUPPORTED}` when that result is `kNotFound`, and does nothing more when it is
not. -/
theorem dispatch_closes_and_reports_iff_not_found (p : Protocol)
    (lib : String → IncomingMsg → DispatchResult × List Effect) (msg : IncomingMsg) :
    ∃ r es, TryDispatch p lib msg = some (r, es) ∧
      Dispatch p lib msg = some (r, es ++
        (if r = DispatchResult.kNotFound then
          [Effect.FidlHandleInfoCloseMany msg.handles msg.num_handles,
           Effect.InternalError "::fidl::UnbindInfo::kUnexpectedMessage" "ZX_ERR_NOT_SUPPORTED"]
        else [])) := by
  by_cases h : p.ClientMethods = []
  · refine ⟨DispatchResult.kNotFound, [], ?_, ?_⟩
    · simp [try_dispatch_eq, h]
    · simp [Dispatch, DispatchBody, h, exec]
  · refine ⟨(lib p.Name msg).1, (lib p.Name msg).2, ?_, ?_⟩
    · simp [try_dispatch_eq, h]
    · simp only [Dispatch, try_dispatch_eq, h, if_false]
      cases hr : (lib p.Name msg).1 <;> simp [DispatchBody, exec, hr, h]

/-! ## Default bodies of transitional handlers -/

set_option maxRecDepth 4000 in
theorem mem_client_definitions (p : Protocol) (m : Method) :
    (Frag.tmpl "SyncRequestManagedMethodDefinition" (Dot.method m) ∈ ProtocolDefinition p
      ↔ m ∈ p.ClientMethods) ∧
    (Frag.tmpl "ClientSyncRequestManagedMethodDefinition" (Dot.method m) ∈ ProtocolDefinition p
      ↔ m ∈ p.ClientMethods) ∧
    (Frag.tmpl "SyncRequestCallerAllocateMethodDefinition" (Dot.method m) ∈ ProtocolDefinition p
      ↔ m ∈ p.ClientMethods ∧ (m.Request ≠ [] ∨ m.Response ≠ [])) ∧
    (Frag.tmpl "ClientSyncRequestCallerAllocateMethodDefinition" (Dot.method m) ∈ ProtocolDefinition p
      ↔ m ∈ p.ClientMethods ∧ (m.Request ≠ [] ∨ m.Response ≠ [])) ∧
    (Frag.tmpl "ClientAsyncRequestManagedMethodDefinition" (Dot.method m) ∈ ProtocolDefinition p
      ↔ m ∈ p.ClientMethods ∧ m.HasResponse = true) := by
  have key : ∀ (c : Method → Prop) (l : List Method),
      (∃ a ∈ l, c a ∧ m = a) ↔ m ∈ l ∧ c m := by
    intro c l
    constructor
    · rintro ⟨a, ha, hc, rfl⟩; exact ⟨ha, hc⟩
    · rintro ⟨ha, hc⟩; exact ⟨m, ha, hc, rfl⟩
  simp [ProtocolDefinition, SyncServerTryDispatchMethodDefinition, SyncServerDispatchMethodDefinition,
    SyncServerDispatchMethodSignature, DispatchMethod, MethodEntry, TryDispatchBody, DispatchBody,
    MethodDefinitions, SyncServerDispatchMoveParams, mem_ite_iff, List.mem_flatMap, key]

/-- C8, the claim as stated fails: `Ping() -> ()` is a two-way client method of the
example protocol, and "ProtocolDefinition" writes its managed and asynchronous
definitions but no caller-allocated definition, so not all three variants are there. -/
theorem ping_has_no_caller_allocated_definition :
    pingMethod ∈ pingerProtocol.ClientMethods ∧ pingMethod.HasRequest = true ∧
    pingMethod.HasResponse = true ∧
    ¬ (Frag.tmpl "ClientSyncRequestManagedMethodDefinition" (Dot.method pingMethod)
          ∈ ProtocolDefinition pingerProtocol ∧
       Frag.tmpl "ClientSyncRequestCallerAllocateMethodDefinition" (Dot.method pingMethod)
          ∈ ProtocolDefinition pingerProtocol ∧
       Frag.tmpl "ClientAsyncRequestManagedMethodDefinition" (Dot.method pingMethod)
          ∈ ProtocolDefinition pingerProtocol) := by
  refine ⟨by simp [pingerProtocol], rfl, rfl, ?_⟩
  rintro ⟨-, h, -⟩
  have h2 := ((mem_client_definitions pingerProtocol pingMethod).2.2.2.1.1 h).2
  simp [pingMethod] at h2

/-- C8, amended. For every two-way client method m of a protocol p, "ProtocolDefinition"
writes the managed synchronous definitions and the asynchronous definition of m, and it
writes the caller-allocated synchronous definitions of m exactly when m has at least one
request or response parameter. -/
theorem client_definition_variants (p : Protocol) (m : Method) (hm : m ∈ p.ClientMethods)
    (hresp : m.HasResponse = true) :
    Frag.tmpl "SyncRequestManagedMethodDefinition" (Dot.method m) ∈ ProtocolDefinition p ∧
    Frag.tmpl "ClientSyncRequestManagedMethodDefinition" (Dot.method m) ∈ ProtocolDefinition p ∧
    Frag.tmpl "ClientAsyncRequestManagedMethodDefinition" (Dot.method m) ∈ ProtocolDefinition p ∧
    (Frag.tmpl "SyncRequestCallerAllocateMethodDefinition" (Dot.method m) ∈ ProtocolDefinition p
      ↔ m.Request ≠ [] ∨ m.Response ≠ []) ∧
    (Frag.tmpl "ClientSyncRequestCallerAllocateMethodDefinition" (Dot.method m) ∈ ProtocolDefinition p
      ↔ m.Request ≠ [] ∨ m.Response ≠ []) := by
  obtain ⟨h1, h2, h3, h4, h5⟩ := mem_client_definitions p m
  exact ⟨h1.2 hm, h2.2 hm, h5.2 ⟨hm, hresp⟩,
    h3.trans ⟨fun h => h.2, fun h => ⟨hm, h⟩⟩, h4.trans ⟨fun h => h.2, fun h => ⟨hm, h⟩⟩⟩

/-- Witness of C8 (amended): `Echo(string s) -> (string r)` has all variants. -/
theorem client_definition_variants_witness :
    echoMethod ∈ pingerProtocol.ClientMethods ∧ echoMethod.HasResponse = true ∧
    Frag.tmpl "ClientSyncRequestCallerAllocateMethodDefinition" (Dot.method echoMethod)
      ∈ ProtocolDefinition pingerProtocol :=
  ⟨by simp [pingerProtocol], rfl,
   (client_definition_variants pingerProtocol echoMethod (by simp [pingerProtocol]) rfl).2.2.2.2.2
     (by simp [echoMethod])⟩

/-! ## Order of the declarations in the header -/

theorem filter_flatMap_eq_pass (name : declKind → Option String) (body : Decl → List (Frag Dot))
    (q : Frag Dot → Bool)
    (h : ∀ d, (body d).filter q = ((name d.Kind).map fun n => Frag.tmpl n (Dot.decl d)).toList)
    (ds : List Decl) :
    (ds.flatMap body).filter q = declarationPass name ds := by
  induction ds with
  | nil => simp [declarationPass]
  | cons d ds ih =>
    rw [List.flatMap_cons, List.filter_append, ih, h]
    unfold declarationPass
    rw [List.filterMap_cons]
    cases name d.Kind <;> simp

theorem filter_flatMap_eq_nil {α : Type} (body : α → List (Frag Dot)) (q : Frag Dot → Bool)
    (h : ∀ a, (body a).filter q = []) (l : List α) : (l.flatMap body).filter q = [] := by
  induction l with
  | nil => rfl
  | cons a l ih => rw [List.flatMap_cons, List.filter_append, ih, h]; rfl

theorem header_filter (root : Root) (q : Frag Dot → Bool)
    (htext : ∀ s, q (Frag.text s) = false) (hval : ∀ s, q (Frag.val s) = false)
    (hfunc : ∀ n args, q (Frag.func n args) = false)
    (hclient : ∀ d, q (Frag.tmpl "ClientDeclaration" d) = false)
    (hsender : ∀ d, q (Frag.tmpl "EventSenderDeclaration" d) = false)
    (htraits : ∀ d, (Traits d).filter q = []) :
    (Header root).filter q =
      (root.Decls.flatMap ForwardDeclarations).filter q ++
      (root.Decls.flatMap TableAndUnionDeclarations).filter q ++
      (root.Decls.flatMap OtherDeclarations).filter q := by
  have h1 : ∀ l : List String, (l.flatMap fun h =>
      [Frag.text "#include <lib/zx/", Frag.val h, Frag.text ".h>\n"]).filter q = [] :=
    filter_flatMap_eq_nil _ _ (by intro a; simp [List.filter_cons, htext, hval])
  have h2 : ∀ l : List String, (l.flatMap fun h =>
      [Frag.text "#include <", Frag.val h, Frag.text "/", Frag.val root.IncludeStem,
       Frag.text ".h>\n"]).filter q = [] :=
    filter_flatMap_eq_nil _ _ (by intro a; simp [List.filter_cons, htext, hval])
  have h3 : ∀ l : List Decl, (l.flatMap fun d => Traits d).filter q = [] :=
    filter_flatMap_eq_nil _ _ htraits
  have h4 : ∀ l : List Decl, (l.flatMap fun d =>
      [Frag.text "\n", Frag.func "EnsureNamespace" [Dot.decl d]] ++
      (if d.Kind = declKind.Protocol then
        [Frag.text "\n", Frag.tmpl "ClientDeclaration" (Dot.decl d), Frag.text "\n", Frag.text "\n",
         Frag.tmpl "EventSenderDeclaration" (Dot.decl d), Frag.text "\n"]
      else [])).filter q = [] :=
    filter_flatMap_eq_nil _ _ (by
      intro d
      by_cases h : d.Kind = declKind.Protocol <;>
        simp [List.filter_cons, htext, hfunc, hclient, hsender, h])
  have h5 : (if root.Headers ≠ [] then
      [Frag.text "\n"] ++ (root.Headers.flatMap fun h =>
        [Frag.text "#include <", Frag.val h, Frag.text "/", Frag.val root.IncludeStem,
         Frag.text ".h>\n"])
      else ([] : List (Frag Dot))).filter q = [] := by
    split
    · rw [List.filter_append, h2]; simp [List.filter_cons, htext]
    · rfl
  unfold Header
  simp only [List.filter_append, h1, h3, h4, h5, List.filter_cons, List.filter_nil, htext, hfunc,
    List.append_nil, List.nil_append, Bool.false_eq_true, if_false]

/-- C9. For every list of declarations, the calls that the template "Header" makes to
the templates declaring a type or a constant are, in this order: the forward declaration
of every Bits, Enum, Protocol, Service, Struct, Table and Union; then the full
declaration of every Table and Union; then the full declaration of every Const,
Protocol, Service and Struct; each of the three passes in the input order of the
declarations.  So no full declaration precedes a forward declaration, and the full
declarations of tables and unions precede all other full declarations. -/
theorem header_declaration_order (root : Root) :
    (Header root).filter isDeclaration =
      declarationPass forwardDeclarationOf root.Decls ++
      declarationPass tableOrUnionDeclarationOf root.Decls ++
      declarationPass otherDeclarationOf root.Decls ∧
    (Header root).filter isFullDeclaration =
      declarationPass tableOrUnionDeclarationOf root.Decls ++
      declarationPass otherDeclarationOf root.Decls := by
  constructor
  · rw [header_filter root isDeclaration (fun _ => rfl) (fun _ => rfl) (fun _ _ => rfl)
      (fun _ => by simp [isDeclaration]) (fun _ => by simp [isDeclaration])
      (by intro d; cases h : d.Kind <;> simp [Traits, h, isDeclaration])]
    rw [filter_flatMap_eq_pass forwardDeclarationOf ForwardDeclarations isDeclaration
        (by intro d; cases h : d.Kind <;> simp [ForwardDeclarations, forwardDeclarationOf, h, isDeclaration]),
      filter_flatMap_eq_pass tableOrUnionDeclarationOf TableAndUnionDeclarations isDeclaration
        (by intro d; cases h : d.Kind <;>
          simp [TableAndUnionDeclarations, tableOrUnionDeclarationOf, h, isDeclaration]),
      filter_flatMap_eq_pass otherDeclarationOf OtherDeclarations isDeclaration
        (by intro d; cases h : d.Kind <;> simp [OtherDeclarations, otherDeclarationOf, h, isDeclaration])]
  · rw [header_filter root isFullDeclaration (fun _ => rfl) (fun _ => rfl) (fun _ _ => rfl)
      (fun _ => by simp [isFullDeclaration]) (fun _ => by simp [isFullDeclaration])
      (by intro d; cases h : d.Kind <;> simp [Traits, h, isFullDeclaration])]
    rw [filter_flatMap_eq_nil ForwardDeclarations isFullDeclaration
        (by intro d; cases h : d.Kind <;> simp [ForwardDeclarations, h, isFullDeclaration]),
      filter_flatMap_eq_pass tableOrUnionDeclarationOf TableAndUnionDeclarations isFullDeclaration
        (by intro d; cases h : d.Kind <;>
          simp [TableAndUnionDeclarations, tableOrUnionDeclarationOf, h, isFullDeclaration]),
      filter_flatMap_eq_pass otherDeclarationOf OtherDeclarations isFullDeclaration
        (by intro d; cases h : d.Kind <;>
          simp [OtherDeclarations, otherDeclarationOf, h, isFullDeclaration])]
    rfl

end Llcpp

namespace Hlcpp

/-! ## Copy compatibility of structs -/

theorem evalConjuncts_deps (mc : String → Bool) (deps : List String) (acc : Bool) :
    evalConjuncts mc acc
      ((deps.flatMap fun dep =>
        [(Frag.text "\n" : Frag Dot), .text "    && IsMemcpyCompatible<", .val dep,
         .text ">::value"]) ++
        [.text "> \x7b\x7d;\n"]) = some (acc && deps.all mc) := by
  induction deps generalizing acc with
  | nil => simp [evalConjuncts]
  | cons d ds ih =>
    have h : ((d :: ds).flatMap fun dep =>
        [(Frag.text "\n" : Frag Dot), .text "    && IsMemcpyCompatible<", .val dep,
         .text ">::value"]) ++
        [.text "> \x7b\x7d;\n"]
        = .text "\n" :: .text "    && IsMemcpyCompatible<" :: .val d :: .text ">::value" ::
          ((ds.flatMap fun dep =>
            [(Frag.text "\n" : Frag Dot), .text "    && IsMemcpyCompatible<", .val dep,
             .text ">::value"]) ++
            [.text "> \x7b\x7d;\n"]) := by
      simp only [List.flatMap_cons, List.cons_append, List.nil_append]
    rw [h, evalConjuncts, ih, List.all_cons, Bool.and_assoc]

theorem hasPaddingValue_struct (s : Struct) (primary : String → Bool)
    (hprim : primary s.Str = false) :
    hasPaddingValue primary (StructTraitsHasPadding s) s.Str = s.HasPadding := by
  cases h : s.HasPadding <;> simp [hasPaddingValue, StructTraitsHasPadding, h, hprim]

theorem isMemcpyCompatibleValue_struct (s : Struct) (primary mc : String → Bool)
    (hdeps : s.FullDeclMemcpyCompatibleDeps ≠ []) (hprim : primary s.Str = false) :
    isMemcpyCompatibleValue (hasPaddingValue primary (StructTraitsHasPadding s)) mc
        (StructTraitsIsMemcpyCompatible s)
      = some (s.Str, !s.HasPadding && s.FullDeclMemcpyCompatibleDeps.all mc) := by
  simp only [StructTraitsIsMemcpyCompatible, hdeps, ne_eq, not_false_eq_true, if_true,
    List.cons_append, List.nil_append, isMemcpyCompatibleValue, List.append_assoc]
  rw [evalConjuncts_deps, hasPaddingValue_struct s primary hprim]
  simp

theorem isMemcpyCompatibleValue_none (s : Struct) (hp mc : String → Bool)
    (hdeps : s.FullDeclMemcpyCompatibleDeps = []) :
    isMemcpyCompatibleValue hp mc (StructTraitsIsMemcpyCompatible s) = none := by
  simp [StructTraitsIsMemcpyCompatible, hdeps, isMemcpyCompatibleValue]

/-- C10, counterexample: a struct declaration without padding whose list
`.FullDeclMemcpyCompatibleDeps` is empty.  The right side of the claimed equivalence
holds of it (it has no padding, and the trait of every type it depends on is true,
there being none), whatever the traits of other types are; but "StructTraits" emits no
specialization of `IsMemcpyCompatible` for it: the part of lines 152-160 is empty, and
the text `struct IsMemcpyCompatible<` does not occur in what "StructTraits" writes.  The
trait of the struct is then whatever the primary template of the runtime library gives,
not what the claim tells. -/
theorem bareStruct_has_no_IsMemcpyCompatible :
    bareStruct.HasPadding = false ∧
    (∀ mc : String → Bool, ∀ d ∈ bareStruct.FullDeclMemcpyCompatibleDeps, mc d = true) ∧
    StructTraitsIsMemcpyCompatible bareStruct = [] ∧
    (StructTraits bareStruct).count (.text "struct IsMemcpyCompatible<") = 0 ∧
    (∀ primary mc : String → Bool,
      isMemcpyCompatibleValue (hasPaddingValue primary (StructTraitsHasPadding bareStruct)) mc
        (StructTraitsIsMemcpyCompatible bareStruct) = none) := by
  refine ⟨rfl, ?_, rfl, by decide, ?_⟩
  · intro mc d hd
    simp [bareStruct] at hd
  · intro primary mc
    exact isMemcpyCompatibleValue_none bareStruct _ mc rfl

/-- C10, amended.  For every struct declaration, "StructTraits" writes a specialization
of `IsMemcpyCompatible` exactly when the struct names at least one type it depends on
(`.FullDeclMemcpyCompatibleDeps` is not empty); for a struct that names none, lines
152-160 write nothing.  The specialization, when written, is for the struct itself, and
its value is true if and only if the struct has no padding (`.HasPadding` is false) and
`IsMemcpyCompatible` is true for every type the struct depends on.  `primary` is the
primary template of `HasPadding` in the runtime library, which is false for a type
without specialization. -/
theorem struct_is_memcpy_compatible_iff (s : Struct) (primary mc : String → Bool)
    (hprim : primary s.Str = false) :
    (s.FullDeclMemcpyCompatibleDeps = [] ∧
      StructTraitsIsMemcpyCompatible s = [] ∧
      isMemcpyCompatibleValue (hasPaddingValue primary (StructTraitsHasPadding s)) mc
        (StructTraitsIsMemcpyCompatible s) = none) ∨
    (s.FullDeclMemcpyCompatibleDeps ≠ [] ∧
      ∃ b, isMemcpyCompatibleValue (hasPaddingValue primary (StructTraitsHasPadding s)) mc
          (StructTraitsIsMemcpyCompatible s) = some (s.Str, b) ∧
        (b = true ↔
          s.HasPadding = false ∧ ∀ d ∈ s.FullDeclMemcpyCompatibleDeps, mc d = true)) := by
  by_cases hdeps : s.FullDeclMemcpyCompatibleDeps = []
  · exact Or.inl ⟨hdeps, by simp [StructTraitsIsMemcpyCompatible, hdeps],
      isMemcpyCompatibleValue_none s _ mc hdeps⟩
  · refine Or.inr ⟨hdeps, _, isMemcpyCompatibleValue_struct s primary mc hdeps hprim, ?_⟩
    cases s.HasPadding <;> simp [List.all_eq_true]

/-- Witness of C10: for a struct of two `int32` members without padding, whose member
type is copy compatible, the specialization is written and its value is true. -/
theorem struct_is_memcpy_compatible_iff_witness :
    isMemcpyCompatibleValue
        (hasPaddingValue (fun _ => false) (StructTraitsHasPadding pointStruct)) (fun _ => true)
        (StructTraitsIsMemcpyCompatible pointStruct) = some ("::example::Point", true) := by
  rcases struct_is_memcpy_compatible_iff pointStruct (fun _ => false) (fun _ => true) rfl with
    ⟨h, -⟩ | ⟨-, b, hb, hiff⟩
  · simp [pointStruct] at h
  · have : b = true := hiff.2 ⟨rfl, fun _ _ => rfl⟩
    rw [hb, this]; rfl

end Hlcpp

namespace Resultdb

/-! ## Grouping of test results into requests -/

theorem flatten_eq_nil_of_getD {α : Type} (l : List (List α)) (h : ∀ j, l.getD j [] = []) :
    l.flatten = [] := by
  induction l with
  | nil => rfl
  | cons r rs ih =>
    have h0 : r = [] := by simpa using h 0
    have hs : ∀ j, rs.getD j [] = [] := fun j => by simpa using h (j + 1)
    simp [h0, ih hs]

theorem appendAt_spec {α : Type} (result : α) :
    ∀ (requests : List (List α)) (k : Nat), k < requests.length →
      ∃ out, appendAt requests k result = some out ∧ out.length = requests.length ∧
        (∀ j, out.getD j [] =
          if j = k then requests.getD j [] ++ [result] else requests.getD j []) ∧
        ((∀ j, k < j → requests.getD j [] = []) → out.flatten = requests.flatten ++ [result]) := by
  intro requests
  induction requests with
  | nil => intro k hk; simp at hk
  | cons r rs ih =>
    intro k hk
    cases k with
    | zero =>
      refine ⟨(r ++ [result]) :: rs, rfl, by simp, ?_, ?_⟩
      · intro j
        cases j <;> simp
      · intro h
        have hs : rs.flatten = [] :=
          flatten_eq_nil_of_getD rs fun j => by simpa using h (j + 1) (Nat.succ_pos j)
        simp [hs]
    | succ k =>
      obtain ⟨out, h1, h2, h3, h4⟩ := ih k (by simpa using hk)
      refine ⟨r :: out, by simp [appendAt, h1], by simp [h2], ?_, ?_⟩
      · intro j
        cases j with
        | zero => simp
        | succ j => simpa using h3 j
      · intro h
        have := h4 fun j hj => by simpa using h (j + 1) (Nat.succ_lt_succ hj)
        simp [this]

theorem appendResults_spec {α : Type} (c : Nat) (hc : 0 < c) (T : Nat) :
    ∀ (rest : List α) (i : Nat) (requests : List (List α)),
      requests.length = T →
      (∀ j, (requests.getD j []).length = min c (i - j * c)) →
      (∀ k, k < rest.length → (i + k) / c < T) →
      ∃ out, appendResults (c : Int) i rest requests = some out ∧ out.length = T ∧
        (∀ j, (out.getD j []).length = min c (i + rest.length - j * c)) ∧
        out.flatten = requests.flatten ++ rest := by
  intro rest
  induction rest with
  | nil =>
    intro i requests hl hlen _
    exact ⟨requests, rfl, hl, by simpa using hlen, by simp⟩
  | cons x rs ih =>
    intro i requests hl hlen hidx
    have hdiv : (i : Int).tdiv (c : Int) = ((i / c : Nat) : Int) := (Int.ofNat_tdiv i c).symm
    have hlt : i / c < requests.length := by
      have := hidx 0 (by simp)
      simpa [hl] using this
    have h1 : i / c * c ≤ i := Nat.div_mul_le_self i c
    have h2 : i < i / c * c + c := by
      have := Nat.lt_succ_self (i / c)
      have h3 := (Nat.div_lt_iff_lt_mul hc).1 this
      simpa [Nat.succ_mul] using h3
    obtain ⟨out1, ha, hb, hget, hflat⟩ := appendAt_spec x requests (i / c) hlt
    have hlen1 : ∀ j, (out1.getD j []).length = min c (i + 1 - j * c) := by
      intro j
      rw [hget j]
      by_cases hj : j = i / c
      · subst hj
        have := hlen (i / c)
        simp only [if_true, List.length_append, List.length_singleton, this]
        omega
      · rw [if_neg hj, hlen j]
        rcases Nat.lt_or_gt_of_ne hj with hlt' | hgt'
        · have h4 : (j + 1) * c ≤ i / c * c := Nat.mul_le_mul_right c hlt'
          rw [Nat.succ_mul] at h4
          omega
        · have h4 : (i / c + 1) * c ≤ j * c := Nat.mul_le_mul_right c hgt'
          rw [Nat.succ_mul] at h4
          omega
    have hempty : ∀ j, i / c < j → requests.getD j [] = [] := by
      intro j hj
      have h4 : (i / c + 1) * c ≤ j * c := Nat.mul_le_mul_right c hj
      rw [Nat.succ_mul] at h4
      have := hlen j
      apply List.length_eq_zero.1
      omega
    obtain ⟨out, hc1, hc2, hc3, hc4⟩ := ih (i + 1) out1 (hb.trans hl) hlen1 (by
      intro k hk
      have := hidx (k + 1) (by simpa using hk)
      simpa [Nat.add_assoc, Nat.add_comm 1 k] using this)
    refine ⟨out, ?_, hc2, ?_, ?_⟩
    · simp only [appendResults, hdiv]
      have hneg : ¬ ((i / c : Nat) : Int) < 0 := Int.not_lt.2 (Int.ofNat_nonneg _)
      simp only [hneg, if_false, Int.toNat_ofNat, ha]
      exact hc1
    · intro j
      have := hc3 j
      simpa [Nat.add_assoc, Nat.add_comm 1 rs.length] using this
    · rw [hc4, hflat hempty]
      simp

theorem makeslice_of_le (len cap : Int) (h0 : 0 ≤ len) (h1 : len ≤ cap)
    (h2 : 8 * cap ≤ maxAlloc) : makeslice len cap = true := by
  have h3 : 0 ≤ cap := le_trans h0 h1
  simp [makeslice, h0, h1, h2, h3]

theorem makeslice_of_lt (len cap : Int) (h : maxAlloc < 8 * cap) : makeslice len cap = false := by
  have h2 : ¬ 8 * cap ≤ maxAlloc := not_le.2 h
  simp [makeslice, h2]

theorem createTestResultsRequests_spec {α : Type} (results : List α) (chunkSize : Int)
    (h : 0 < chunkSize) (hcap : 8 * chunkSize ≤ maxAlloc)
    (hlen : 8 * (results.length : Int) ≤ maxAlloc) :
    ∃ out, createTestResultsRequests results chunkSize = some out ∧
      (results ≠ [] → out.length = (results.length - 1) / chunkSize.toNat + 1) ∧
      (∀ j, (out.getD j []).length
        = min chunkSize.toNat (results.length - j * chunkSize.toNat)) ∧
      out.flatten = results := by
  obtain ⟨c, rfl⟩ : ∃ c : Nat, chunkSize = (c : Int) := ⟨chunkSize.toNat, by omega⟩
  have hc : 0 < c := by omega
  have hne : ¬ (c : Int) = 0 := by omega
  have hmk : makeslice 0 (c : Int) = true := makeslice_of_le 0 c (le_refl 0) (by omega) hcap
  simp only [createTestResultsRequests, hne, if_false, Int.toNat_ofNat, hmk, reduceCtorEq,
    and_false]
  cases results with
  | nil =>
    have hdiv : (((([] : List α).length : Nat) : Int) - 1).tdiv (c : Int) = -((1 / c : Nat) : Int) := by
      rfl
    have hle : 1 / c ≤ 1 := Nat.div_le_self 1 c
    have htot : makeslice (-((1 / c : Nat) : Int) + 1) (-((1 / c : Nat) : Int) + 1) = true := by
      generalize 1 / c = q at hle
      exact makeslice_of_le _ _ (by omega) (le_refl _) (by unfold maxAlloc; omega)
    simp only [hdiv, htot, reduceCtorEq, if_false, appendResults]
    refine ⟨_, rfl, by simp, ?_, by simp⟩
    intro j
    simp [List.getElem?_getD_replicate_default_eq]
  | cons x xs =>
    have hcast : (((x :: xs).length : Nat) : Int) - 1 = ((xs.length : Nat) : Int) := by simp
    have htd : ((xs.length : Nat) : Int).tdiv (c : Int) = ((xs.length / c : Nat) : Int) :=
      (Int.ofNat_tdiv _ _).symm
    have hq : xs.length / c ≤ xs.length := Nat.div_le_self _ _
    have hl : 8 * (((xs.length : Nat) : Int) + 1) ≤ maxAlloc := by
      simpa using hlen
    have htot : makeslice (((xs.length / c : Nat) : Int) + 1) (((xs.length / c : Nat) : Int) + 1)
        = true := by
      generalize xs.length / c = q at hq
      exact makeslice_of_le _ _ (by omega) (le_refl _) (by omega)
    have hT : (((xs.length / c : Nat) : Int) + 1).toNat = xs.length / c + 1 := by
      generalize xs.length / c = q
      omega
    simp only [hcast, htd, htot, hT, reduceCtorEq, if_false]
    obtain ⟨out, h1, h2, h3, h4⟩ := appendResults_spec c hc (xs.length / c + 1) (x :: xs) 0
      (List.replicate (xs.length / c + 1) []) (by simp)
      (by intro j; simp [List.getElem?_getD_replicate_default_eq])
      (by
        intro k hk
        have : k ≤ xs.length := by simpa [Nat.lt_succ_iff] using hk
        have := Nat.div_le_div_right (c := c) this
        simpa using Nat.lt_succ_of_le this)
    refine ⟨out, h1, ?_, ?_, ?_⟩
    · intro _; simpa using h2
    · intro j; simpa using h3 j
    · simpa using h4

/-- The first loop of createTestResultsRequests runs for a chunkSize of at least 2 and for
every non-empty list: a chunkSize that make refuses as a capacity stops the function. -/
theorem createTestResultsRequests_none {α : Type} (results : List α) (chunkSize : Int)
    (h : 0 < chunkSize) (hcap : maxAlloc < 8 * chunkSize) :
    createTestResultsRequests results chunkSize = none := by
  obtain ⟨c, rfl⟩ : ∃ c : Nat, chunkSize = (c : Int) := ⟨chunkSize.toNat, by omega⟩
  have hc : 2 ≤ c := by unfold maxAlloc at hcap; omega
  have hne : ¬ (c : Int) = 0 := by omega
  have hmk : makeslice 0 (c : Int) = false := makeslice_of_lt 0 c hcap
  have hpos : 0 < ((results.length : Int) - 1).tdiv (c : Int) + 1 := by
    cases results with
    | nil =>
      have hdiv : (((([] : List α).length : Nat) : Int) - 1).tdiv (c : Int)
          = -((1 / c : Nat) : Int) := by rfl
      have h1 : 1 / c = 0 := Nat.div_eq_of_lt (by omega)
      rw [hdiv, h1]
      decide
    | cons x xs =>
      have hcast : (((x :: xs).length : Nat) : Int) - 1 = ((xs.length : Nat) : Int) := by simp
      have htd : ((xs.length : Nat) : Int).tdiv (c : Int) = ((xs.length / c : Nat) : Int) :=
        (Int.ofNat_tdiv _ _).symm
      rw [hcast, htd]
      generalize xs.length / c = q
      omega
  simp only [createTestResultsRequests, hne, if_false, hmk, hpos, and_self, if_true]
  split <;> rfl

end Resultdb
namespace Resultdb

/-- C15, counterexample: with three results and the chunkSize 2^62, which is above 0,
createTestResultsRequests does not return: `make([]*sinkpb.TestResult, 0, chunkSize)`
panics, as 8 * 2^62 bytes are beyond what make allocates. -/
theorem createTestResultsRequests_partition_large_chunkSize :
    (0 : Int) < 4611686018427387904 ∧
    createTestResultsRequests [1, 2, 3] 4611686018427387904 = none := by
  refine ⟨by decide, ?_⟩
  exact createTestResultsRequests_none [1, 2, 3] 4611686018427387904 (by decide) (by decide)

/-- C15, amended.  For every list of test results (a slice of pointers, so its 8-byte
elements take at most `maxAlloc` bytes) and every chunkSize above 0: when make accepts
chunkSize as the capacity of a slice of pointers (8 * chunkSize is at most `maxAlloc`,
so chunkSize is at most 2^45, as the 500 of mainImpl is), createTestResultsRequests
returns, each request it returns holds at most chunkSize results, and the results of the
requests, taken in order, are the input list: none is lost, repeated or moved; for a
chunkSize above that, it panics. -/
theorem createTestResultsRequests_partition {α : Type} (results : List α) (chunkSize : Int)
    (h : 0 < chunkSize) (hlen : 8 * (results.length : Int) ≤ maxAlloc) :
    (8 * chunkSize ≤ maxAlloc →
      ∃ requests, createTestResultsRequests results chunkSize = some requests ∧
        (∀ r ∈ requests, (r.length : Int) ≤ chunkSize) ∧
        requests.flatten = results) ∧
    (maxAlloc < 8 * chunkSize → createTestResultsRequests results chunkSize = none) := by
  refine ⟨fun hcap => ?_, createTestResultsRequests_none results chunkSize h⟩
  obtain ⟨out, h1, -, h3, h4⟩ := createTestResultsRequests_spec results chunkSize h hcap hlen
  refine ⟨out, h1, ?_, h4⟩
  intro r hr
  obtain ⟨j, hj, rfl⟩ := List.getElem_of_mem hr
  have := h3 j
  rw [List.getD_eq_getElem _ _ hj] at this
  omega

/-- Witness of C15: three results with the chunk size 500 that mainImpl passes. -/
theorem createTestResultsRequests_partition_witness :
    ∃ requests, createTestResultsRequests [1, 2, 3] 500 = some requests ∧
      (∀ r ∈ requests, (r.length : Int) ≤ 500) ∧
      requests.flatten = [1, 2, 3] :=
  (createTestResultsRequests_partition [1, 2, 3] 500 (by decide) (by decide)).1 (by decide)

/-- C16, counterexample: with one result and the chunkSize 2^62, which is above 0,
createTestResultsRequests returns no request at all (ceil(1 / 2^62) is 1): it panics in
`make([]*sinkpb.TestResult, 0, chunkSize)`. -/
theorem createTestResultsRequests_count_large_chunkSize :
    ([7] : List Nat) ≠ [] ∧ (0 : Int) < 4611686018427387904 ∧
    createTestResultsRequests [7] 4611686018427387904 = none := by
  refine ⟨by decide, by decide, ?_⟩
  exact createTestResultsRequests_none [7] 4611686018427387904 (by decide) (by decide)

/-- C16, amended.  For every non-empty list of n test results (a slice of pointers, so
8 * n is at most `maxAlloc`) and every chunkSize above 0 that make accepts as the
capacity of a slice of pointers (8 * chunkSize is at most `maxAlloc`, so chunkSize is at
most 2^45), createTestResultsRequests returns exactly ceil(n / chunkSize) requests,
written `(n + chunkSize - 1) / chunkSize`; every request but the last holds exactly
chunkSize results, and the last one holds at least 1 and at most chunkSize results. -/
theorem createTestResultsRequests_count {α : Type} (results : List α) (chunkSize : Int)
    (hne : results ≠ []) (h : 0 < chunkSize) (hcap : 8 * chunkSize ≤ maxAlloc)
    (hlen : 8 * (results.length : Int) ≤ maxAlloc) :
    ∃ requests, createTestResultsRequests results chunkSize = some requests ∧
      (requests.length : Int) = ((results.length : Int) + chunkSize - 1) / chunkSize ∧
      (∀ j, j + 1 < requests.length → ((requests.getD j []).length : Int) = chunkSize) ∧
      1 ≤ (requests.getD (requests.length - 1) []).length ∧
      ((requests.getD (requests.length - 1) []).length : Int) ≤ chunkSize := by
  obtain ⟨out, h1, h2, h3, -⟩ := createTestResultsRequests_spec results chunkSize h hcap hlen
  clear hcap hlen
  obtain ⟨c, rfl⟩ : ∃ c : Nat, chunkSize = (c : Int) := ⟨chunkSize.toNat, by omega⟩
  have hc : 0 < c := by omega
  have hn : 0 < results.length := List.length_pos.2 hne
  have hlen := h2 hne
  simp only [Int.toNat_ofNat] at hlen h3
  have hq1 : (results.length - 1) / c * c ≤ results.length - 1 := Nat.div_mul_le_self _ _
  have hq2 : results.length - 1 < (results.length - 1) / c * c + c := by
    have h5 := (Nat.div_lt_iff_lt_mul hc).1 (Nat.lt_succ_self ((results.length - 1) / c))
    simpa [Nat.succ_mul] using h5
  refine ⟨out, h1, ?_, ?_, ?_, ?_⟩
  · have hN : (results.length + c - 1) / c = (results.length - 1) / c + 1 := by
      rw [show results.length + c - 1 = (results.length - 1) + c by omega,
        Nat.add_div_right _ hc]
    rw [hlen, ← hN, show ((results.length : Int) + (c : Int) - 1)
      = ((results.length + c - 1 : Nat) : Int) by omega]
    exact Int.ofNat_ediv _ _
  · intro j hj
    have hj' : j + 1 ≤ (results.length - 1) / c := by omega
    have h4 : (j + 1) * c ≤ (results.length - 1) / c * c := Nat.mul_le_mul_right c hj'
    rw [Nat.succ_mul] at h4
    have := h3 j
    omega
  · have := h3 (out.length - 1)
    rw [hlen] at this ⊢
    simp only [Nat.add_sub_cancel] at this ⊢
    omega
  · have := h3 (out.length - 1)
    rw [hlen] at this ⊢
    simp only [Nat.add_sub_cancel] at this ⊢
    omega

/-- Witness of C16: five results in chunks of two make three requests. -/
theorem createTestResultsRequests_count_witness :
    ∃ requests, createTestResultsRequests [1, 2, 3, 4, 5] 2 = some requests ∧
      (requests.length : Int) = ((([1, 2, 3, 4, 5] : List Nat).length : Int) + 2 - 1) / 2 ∧
      (∀ j, j + 1 < requests.length → ((requests.getD j []).length : Int) = 2) ∧
      1 ≤ (requests.getD (requests.length - 1) []).length ∧
      ((requests.getD (requests.length - 1) []).length : Int) ≤ 2 :=
  createTestResultsRequests_count [1, 2, 3, 4, 5] 2 (by simp) (by decide) (by decide)
    (by decide)

/-- C17. For all six statuses of the test and of the test case, determineExpected is
true if and only if the status of the test is PASS or SKIP or the status of the case is
PASS or SKIP.  So every case of a passed test is expected, and a case of a failed,
crashed, aborted or unspecified test is expected exactly when the case itself passed or
was skipped. -/
theorem determineExpected_iff (testStatus testCaseStatus : TestStatus) :
    (determineExpected testStatus testCaseStatus = true ↔
      (testStatus = TestStatus.PASS ∨ testStatus = TestStatus.SKIP) ∨
      (testCaseStatus = TestStatus.PASS ∨ testCaseStatus = TestStatus.SKIP)) ∧
    determineExpected TestStatus.PASS testCaseStatus = true ∧
    (determineExpected TestStatus.FAIL testCaseStatus = true ↔
      testCaseStatus = TestStatus.PASS ∨ testCaseStatus = TestStatus.SKIP) ∧
    (determineExpected TestStatus.CRASH testCaseStatus = true ↔
      testCaseStatus = TestStatus.PASS ∨ testCaseStatus = TestStatus.SKIP) ∧
    (determineExpected TestStatus.ABORT testCaseStatus = true ↔
      testCaseStatus = TestStatus.PASS ∨ testCaseStatus = TestStatus.SKIP) ∧
    (determineExpected TestStatus.STATUS_UNSPECIFIED testCaseStatus = true ↔
      testCaseStatus = TestStatus.PASS ∨ testCaseStatus = TestStatus.SKIP) := by
  cases testStatus <;> cases testCaseStatus <;> simp [determineExpected]

/-- C18. testDetailsToResultSink returns `(nil, error)` if and only if the result of the
test is neither TestSuccess nor TestFailure.  Otherwise it returns, without error, a
result whose TestId is the name of the test, whose Status is PASS for TestSuccess and
FAIL for TestFailure, whose Expected flag is true exactly when the status is PASS, and
whose tags are gn_label and test_case_count, the latter with the decimal number of
cases. -/
theorem testDetailsToResultSink_spec (sys : System) (testDetail : TestDetails)
    (outputRoot : String) :
    (testDetail.Result ≠ TestResult.TestSuccess ∧ testDetail.Result ≠ TestResult.TestFailure ∧
      ∃ err, testDetailsToResultSink sys testDetail outputRoot = (none, some err)) ∨
    (∃ r, testDetailsToResultSink sys testDetail outputRoot = (some r, none) ∧
      ((testDetail.Result = TestResult.TestSuccess ∧ r.Status = TestStatus.PASS) ∨
       (testDetail.Result = TestResult.TestFailure ∧ r.Status = TestStatus.FAIL)) ∧
      r.TestId = testDetail.Name ∧
      (r.Expected = true ↔ r.Status = TestStatus.PASS) ∧
      r.Tags = [⟨"gn_label", testDetail.GNLabel⟩,
                ⟨"test_case_count", toString testDetail.Cases.length⟩]) := by
  cases h : testDetail.Result with
  | other s =>
    left
    simp [testDetailsToResultSink, testDetailResultToResultDBStatus, h]
  | TestSuccess =>
    right
    cases ht : sys.TimestampProto testDetail.StartTime <;>
      by_cases hd : testDetail.DurationMillis > 0 <;>
      cases hr : sys.isReadable (sys.Join outputRoot testDetail.OutputFile) <;>
      simp [testDetailsToResultSink, testDetailResultToResultDBStatus, h, ht, hd, hr,
        determineExpected]
  | TestFailure =>
    right
    cases ht : sys.TimestampProto testDetail.StartTime <;>
      by_cases hd : testDetail.DurationMillis > 0 <;>
      cases hr : sys.isReadable (sys.Join outputRoot testDetail.OutputFile) <;>
      simp [testDetailsToResultSink, testDetailResultToResultDBStatus, h, ht, hd, hr,
        determineExpected]

/-- The Duration of the result of testDetailsToResultSink: the milliseconds times
1000000 as an `int64` holds the product, set when the milliseconds are above 0. -/
theorem testDetailsToResultSink_duration (sys : System) (testDetail : TestDetails)
    (outputRoot : String) (r : SinkTestResult)
    (h : testDetailsToResultSink sys testDetail outputRoot = (some r, none)) :
    r.Duration = if testDetail.DurationMillis > 0 then
      some (wrapInt64 (testDetail.DurationMillis * 1000000)) else none := by
  cases hres : testDetail.Result with
  | other s =>
    simp [testDetailsToResultSink, testDetailResultToResultDBStatus, hres] at h
  | TestSuccess =>
    cases ht : sys.TimestampProto testDetail.StartTime <;>
      by_cases hd : testDetail.DurationMillis > 0 <;>
      cases hr : sys.isReadable (sys.Join outputRoot testDetail.OutputFile) <;>
      simp [testDetailsToResultSink, testDetailResultToResultDBStatus, hres, ht, hd, hr] at h <;>
      subst h <;> simp [hd]
  | TestFailure =>
    cases ht : sys.TimestampProto testDetail.StartTime <;>
      by_cases hd : testDetail.DurationMillis > 0 <;>
      cases hr : sys.isReadable (sys.Join outputRoot testDetail.OutputFile) <;>
      simp [testDetailsToResultSink, testDetailResultToResultDBStatus, hres, ht, hd, hr] at h <;>
      subst h <;> simp [hd]

/-- A test of 9223372036855 milliseconds: the product with 1000000 does not fit an
`int64` and the Duration is negative, as in the code. -/
theorem testDetailsToResultSink_duration_wraps :
    (testDetailsToResultSink exampleSystem
        { exampleTest with DurationMillis := 9223372036855 } "out").1.map (fun r => r.Duration)
      = some (some (-9223372036854551616)) := by
  rfl

theorem testCase_foldl (sys : System) (testDetail : TestDetails) (testStatus : TestStatus)
    (testCases : List TestCaseResult) :
    ∀ acc : List SinkTestResult,
      (testCases.foldl (testCaseStep sys testDetail testStatus) acc).map
          (fun r => (r.TestId, r.Status))
        = acc.map (fun r => (r.TestId, r.Status))
          ++ testCases.filterMap (convertedCase testDetail) := by
  induction testCases with
  | nil => intro acc; simp
  | cons c cs ih =>
    intro acc
    rw [List.foldl_cons, ih]
    cases hs : c.Status <;>
      cases ht : sys.TimestampProto testDetail.StartTime <;>
      by_cases hd : c.Duration > 0 <;>
      simp [testCaseStep, testCaseStatusToResultDBStatus, convertedCase, hs, ht, hd]

/-- C19. For every list of test cases and every test, whatever the result of the test
itself, testCaseToResultSink returns one result for exactly the cases whose status is
Pass, Fail or Skip, in the order of the input, each with the TestId
`<test name>/<suite name>:<case name>` and the Status PASS, FAIL or SKIP respectively;
cases with another status are dropped and nothing else is. -/
theorem testCaseToResultSink_spec (sys : System) (testCases : List TestCaseResult)
    (testDetail : TestDetails) :
    (testCaseToResultSink sys testCases testDetail).map (fun r => (r.TestId, r.Status))
      = testCases.filterMap (convertedCase testDetail) ∧
    (testCaseToResultSink sys testCases testDetail).length
      = (testCases.filter fun c =>
          c.Status = TestCaseStatus.Pass ∨ c.Status = TestCaseStatus.Fail ∨
          c.Status = TestCaseStatus.Skip).length := by
  have h := testCase_foldl sys testDetail (testDetailResultToResultDBStatus testDetail.Result).1
    testCases []
  simp only [List.map_nil, List.nil_append] at h
  refine ⟨h, ?_⟩
  have hl := congrArg List.length h
  rw [List.length_map] at hl
  rw [testCaseToResultSink, hl]
  clear h hl
  induction testCases with
  | nil => rfl
  | cons c cs ih =>
    cases hs : c.Status <;> simp [List.filterMap_cons, List.filter_cons, convertedCase, hs, ih]

end Resultdb

namespace Gidl

/-! ## goErrorCode (common.go) -/

/-- C12, counterexample: the two different error codes StrictUnionFieldNotSet and
StrictUnionUnknownField are both accepted by goErrorCode (nil error) and both give the
string "fidl.ErrInvalidXUnionTag", so the mapping is not injective. -/
theorem goErrorCode_union_codes_share_name :
    ErrorCode.StrictUnionFieldNotSet ≠ ErrorCode.StrictUnionUnknownField ∧
    goErrorCode ErrorCode.StrictUnionFieldNotSet = ("fidl.ErrInvalidXUnionTag", none) ∧
    goErrorCode ErrorCode.StrictUnionUnknownField = ("fidl.ErrInvalidXUnionTag", none) ∧
    ¬ (∀ a b : ErrorCode, a ≠ b → (goErrorCode a).2 = none → (goErrorCode b).2 = none →
        (goErrorCode a).1 ≠ (goErrorCode b).1) := by
  refine ⟨by decide, rfl, rfl, fun h => ?_⟩
  exact h ErrorCode.StrictUnionFieldNotSet ErrorCode.StrictUnionUnknownField (by decide) rfl rfl rfl

/-- C12, amended: two different error codes that goErrorCode accepts (nil error) get
the same string exactly when they are the pair StrictUnionFieldNotSet and
StrictUnionUnknownField, in either order; every other pair of different accepted codes
gets different strings. -/
theorem goErrorCode_distinct_except_union_tag (a b : ErrorCode) (hab : a ≠ b)
    (ha : (goErrorCode a).2 = none) (hb : (goErrorCode b).2 = none) :
    ((goErrorCode a).1 = (goErrorCode b).1 ↔
      (a = ErrorCode.StrictUnionFieldNotSet ∧ b = ErrorCode.StrictUnionUnknownField) ∨
      (a = ErrorCode.StrictUnionUnknownField ∧ b = ErrorCode.StrictUnionFieldNotSet)) := by
  cases a <;> cases b <;>
    simp [goErrorCode, goErrorCodeNames] at ha hb hab ⊢

/-- C12, witness: the amended statement at the codes StringTooLong and ExtraHandles,
whose strings differ. -/
theorem goErrorCode_distinct_except_union_tag_witness :
    ErrorCode.StringTooLong ≠ ErrorCode.ExtraHandles ∧
    (goErrorCode ErrorCode.StringTooLong).2 = none ∧
    (goErrorCode ErrorCode.ExtraHandles).2 = none ∧
    ((goErrorCode ErrorCode.StringTooLong).1 = (goErrorCode ErrorCode.ExtraHandles).1 ↔
      (ErrorCode.StringTooLong = ErrorCode.StrictUnionFieldNotSet ∧
        ErrorCode.ExtraHandles = ErrorCode.StrictUnionUnknownField) ∨
      (ErrorCode.StringTooLong = ErrorCode.StrictUnionUnknownField ∧
        ErrorCode.ExtraHandles = ErrorCode.StrictUnionFieldNotSet)) :=
  ⟨by decide, rfl, rfl,
    goErrorCode_distinct_except_union_tag ErrorCode.StringTooLong ErrorCode.ExtraHandles
      (by decide) rfl rfl⟩

/-- C13: goErrorCode returns a nil error exactly for the fourteen codes listed in
goErrorCodeNames; for such a code the result is "fidl." followed by the listed name (the
fourteen results are given in full); for every other code the string is empty and the
error is non-nil, with the message of line 315; and StrictUnionUnknownField gives
"fidl.ErrInvalidXUnionTag". -/
theorem goErrorCode_spec (code : ErrorCode) :
    ((goErrorCode code).2 = none ↔
      code ∈ [ErrorCode.StringTooLong, ErrorCode.StringNotUtf8,
        ErrorCode.NonEmptyStringWithNullBody, ErrorCode.StrictUnionFieldNotSet,
        ErrorCode.StrictUnionUnknownField, ErrorCode.InvalidPaddingByte,
        ErrorCode.StrictEnumUnknownValue, ErrorCode.StrictBitsUnknownBit,
        ErrorCode.ExceededMaxOutOfLineDepth, ErrorCode.InvalidNumBytesInEnvelope,
        ErrorCode.InvalidNumHandlesInEnvelope, ErrorCode.ExtraHandles,
        ErrorCode.TooFewHandles, ErrorCode.NonResourceUnknownHandles]) ∧
    ((goErrorCode code).2 = none →
      ∃ name, goErrorCodeNames code = some name ∧ goErrorCode code = ("fidl." ++ name, none)) ∧
    ((goErrorCode code).2 ≠ none →
      goErrorCodeNames code = none ∧
      goErrorCode code
        = ("", some ("no go error string defined for error code " ++ code.text))) ∧
    [ErrorCode.StringTooLong, ErrorCode.StringNotUtf8,
        ErrorCode.NonEmptyStringWithNullBody, ErrorCode.StrictUnionFieldNotSet,
        ErrorCode.StrictUnionUnknownField, ErrorCode.InvalidPaddingByte,
        ErrorCode.StrictEnumUnknownValue, ErrorCode.StrictBitsUnknownBit,
        ErrorCode.ExceededMaxOutOfLineDepth, ErrorCode.InvalidNumBytesInEnvelope,
        ErrorCode.InvalidNumHandlesInEnvelope, ErrorCode.ExtraHandles,
        ErrorCode.TooFewHandles, ErrorCode.NonResourceUnknownHandles].map goErrorCode
      = [("fidl.ErrStringTooLong", none), ("fidl.ErrStringNotUTF8", none),
        ("fidl.ErrUnexpectedNullRef", none), ("fidl.ErrInvalidXUnionTag", none),
        ("fidl.ErrInvalidXUnionTag", none), ("fidl.ErrNonZeroPadding", none),
        ("fidl.ErrInvalidEnumValue", none), ("fidl.ErrInvalidBitsValue", none),
        ("fidl.ErrExceededMaxOutOfLineDepth", none),
        ("fidl.ErrInvalidNumBytesInEnvelope", none),
        ("fidl.ErrInvalidNumHandlesInEnvelope", none), ("fidl.ErrTooManyHandles", none),
        ("fidl.ErrNotEnoughHandles", none), ("fidl.ErrValueTypeHandles", none)] ∧
    goErrorCode ErrorCode.StrictUnionUnknownField = ("fidl.ErrInvalidXUnionTag", none) := by
  refine ⟨?_, ?_, ?_, rfl, rfl⟩
  · cases code <;> simp [goErrorCode, goErrorCodeNames]
  · cases code <;> simp [goErrorCode, goErrorCodeNames]
  · cases code <;> simp [goErrorCode, goErrorCodeNames, ErrorCode.text]

/-! ## onRecord and unknown data (common.go) -/

theorem join_cons (a : String) (l : List String) :
    String.join (a :: l) = a ++ String.join l := by
  apply String.ext
  simp [String.data_join]

theorem foldl_append_join {β : Type} (g : β → String) (l : List β) (init : String) :
    l.foldl (fun acc x => acc ++ g x) init = init ++ String.join (l.map g) := by
  induction l generalizing init with
  | nil => simp [String.join]
  | cons x xs ih => simp [ih, join_cons, String.append_assoc]

theorem buildBytes_eq (bytes : List UInt8) :
    buildBytes bytes = "[]byte\x7b\n"
      ++ String.join (bytes.enum.map fun ib =>
          sprintfByte ib.2 ++ (if ib.1 % 8 = 7 then "\n" else ""))
      ++ "\x7d" := by
  unfold buildBytes
  simp only []
  rw [← foldl_append_join]
  congr 2
  funext builder ib
  split <;> simp [String.append_assoc]

theorem buildHandleInfos_eq (handles : List Int) :
    buildHandleInfos handles =
      if handles = [] then "nil"
      else "[]zx.HandleInfo\x7b\n"
        ++ String.join (handles.map fun handle =>
            "\x7bHandle: handles[" ++ toString handle ++ "], Type: handleTypes["
              ++ toString handle ++ "]\x7d,\n")
        ++ "\x7d" := by
  unfold buildHandleInfos
  simp only [List.length_eq_zero, foldl_append_join]

theorem buildUnknownDataMap_eq {α : Type} (ud : Field α → UnknownData)
    (fields : List (Field α)) (hne : fields ≠ [])
    (hu : ∀ f ∈ fields, f.Value = Value.unknownData (ud f)) :
    buildUnknownDataMap fields = some ("map[uint64]fidl.UnknownData\x7b\n"
      ++ String.join (fields.map fun f =>
          toString f.Key.UnknownOrdinal ++ ": " ++ buildUnknownData (ud f) ++ ",")
      ++ "\x7d") := by
  have key : ∀ (l : List (Field α)) (init : String),
      (∀ f ∈ l, f.Value = Value.unknownData (ud f)) →
      l.foldl (fun (builder : Option String) (field : Field α) =>
        match builder, field.Value with
        | some builder, .unknownData data =>
          some (builder ++ (toString field.Key.UnknownOrdinal ++ ": "
            ++ buildUnknownData data ++ ","))
        | _, _ => none) (some init)
      = some (init ++ String.join (l.map fun f =>
          toString f.Key.UnknownOrdinal ++ ": " ++ buildUnknownData (ud f) ++ ",")) := by
    intro l
    induction l with
    | nil => intro init _; simp [String.join]
    | cons x xs ih =>
      intro init h
      have hx := h x (List.mem_cons_self _ _)
      simp only [List.foldl_cons, hx]
      rw [ih _ (fun f hf => h f (List.mem_cons_of_mem _ hf))]
      simp [join_cons, String.append_assoc]
  unfold buildUnknownDataMap
  simp only [List.length_eq_zero, hne, if_false]
  rw [key _ _ hu]
  rfl

/-- The loop of onRecord on a table: the known fields are rendered in order, the unknown
ones collected in order. -/
theorem onRecordLoop_table {α D : Type} (fidl : CaseConversions)
    (visit : Value α → D → Option String) (decl : RecordDeclaration D)
    (fd : Field α → D) (vs : Field α → String) (l : List (Field α))
    (hk : ∀ f ∈ l, f.Key.IsUnknown = false →
      decl.Field f.Key.Name = some (fd f) ∧ visit f.Value (fd f) = some (vs f))
    (fields : List String) (unknownTableFields : List (Field α)) :
    onRecordLoop fidl visit decl true l (fields, unknownTableFields)
      = some (fields ++ (l.filter fun f => !f.Key.IsUnknown).flatMap (fun f =>
            [fidl.ToUpperCamelCase f.Key.Name ++ ": " ++ vs f]
              ++ (if f.Value.isNil then []
                  else [fidl.ToUpperCamelCase f.Key.Name ++ "Present: true"])),
          unknownTableFields ++ l.filter fun f => f.Key.IsUnknown) := by
  induction l generalizing fields unknownTableFields with
  | nil => simp [onRecordLoop]
  | cons x xs ih =>
    have ihx := fun fs us => ih (fun f hf => hk f (List.mem_cons_of_mem _ hf)) fs us
    cases hx : x.Key.IsUnknown with
    | true => simp [onRecordLoop, hx, ihx]
    | false =>
      obtain ⟨h1, h2⟩ := hk x (List.mem_cons_self _ _) hx
      cases hn : x.Value.isNil <;> simp [onRecordLoop, hx, h1, h2, hn, ihx]

/-- The loop of onRecord on a record that is not a table: every field is rendered in
order, an unknown one as its unknown data. -/
theorem onRecordLoop_not_table {α D : Type} (fidl : CaseConversions)
    (visit : Value α → D → Option String) (decl : RecordDeclaration D)
    (fd : Field α → D) (vs : Field α → String) (ud : Field α → UnknownData)
    (l : List (Field α))
    (hk : ∀ f ∈ l, f.Key.IsUnknown = false →
      decl.Field f.Key.Name = some (fd f) ∧ visit f.Value (fd f) = some (vs f))
    (hu : ∀ f ∈ l, f.Key.IsUnknown = true → f.Value = Value.unknownData (ud f))
    (fields : List String) (unknownTableFields : List (Field α)) :
    onRecordLoop fidl visit decl false l (fields, unknownTableFields)
      = some (fields ++ l.map (fun f =>
            if f.Key.IsUnknown then "I_unknownData: " ++ buildUnknownData (ud f)
            else fidl.ToUpperCamelCase f.Key.Name ++ ": " ++ vs f),
          unknownTableFields) := by
  induction l generalizing fields unknownTableFields with
  | nil => simp [onRecordLoop]
  | cons x xs ih =>
    have ihx := fun fs us => ih (fun f hf => hk f (List.mem_cons_of_mem _ hf))
      (fun f hf => hu f (List.mem_cons_of_mem _ hf)) fs us
    cases hx : x.Key.IsUnknown with
    | true =>
      have h1 := hu x (List.mem_cons_self _ _) hx
      simp [onRecordLoop, hx, h1, ihx]
    | false =>
      obtain ⟨h1, h2⟩ := hk x (List.mem_cons_self _ _) hx
      simp [onRecordLoop, hx, h1, h2, ihx]

/-- C14: let no step of onRecord panic, that is, every known field of the record has a
declaration (fd) on which visit returns (vs), and every unknown field carries unknown
data (ud).  Then (1) the output is the type literal followed by the slice `fields`
joined by ",\n" in braces; (2) for a union whose first field is unknown, `fields`
starts with the tag field, whose value is the ordinal in decimal, followed by the field
"I_unknownData: " with buildUnknownData of the data of that field, followed by one
field for each further field of the record; (3) buildUnknownData prints one entry for
each byte of Bytes in order and one entry for each handle of Handles in order ("nil"
when there is no handle); (4) for a table, `fields` is the known fields in order (each
with its Present field when the value is not nil), followed, when there is an unknown
field, by a single field "I_unknownData: " whose map has exactly one entry for each
unknown field in order, keyed by the ordinal in decimal. -/
theorem onRecord_retains_unknown_data {α D : Type} (fidl : CaseConversions)
    (visit : Value α → D → Option String) (value : Record α) (decl : RecordDeclaration D)
    (fd : Field α → D) (vs : Field α → String) (ud : Field α → UnknownData)
    (hk : ∀ f ∈ value.Fields, f.Key.IsUnknown = false →
      decl.Field f.Key.Name = some (fd f) ∧ visit f.Value (fd f) = some (vs f))
    (hu : ∀ f ∈ value.Fields, f.Key.IsUnknown = true →
      f.Value = Value.unknownData (ud f)) :
    (onRecord fidl visit value decl
      = (onRecordFields fidl visit value decl).map fun fields =>
          if fields = [] then typeLiteral fidl decl ++ "\x7b\x7d"
          else typeLiteral fidl decl ++ "\x7b\n" ++ ",\n".intercalate fields ++ ",\n\x7d") ∧
    (decl.kind = RecordKind.UnionDecl → ∀ field rest, value.Fields = field :: rest →
      field.Key.IsUnknown = true →
      onRecordFields fidl visit value decl = some (
        ["I_" ++ fidl.ToLowerCamelCase ((decl.Name.splitOn "/").getLastD "") ++ "Tag: "
            ++ toString field.Key.UnknownOrdinal,
          "I_unknownData: " ++ buildUnknownData (ud field)]
        ++ rest.map (fun f =>
            if f.Key.IsUnknown then "I_unknownData: " ++ buildUnknownData (ud f)
            else fidl.ToUpperCamelCase f.Key.Name ++ ": " ++ vs f))) ∧
    (∀ data : UnknownData, buildUnknownData data
      = "fidl.UnknownData\x7b\nBytes: "
        ++ ("[]byte\x7b\n"
            ++ String.join (data.Bytes.enum.map fun ib =>
                sprintfByte ib.2 ++ (if ib.1 % 8 = 7 then "\n" else ""))
            ++ "\x7d")
        ++ ", \nHandles: "
        ++ (if data.Handles = [] then "nil"
            else "[]zx.HandleInfo\x7b\n"
              ++ String.join (data.Handles.map fun handle =>
                  "\x7bHandle: handles[" ++ toString handle ++ "], Type: handleTypes["
                    ++ toString handle ++ "]\x7d,\n")
              ++ "\x7d")
        ++ ",\n\x7d") ∧
    (decl.kind = RecordKind.TableDecl →
      onRecordFields fidl visit value decl = some (
        (value.Fields.filter fun f => !f.Key.IsUnknown).flatMap (fun f =>
            [fidl.ToUpperCamelCase f.Key.Name ++ ": " ++ vs f]
              ++ (if f.Value.isNil then []
                  else [fidl.ToUpperCamelCase f.Key.Name ++ "Present: true"]))
        ++ (if (value.Fields.filter fun f => f.Key.IsUnknown).isEmpty then []
            else ["I_unknownData: " ++ ("map[uint64]fidl.UnknownData\x7b\n"
              ++ String.join ((value.Fields.filter fun f => f.Key.IsUnknown).map fun f =>
                  toString f.Key.UnknownOrdinal ++ ": " ++ buildUnknownData (ud f) ++ ",")
              ++ "\x7d")]))) := by
  refine ⟨?_, ?_, ?_, ?_⟩
  · simp only [onRecord, List.length_eq_zero]
  · intro hkind field rest hf hunk
    have h := onRecordLoop_not_table fidl visit decl fd vs ud value.Fields hk hu
    have hfield := hu field (by rw [hf]; exact List.mem_cons_self _ _) hunk
    rw [hf] at h
    simp only [onRecordFields, hkind, hf, hunk, if_true]
    have hdec : decide (RecordKind.UnionDecl = RecordKind.TableDecl) = false := by decide
    rw [hdec, h]
    simp [hunk]
  · intro data
    rw [buildUnknownData, buildBytes_eq, buildHandleInfos_eq]
  · intro hkind
    have h := onRecordLoop_table fidl visit decl fd vs value.Fields hk [] []
    simp only [onRecordFields, hkind, decide_True, h, List.nil_append]
    by_cases hnil : (value.Fields.filter fun f => f.Key.IsUnknown) = []
    · simp [hnil]
    · have hmap := buildUnknownDataMap_eq ud (value.Fields.filter fun f => f.Key.IsUnknown)
        hnil (fun f hf => hu f (List.mem_filter.1 hf).1 (by simpa using (List.mem_filter.1 hf).2))
      have hpos : (value.Fields.filter fun f => f.Key.IsUnknown).length > 0 :=
        List.length_pos.2 hnil
      have hemp : (value.Fields.filter fun f => f.Key.IsUnknown).isEmpty = false := by
        simpa using hnil
      simp only [hpos, if_true, hmap, hemp, Option.map_some']
      simp

/-- C14, witness: the example table record (unknown ordinal 7, known field A, unknown
ordinal 9) satisfies
the hypotheses, and onRecord builds the fields below. -/
theorem onRecord_retains_unknown_data_witness :
    (∀ f ∈ exampleTableRecord.Fields, f.Key.IsUnknown = false →
      exampleTableDecl.Field f.Key.Name = some () ∧
      exampleVisit f.Value () = some (match f.Value with | .other v => toString v | _ => "nil")) ∧
    (∀ f ∈ exampleTableRecord.Fields, f.Key.IsUnknown = true →
      f.Value = Value.unknownData (match f.Value with | .unknownData d => d | _ => ⟨[], []⟩)) ∧
    onRecordFields exampleConversions exampleVisit exampleTableRecord exampleTableDecl
      = some ["A: 5", "APresent: true",
          "I_unknownData: map[uint64]fidl.UnknownData\x7b\n7: fidl.UnknownData\x7b\nBytes: []byte\x7b\n0x01,0xff,\x7d, \nHandles: []zx.HandleInfo\x7b\n\x7bHandle: handles[3], Type: handleTypes[3]\x7d,\n\x7d,\n\x7d,9: fidl.UnknownData\x7b\nBytes: []byte\x7b\n\x7d, \nHandles: nil,\n\x7d,\x7d"] := by
  have h1 : ∀ f ∈ exampleTableRecord.Fields, f.Key.IsUnknown = false →
      exampleTableDecl.Field f.Key.Name = some () ∧
      exampleVisit f.Value () = some (match f.Value with | .other v => toString v | _ => "nil") := by
    simp [exampleTableRecord, exampleTableDecl, exampleVisit]
  have h2 : ∀ f ∈ exampleTableRecord.Fields, f.Key.IsUnknown = true →
      f.Value = Value.unknownData (match f.Value with | .unknownData d => d | _ => ⟨[], []⟩) := by
    simp [exampleTableRecord]
  have h := onRecord_retains_unknown_data exampleConversions exampleVisit exampleTableRecord
    exampleTableDecl (fun _ => ()) _ _ h1 h2
  refine ⟨h1, h2, ?_⟩
  exact (h.2.2.2 rfl).trans rfl

end Gidl


namespace Llcpp

/-! ## Transaction header initialisation -/

theorem infix_flatMap_of_mem {α β : Type} (f : α → List β) (l : List α) (a : α) (h : a ∈ l) :
    f a <:+: l.flatMap f := by
  obtain ⟨s, t, rfl⟩ := List.append_of_mem h
  refine ⟨s.flatMap f, t.flatMap f, ?_⟩
  simp [List.flatMap_append]

theorem mem_init_header_definitions (m : Method) :
    (Frag.text "Response::_InitHeader() \x7b\n" ∈ MethodDefinitions m ↔ m.HasResponse = true) ∧
    (Frag.text "Request::_InitHeader(zx_txid_t _txid) \x7b\n" ∈ MethodDefinitions m
      ↔ m.HasRequest = true) := by
  cases h : m.HasRequest <;> cases hr : m.RequestIsResource <;>
    cases h' : m.HasResponse <;> cases hr' : m.ResponseIsResource <;>
    simp [MethodDefinitions, h, hr, h', hr', List.mem_flatMap]

theorem count_init_header_definitions (m : Method) :
    (MethodDefinitions m).count (Frag.text "      fidl_init_txn_header(&_hdr, 0, ")
      = (if m.HasResponse = true then 1 else 0) ∧
    (MethodDefinitions m).count (Frag.text "      fidl_init_txn_header(&_hdr, _txid, ")
      = (if m.HasRequest = true then 1 else 0) := by
  have key : ∀ (l : List Parameter) (s : String),
      (l.flatMap fun x =>
        [Frag.func "CloseHandles" [Dot.param x, Dot.bool false, Dot.bool false]]).count
          (Frag.text s) = 0 := by
    intro l s
    apply List.count_eq_zero.2
    simp [List.mem_flatMap]
  cases h : m.HasRequest <;> cases hr : m.RequestIsResource <;>
    cases h' : m.HasResponse <;> cases hr' : m.ResponseIsResource <;>
    · simp only [MethodDefinitions, h, hr, h', hr', if_true, if_false, Bool.false_eq_true,
        List.count_append, List.count_cons, beq_iff_eq, Frag.text.injEq, reduceCtorEq,
        List.count_nil, String.reduceEq, key]
      simp

theorem method_definitions_part (p : Protocol) (m : Method) (h : m ∈ p.Methods) :
    MethodDefinitions m <:+: ProtocolDefinition p := by
  have hne : p.Methods ≠ [] := List.ne_nil_of_mem h
  rw [ProtocolDefinition]
  refine List.IsInfix.trans ?_ (List.suffix_append _ _).isInfix
  simp only [hne, ne_eq, not_false_eq_true, if_true]
  refine List.IsInfix.trans ?_ (List.suffix_append _ _).isInfix
  refine List.IsInfix.trans ?_
    (infix_flatMap_of_mem (fun m => [Frag.text "\n"] ++ MethodDefinitions m) p.Methods m h)
  exact (List.suffix_append _ _).isInfix

/-- C20: the out-of-line definitions that ProtocolDefinition emits for each of its
methods hold the definition of `<Name>Response::_InitHeader()`, whose body is the call
`fidl_init_txn_header(&_hdr, 0, <OrdinalName>)`, exactly when the method has a response
(an event is such a method), and the definition of
`<Name>Request::_InitHeader(zx_txid_t _txid)`, whose body is the call
`fidl_init_txn_header(&_hdr, _txid, <OrdinalName>)` with the same ordinal constant,
exactly when the method has a request; each call is emitted once and no other.  The
constructors of the Response struct (the default one, and the one taking the parameters
when there are parameters) have the body `_InitHeader();`, and the constructors of the
Request struct, which take the caller's `_txid`, have the body `_InitHeader(_txid);`. -/
theorem init_header_txid_and_ordinal (p : Protocol) (m : Method) :
    (m ∈ p.Methods → MethodDefinitions m <:+: ProtocolDefinition p) ∧
    ([Frag.text "    void ", .val m.LLProps.ProtocolName.Str, .text "::", .val m.Name,
        .text "Response::_InitHeader() \x7b\n",
        .text "      fidl_init_txn_header(&_hdr, 0, ", .val m.OrdinalName, .text ");\n",
        .text "    \x7d"] <:+: MethodDefinitions m ↔ m.HasResponse = true) ∧
    ([Frag.text "    void ", .val m.LLProps.ProtocolName.Str, .text "::", .val m.Name,
        .text "Request::_InitHeader(zx_txid_t _txid) \x7b\n",
        .text "      fidl_init_txn_header(&_hdr, _txid, ", .val m.OrdinalName, .text ");\n",
        .text "    \x7d"] <:+: MethodDefinitions m ↔ m.HasRequest = true) ∧
    (MethodDefinitions m).count (Frag.text "      fidl_init_txn_header(&_hdr, 0, ")
      = (if m.HasResponse = true then 1 else 0) ∧
    (MethodDefinitions m).count (Frag.text "      fidl_init_txn_header(&_hdr, _txid, ")
      = (if m.HasRequest = true then 1 else 0) ∧
    ([Frag.text "    ", .val m.Name, .text "Response() \x7b\n",
        .text "      _InitHeader();\n", .text "    \x7d\n"] <:+: ResponseMessage m
      ↔ m.HasResponse = true) ∧
    (m.HasResponse = true → m.Response ≠ [] →
      [Frag.text "    explicit ", .val m.Name, .text "Response(",
        .func "MessagePrototype" [.params m.Response], .text ")\n", .text "    ",
        .func "InitMessage" [.params m.Response], .text " \x7b\n",
        .text "      _InitHeader();\n", .text "    \x7d"] <:+: ResponseMessage m) ∧
    ([Frag.text "    explicit ", .val m.Name, .text "Request(zx_txid_t _txid) \x7b\n",
        .text "      _InitHeader(_txid);\n", .text "    \x7d\n"] <:+: RequestMessage m
      ↔ m.HasRequest = true) ∧
    (m.HasRequest = true → m.Request ≠ [] →
      [Frag.text "    explicit ", .val m.Name, .text "Request(zx_txid_t _txid",
        .func "CommaMessagePrototype" [.params m.Request], .text ")\n", .text "    ",
        .func "InitMessage" [.params m.Request], .text " \x7b\n",
        .text "      _InitHeader(_txid);\n", .text "    \x7d"] <:+: RequestMessage m) := by
  refine ⟨method_definitions_part p m, ⟨fun h => ?_, fun h => ?_⟩, ⟨fun h => ?_, fun h => ?_⟩,
    (count_init_header_definitions m).1, (count_init_header_definitions m).2,
    ⟨fun h => ?_, fun h => ?_⟩, fun h hp => ?_, ⟨fun h => ?_, fun h => ?_⟩, fun h hp => ?_⟩
  · exact (mem_init_header_definitions m).1.1 (h.subset (by simp))
  · simp only [MethodDefinitions, h, if_true]
    refine List.IsInfix.trans ?_ (List.suffix_append _ _).isInfix
    refine List.IsInfix.trans ?_ (List.prefix_append _ _).isInfix
    exact ⟨[Frag.text "\n", Frag.text "\n"], [], rfl⟩
  · exact (mem_init_header_definitions m).2.1 (h.subset (by simp))
  · simp only [MethodDefinitions, h, if_true]
    refine List.IsInfix.trans ?_ (List.prefix_append _ _).isInfix
    refine List.IsInfix.trans ?_ (List.prefix_append _ _).isInfix
    exact ⟨[Frag.text "\n", Frag.text "\n"], [], rfl⟩
  · cases hr : m.HasResponse with
    | true => rfl
    | false =>
      simp only [ResponseMessage, hr, Bool.false_eq_true, if_false] at h
      have := List.eq_nil_of_infix_nil h
      simp at this
  · simp only [ResponseMessage, h, if_true]
    iterate 14 refine List.IsInfix.trans ?_ (List.prefix_append _ _).isInfix
    refine List.IsInfix.trans ?_ (List.suffix_append _ _).isInfix
    exact ⟨[Frag.text "\n"], _, rfl⟩
  · simp only [ResponseMessage, h, hp, ne_eq, not_false_eq_true, if_true]
    iterate 15 refine List.IsInfix.trans ?_ (List.prefix_append _ _).isInfix
    refine List.IsInfix.trans ?_ (List.suffix_append _ _).isInfix
    exact ⟨[Frag.text "\n"], [], rfl⟩
  · cases hr : m.HasRequest with
    | true => rfl
    | false =>
      simp only [RequestMessage, hr, Bool.false_eq_true, if_false] at h
      have := List.eq_nil_of_infix_nil h
      simp at this
  · simp only [RequestMessage, h, if_true]
    iterate 15 refine List.IsInfix.trans ?_ (List.prefix_append _ _).isInfix
    refine List.IsInfix.trans ?_ (List.suffix_append _ _).isInfix
    exact ⟨[Frag.text "\n"], _, rfl⟩
  · simp only [RequestMessage, h, hp, ne_eq, not_false_eq_true, if_true]
    iterate 16 refine List.IsInfix.trans ?_ (List.prefix_append _ _).isInfix
    refine List.IsInfix.trans ?_ (List.suffix_append _ _).isInfix
    exact ⟨[Frag.text "\n"], [], rfl⟩

end Llcpp

namespace Hlcpp

/-! ## Encode and Decode of a struct -/

theorem digitValue_digitChar : ∀ k, k < 10 → digitValue (Nat.digitChar k) = some k := by
  decide

theorem digitChar_ne_zero : ∀ k, k < 10 → 0 < k → Nat.digitChar k ≠ '0' := by
  decide

/-- Reading the digits that `Nat.toDigitsCore` puts before `ds` gives the number. -/
theorem foldl_toDigitsCore (fuel : Nat) : ∀ (n : Nat) (ds : List Char), n < fuel →
    (Nat.toDigitsCore 10 fuel n ds).foldl (fun acc c =>
      match acc, digitValue c with
      | some a, some d => some (a * 10 + d)
      | _, _ => none) (some 0)
    = ds.foldl (fun acc c =>
      match acc, digitValue c with
      | some a, some d => some (a * 10 + d)
      | _, _ => none) (some n) := by
  induction fuel with
  | zero => intro n ds h; omega
  | succ fuel ih =>
    intro n ds h
    have hd := digitValue_digitChar (n % 10) (Nat.mod_lt _ (by decide))
    simp only [Nat.toDigitsCore]
    by_cases h0 : n / 10 = 0
    · simp only [h0, if_true, List.foldl_cons, hd]
      have : n % 10 = n := Nat.mod_eq_of_lt (by omega)
      simp [this]
    · simp only [h0, if_false]
      rw [ih (n / 10) _ (by omega)]
      simp only [List.foldl_cons, hd]
      have : n / 10 * 10 + n % 10 = n := by omega
      rw [this]

/-- The digits of a positive number do not start with 0. -/
theorem head_toDigitsCore (fuel : Nat) : ∀ (n : Nat) (ds : List Char), 0 < n → n < fuel →
    ∃ c rest, Nat.toDigitsCore 10 fuel n ds = c :: rest ∧ c ≠ '0' := by
  induction fuel with
  | zero => intro n ds _ h; omega
  | succ fuel ih =>
    intro n ds hpos h
    simp only [Nat.toDigitsCore]
    by_cases h0 : n / 10 = 0
    · simp only [h0, if_true]
      refine ⟨_, _, rfl, digitChar_ne_zero _ (Nat.mod_lt _ (by decide)) ?_⟩
      omega
    · simp only [h0, if_false]
      exact ih (n / 10) _ (by omega) (by omega)

/-- The offset that the template prints is read back as the same number. -/
theorem literalValue_toString (n : Nat) : literalValue (toString (n : Int)) = some n := by
  have hs : (toString (n : Int)).data = Nat.toDigits 10 n := rfl
  have hv := foldl_toDigitsCore (n + 1) n [] (by omega)
  simp only [List.foldl_nil] at hv
  unfold literalValue
  rw [hs]
  by_cases hn : n = 0
  · subst hn
    rfl
  · obtain ⟨c, rest, hc, hne⟩ := head_toDigitsCore (n + 1) n [] (by omega) (by omega)
    have hc' : Nat.toDigits 10 n = c :: rest := hc
    rw [hc] at hv
    rw [hc']
    split
    · exact absurd ‹_› (by simp)
    · rename_i heq
      simp only [List.cons.injEq] at heq
      exact absurd heq.1 hne
    · exact hv

theorem readBytes_writeBytes_same (message : Nat → UInt8) (pos : Nat) (bytes : List UInt8) :
    readBytes (writeBytes message pos bytes) pos bytes.length = bytes := by
  apply List.ext_getElem
  · simp [readBytes]
  · intro i h1 h2
    simp only [readBytes, List.length_map, List.length_range] at h1
    simp [readBytes, writeBytes, h1, List.getD_eq_getElem]

theorem readBytes_writeBytes_disjoint (message : Nat → UInt8) (pos n q : Nat)
    (bytes : List UInt8) (h : pos + n ≤ q ∨ q + bytes.length ≤ pos) :
    readBytes (writeBytes message q bytes) pos n = readBytes message pos n := by
  simp only [readBytes, writeBytes]
  apply List.map_congr_left
  intro i hi
  have hi' : i < n := List.mem_range.1 hi
  have : ¬ (q ≤ pos + i ∧ pos + i < q + bytes.length) := by omega
  simp [this]

theorem encodeMembers_end {V : Type} (rt : Runtime V) (this : String → V) (offset : Nat)
    (message : Nat → UInt8) :
    encodeMembers rt this offset message [.text "\n", .text "  \x7d\n", .text "\x7d\n"]
      = some message := by
  rfl

theorem encodeMembers_plain {V : Type} (rt : Runtime V) (this : String → V) (offset : Nat)
    (message : Nat → UInt8) (name n : String) (rest : List (Frag Dot)) :
    encodeMembers rt this offset message
      (.text "::fidl::Encode(_encoder, &" :: .val name :: .text ", _offset + " ::
        .val n :: .text ");\n" :: .text "    " :: rest)
    = match literalValue n with
      | some n => encodeMembers rt this offset
          (writeBytes message (offset + n) (rt.Encode name none (this name))) rest
      | none => none := by
  rfl

theorem encodeMembers_handle {V : Type} (rt : Runtime V) (this : String → V) (offset : Nat)
    (message : Nat → UInt8) (name n objectType rights : String) (rest : List (Frag Dot)) :
    encodeMembers rt this offset message
      (.text "\n" :: .text "    ::fidl::Encode(_encoder, &" :: .val name ::
        .text ", _offset + " :: .val n :: .text ", ::fidl::HandleInformation \x7b\n" ::
        .text "      .object_type = " :: .val objectType :: .text ",\n" ::
        .text "      .rights = " :: .val rights :: .text ",\n" :: .text "    \x7d);\n" ::
        .text "    " :: rest)
    = match literalValue n with
      | some n => encodeMembers rt this offset
          (writeBytes message (offset + n)
            (rt.Encode name (some ⟨objectType, rights⟩) (this name))) rest
      | none => none := by
  rfl

/-- The statements that Encode is given for the members write the encoding of each
member, in order, at `offset` plus the offset of the member. -/
theorem encodeMembers_members {V : Type} (rt : Runtime V) (this : String → V) (offset : Nat)
    (members : List StructMember) (hoff : ∀ x ∈ members, 0 ≤ x.Offset)
    (message : Nat → UInt8) :
    encodeMembers rt this offset message
      ((members.flatMap fun x =>
        (match x.HandleInformation with
        | some info =>
          [.text "\n",
           .text "    ::fidl::Encode(_encoder, &",
           .val x.Name,
           .text ", _offset + ",
           .val (toString x.Offset),
           .text ", ::fidl::HandleInformation \x7b\n",
           .text "      .object_type = ",
           .val info.ObjectType,
           .text ",\n",
           .text "      .rights = ",
           .val info.Rights,
           .text ",\n",
           .text "    \x7d);\n",
           .text "    "]
        | none =>
          [.text "::fidl::Encode(_encoder, &",
           .val x.Name,
           .text ", _offset + ",
           .val (toString x.Offset),
           .text ");\n",
           .text "    "])) ++
        [.text "\n", .text "  \x7d\n", .text "\x7d\n"])
    = some (members.foldl (fun message x =>
        writeBytes message (offset + x.Offset.toNat)
          (rt.Encode x.Name x.HandleInformation (this x.Name))) message) := by
  induction members generalizing message with
  | nil => exact encodeMembers_end rt this offset message
  | cons x xs ih =>
    have ihx := ih (fun y hy => hoff y (List.mem_cons_of_mem _ hy))
    have hx : 0 ≤ x.Offset := hoff x (List.mem_cons_self _ _)
    obtain ⟨n, hn⟩ : ∃ n : Nat, x.Offset = (n : Int) := ⟨x.Offset.toNat, by omega⟩
    have hlit : literalValue (toString x.Offset) = some n := by
      rw [hn]; exact literalValue_toString n
    have htn : x.Offset.toNat = n := by omega
    cases hinfo : x.HandleInformation with
    | none =>
      simp only [List.flatMap_cons, hinfo, List.cons_append, List.nil_append,
        encodeMembers_plain, hlit, List.foldl_cons, htn]
      exact ihx _
    | some info =>
      simp only [List.flatMap_cons, hinfo, List.cons_append, List.nil_append,
        encodeMembers_handle, hlit, List.foldl_cons, htn]
      exact ihx _

theorem decodeMembers_end {V : Type} (rt : Runtime V) (offset : Nat) (message : Nat → UInt8)
    (value : String → V) :
    decodeMembers rt offset message value [.text "\n", .text "  \x7d\n", .text "\x7d\n"]
      = some value := by
  rfl

theorem decodeMembers_statement {V : Type} (rt : Runtime V) (offset : Nat)
    (message : Nat → UInt8) (value : String → V) (name n : String) (rest : List (Frag Dot)) :
    decodeMembers rt offset message value
      (.text "\n" :: .text "    ::fidl::Decode(_decoder, &_value->" :: .val name ::
        .text ", _offset + " :: .val n :: .text ");" :: rest)
    = match literalValue n with
      | some n => decodeMembers rt offset message
          (assign value name
            (rt.Decode name (readBytes message (offset + n) (rt.InlineSize name)))) rest
      | none => none := by
  rfl

/-- The statements that Decode is given for the members assign each member, in order,
the value decoded from the bytes at `offset` plus the offset of the member. -/
theorem decodeMembers_members {V : Type} (rt : Runtime V) (offset : Nat)
    (message : Nat → UInt8) (members : List StructMember)
    (hoff : ∀ x ∈ members, 0 ≤ x.Offset) (value : String → V) :
    decodeMembers rt offset message value
      ((members.flatMap fun x =>
        [.text "\n",
         .text "    ::fidl::Decode(_decoder, &_value->",
         .val x.Name,
         .text ", _offset + ",
         .val (toString x.Offset),
         .text ");"]) ++
        [.text "\n", .text "  \x7d\n", .text "\x7d\n"])
    = some (members.foldl (fun value x =>
        assign value x.Name (rt.Decode x.Name
          (readBytes message (offset + x.Offset.toNat) (rt.InlineSize x.Name)))) value) := by
  induction members generalizing value with
  | nil => exact decodeMembers_end rt offset message value
  | cons x xs ih =>
    have ihx := ih (fun y hy => hoff y (List.mem_cons_of_mem _ hy))
    have hx : 0 ≤ x.Offset := hoff x (List.mem_cons_self _ _)
    obtain ⟨n, hn⟩ : ∃ n : Nat, x.Offset = (n : Int) := ⟨x.Offset.toNat, by omega⟩
    have hlit : literalValue (toString x.Offset) = some n := by
      rw [hn]; exact literalValue_toString n
    have htn : x.Offset.toNat = n := by omega
    simp only [List.flatMap_cons, List.cons_append, List.nil_append, decodeMembers_statement,
      hlit, List.foldl_cons, htn]
    exact ihx _

theorem execEncode_eq {V : Type} (rt : Runtime V) (s : Struct) (this : String → V)
    (offset : Nat) (message : Nat → UInt8) (hoff : ∀ x ∈ s.Members, 0 ≤ x.Offset) :
    execEncode rt this offset message (StructDefinitionEncode s)
      = some (if rt.IsMemcpyCompatible s.Name = true then
          writeBytes message offset ((rt.representation this).take (rt.sizeof s.Name))
        else s.Members.foldl (fun message x =>
          writeBytes message (offset + x.Offset.toNat)
            (rt.Encode x.Name x.HandleInformation (this x.Name))) message) := by
  have h : execEncode rt this offset message (StructDefinitionEncode s)
      = if rt.IsMemcpyCompatible s.Name = true then
          some (writeBytes message offset ((rt.representation this).take (rt.sizeof s.Name)))
        else encodeMembers rt this offset message
          ((s.Members.flatMap fun x =>
            (match x.HandleInformation with
            | some info =>
              [.text "\n",
               .text "    ::fidl::Encode(_encoder, &",
               .val x.Name,
               .text ", _offset + ",
               .val (toString x.Offset),
               .text ", ::fidl::HandleInformation \x7b\n",
               .text "      .object_type = ",
               .val info.ObjectType,
               .text ",\n",
               .text "      .rights = ",
               .val info.Rights,
               .text ",\n",
               .text "    \x7d);\n",
               .text "    "]
            | none =>
              [.text "::fidl::Encode(_encoder, &",
               .val x.Name,
               .text ", _offset + ",
               .val (toString x.Offset),
               .text ");\n",
               .text "    "])) ++
            [.text "\n", .text "  \x7d\n", .text "\x7d\n"]) := by
    rfl
  rw [h, encodeMembers_members rt this offset s.Members hoff message]
  cases rt.IsMemcpyCompatible s.Name <;> simp

theorem execDecode_eq {V : Type} (rt : Runtime V) (s : Struct) (value : String → V)
    (offset : Nat) (message : Nat → UInt8) (hoff : ∀ x ∈ s.Members, 0 ≤ x.Offset) :
    execDecode rt value offset message (StructDefinitionDecode s)
      = some (if rt.IsMemcpyCompatible s.Name = true then
          rt.ofRepresentation (readBytes message offset (rt.sizeof s.Name))
        else s.Members.foldl (fun value x =>
          assign value x.Name (rt.Decode x.Name
            (readBytes message (offset + x.Offset.toNat) (rt.InlineSize x.Name)))) value) := by
  have h : execDecode rt value offset message (StructDefinitionDecode s)
      = if rt.IsMemcpyCompatible s.Name = true then
          some (rt.ofRepresentation (readBytes message offset (rt.sizeof s.Name)))
        else decodeMembers rt offset message value
          ((s.Members.flatMap fun x =>
            [.text "\n",
             .text "    ::fidl::Decode(_decoder, &_value->",
             .val x.Name,
             .text ", _offset + ",
             .val (toString x.Offset),
             .text ");"]) ++
            [.text "\n", .text "  \x7d\n", .text "\x7d\n"]) := by
    rfl
  rw [h, decodeMembers_members rt offset message s.Members hoff value]
  cases rt.IsMemcpyCompatible s.Name <;> simp

/-- Writes that do not touch a range leave what is read from it. -/
theorem readBytes_foldl_writeBytes {α : Type} (pos : α → Nat) (enc : α → List UInt8)
    (p n : Nat) (l : List α)
    (h : ∀ y ∈ l, p + n ≤ pos y ∨ pos y + (enc y).length ≤ p) (message : Nat → UInt8) :
    readBytes (l.foldl (fun m y => writeBytes m (pos y) (enc y)) message) p n
      = readBytes message p n := by
  induction l generalizing message with
  | nil => rfl
  | cons y ys ih =>
    rw [List.foldl_cons, ih (fun z hz => h z (List.mem_cons_of_mem _ hz))]
    exact readBytes_writeBytes_disjoint message p n (pos y) (enc y)
      (h y (List.mem_cons_self _ _))

/-- After writes to pairwise disjoint ranges, each range holds what was written to it. -/
theorem readBytes_foldl_writeBytes_self {α : Type} (pos : α → Nat) (enc : α → List UInt8)
    (l : List α)
    (h : l.Pairwise fun a b =>
      pos a + (enc a).length ≤ pos b ∨ pos b + (enc b).length ≤ pos a)
    (message : Nat → UInt8) (x : α) (hx : x ∈ l) :
    readBytes (l.foldl (fun m y => writeBytes m (pos y) (enc y)) message) (pos x)
      (enc x).length = enc x := by
  induction l generalizing message with
  | nil => simp at hx
  | cons y ys ih =>
    rw [List.pairwise_cons] at h
    rw [List.foldl_cons]
    by_cases hin : x ∈ ys
    · exact ih h.2 _ hin
    · have hxy : x = y := by
        rcases List.mem_cons.1 hx with h1 | h1
        · exact h1
        · exact absurd h1 hin
      subst hxy
      rw [readBytes_foldl_writeBytes pos enc (pos x) (enc x).length ys (fun z hz => h.1 z hz)]
      exact readBytes_writeBytes_same message (pos x) (enc x)

/-- Assigning to each member of a list the value that `this` has for it gives an object
that agrees with `this` on those members and is unchanged elsewhere. -/
theorem foldl_assign {α V : Type} (name : α → String) (val : α → V) (this : String → V)
    (l : List α) (h : ∀ x ∈ l, val x = this (name x)) (value : String → V) (n : String) :
    (l.foldl (fun o y => assign o (name y) (val y)) value) n
      = if n ∈ l.map name then this n else value n := by
  induction l generalizing value with
  | nil => simp
  | cons y ys ih =>
    rw [List.foldl_cons, ih (fun z hz => h z (List.mem_cons_of_mem _ hz))]
    by_cases h1 : n ∈ ys.map name
    · simp [h1]
    · by_cases h2 : n = name y
      · subst h2
        simp [h1, assign, h y (List.mem_cons_self _ _)]
      · have h3 : ¬ name y = n := fun h => h2 h.symm
        simp [h1, h2, h3, assign]

/-- C11: for every struct declaration whose member offsets are not negative, the
generated Encode and Decode both return, on the same branch: when
`IsMemcpyCompatible<Name>::value` holds, Encode copies `sizeof(Name)` bytes of the
object to position `_offset` and Decode copies `sizeof(Name)` bytes from position
`_offset` over the object; otherwise Encode writes the encoding of each member, in
order, at `_offset` plus the offset of the member, and Decode assigns each member, in
the same order, the value decoded at `_offset` plus the offset of the member.  If
moreover the encoding of every member has the inline size of the member and is decoded
back to the value, the byte ranges of the members are pairwise disjoint, and (for the
bulk branch) the object representation of the object has `sizeof(Name)` bytes and gives
back the object, then decoding the encoded message gives an object that is equal to the
original on every member (and the original itself in the bulk branch; in the other
branch what is not a member keeps the value it had). -/
theorem struct_decode_undoes_encode {V : Type} (rt : Runtime V) (s : Struct)
    (this value : String → V) (offset : Nat) (message : Nat → UInt8)
    (hoff : ∀ x ∈ s.Members, 0 ≤ x.Offset)
    (hsize : ∀ x ∈ s.Members, ∀ v,
      (rt.Encode x.Name x.HandleInformation v).length = rt.InlineSize x.Name)
    (hround : ∀ x ∈ s.Members, ∀ v,
      rt.Decode x.Name (rt.Encode x.Name x.HandleInformation v) = v)
    (hdisj : s.Members.Pairwise fun a b =>
      a.Offset + (rt.InlineSize a.Name : Int) ≤ b.Offset ∨
      b.Offset + (rt.InlineSize b.Name : Int) ≤ a.Offset)
    (hrepr : rt.IsMemcpyCompatible s.Name = true →
      (rt.representation this).length = rt.sizeof s.Name ∧
      rt.ofRepresentation (rt.representation this) = this) :
    ∃ encoded decoded,
      execEncode rt this offset message (StructDefinitionEncode s) = some encoded ∧
      execDecode rt value offset encoded (StructDefinitionDecode s) = some decoded ∧
      encoded = (if rt.IsMemcpyCompatible s.Name = true then
          writeBytes message offset ((rt.representation this).take (rt.sizeof s.Name))
        else s.Members.foldl (fun message x =>
          writeBytes message (offset + x.Offset.toNat)
            (rt.Encode x.Name x.HandleInformation (this x.Name))) message) ∧
      decoded = (if rt.IsMemcpyCompatible s.Name = true then
          rt.ofRepresentation (readBytes encoded offset (rt.sizeof s.Name))
        else s.Members.foldl (fun value x =>
          assign value x.Name (rt.Decode x.Name
            (readBytes encoded (offset + x.Offset.toNat) (rt.InlineSize x.Name)))) value) ∧
      (∀ x ∈ s.Members, decoded x.Name = this x.Name) ∧
      (rt.IsMemcpyCompatible s.Name = true → decoded = this) ∧
      (rt.IsMemcpyCompatible s.Name = false →
        ∀ name, name ∉ s.Members.map (fun x => x.Name) → decoded name = value name) := by
  refine ⟨_, _, execEncode_eq rt s this offset message hoff,
    execDecode_eq rt s value offset _ hoff, rfl, rfl, ?_⟩
  cases hmc : rt.IsMemcpyCompatible s.Name with
  | true =>
    obtain ⟨hlen, hrt⟩ := hrepr hmc
    have hdec : rt.ofRepresentation (readBytes (writeBytes message offset
        ((rt.representation this).take (rt.sizeof s.Name))) offset (rt.sizeof s.Name))
        = this := by
      rw [← hlen, List.take_length]
      rw [readBytes_writeBytes_same, hrt]
    simp [hdec]
  | false =>
    simp only [Bool.false_eq_true, if_false]
    have hpair : s.Members.Pairwise fun a b =>
        (offset + a.Offset.toNat)
            + (rt.Encode a.Name a.HandleInformation (this a.Name)).length
          ≤ offset + b.Offset.toNat ∨
        (offset + b.Offset.toNat)
            + (rt.Encode b.Name b.HandleInformation (this b.Name)).length
          ≤ offset + a.Offset.toNat := by
      refine List.Pairwise.imp_of_mem ?_ hdisj
      intro a b ha hb hab
      have h1 := hoff a ha
      have h2 := hoff b hb
      rw [hsize a ha, hsize b hb]
      omega
    have hread : ∀ x ∈ s.Members,
        rt.Decode x.Name (readBytes (s.Members.foldl (fun message x =>
          writeBytes message (offset + x.Offset.toNat)
            (rt.Encode x.Name x.HandleInformation (this x.Name))) message)
          (offset + x.Offset.toNat) (rt.InlineSize x.Name)) = this x.Name := by
      intro x hx
      have h := readBytes_foldl_writeBytes_self (fun x : StructMember => offset + x.Offset.toNat)
        (fun x => rt.Encode x.Name x.HandleInformation (this x.Name)) s.Members hpair
        message x hx
      rw [hsize x hx] at h
      rw [h, hround x hx]
    have hfold := foldl_assign (fun x : StructMember => x.Name)
      (fun x => rt.Decode x.Name (readBytes (s.Members.foldl (fun message x =>
          writeBytes message (offset + x.Offset.toNat)
            (rt.Encode x.Name x.HandleInformation (this x.Name))) message)
          (offset + x.Offset.toNat) (rt.InlineSize x.Name))) this s.Members hread value
    refine ⟨fun x hx => ?_, fun h => absurd h (by simp), fun _ name hname => ?_⟩
    · rw [hfold]
      have : x.Name ∈ s.Members.map (fun x => x.Name) := List.mem_map_of_mem _ hx
      simp only [this, if_true]
    · rw [hfold]
      simp only [hname, if_false]

/-- C11, witness: the struct Pair of two byte members at offsets 0 and 1, with the byte
runtime, satisfies the hypotheses; the object with a = 7 and b = 9 is encoded at offset
3 and decoded back over an object of zeros. -/
theorem struct_decode_undoes_encode_witness :
    (∀ x ∈ pairStruct.Members, 0 ≤ x.Offset) ∧
    (∀ x ∈ pairStruct.Members, ∀ v,
      (byteRuntime.Encode x.Name x.HandleInformation v).length
        = byteRuntime.InlineSize x.Name) ∧
    (∀ x ∈ pairStruct.Members, ∀ v,
      byteRuntime.Decode x.Name (byteRuntime.Encode x.Name x.HandleInformation v) = v) ∧
    (pairStruct.Members.Pairwise fun a b =>
      a.Offset + (byteRuntime.InlineSize a.Name : Int) ≤ b.Offset ∨
      b.Offset + (byteRuntime.InlineSize b.Name : Int) ≤ a.Offset) ∧
    ∃ encoded decoded,
      execEncode byteRuntime pairValue 3 (fun _ => 0) (StructDefinitionEncode pairStruct)
        = some encoded ∧
      execDecode byteRuntime (fun _ => 0) 3 encoded (StructDefinitionDecode pairStruct)
        = some decoded ∧
      readBytes encoded 0 6 = [0, 0, 0, 7, 9, 0] ∧
      decoded "a" = 7 ∧ decoded "b" = 9 := by
  have h1 : ∀ x ∈ pairStruct.Members, 0 ≤ x.Offset := by simp [pairStruct]
  have h2 : ∀ x ∈ pairStruct.Members, ∀ v,
      (byteRuntime.Encode x.Name x.HandleInformation v).length
        = byteRuntime.InlineSize x.Name := by simp [byteRuntime]
  have h3 : ∀ x ∈ pairStruct.Members, ∀ v,
      byteRuntime.Decode x.Name (byteRuntime.Encode x.Name x.HandleInformation v) = v := by
    simp [byteRuntime]
  have h4 : pairStruct.Members.Pairwise fun a b =>
      a.Offset + (byteRuntime.InlineSize a.Name : Int) ≤ b.Offset ∨
      b.Offset + (byteRuntime.InlineSize b.Name : Int) ≤ a.Offset := by
    simp [pairStruct, byteRuntime]
  obtain ⟨encoded, decoded, he, hd, henc, _, hm, _, _⟩ :=
    struct_decode_undoes_encode byteRuntime pairStruct pairValue (fun _ => 0) 3 (fun _ => 0)
      h1 h2 h3 h4 (by simp [byteRuntime])
  refine ⟨h1, h2, h3, h4, encoded, decoded, he, hd, ?_, ?_, ?_⟩
  · rw [henc]; rfl
  · exact hm ⟨"a", 0, none⟩ (by simp [pairStruct])
  · exact hm ⟨"b", 1, none⟩ (by simp [pairStruct])

end Hlcpp

namespace Resultdb

/-! ## SummaryToResultSink and the empty upload -/

theorem testCaseToResultSink_length (sys : System) (testCases : List TestCaseResult)
    (testDetail : TestDetails) :
    (testCaseToResultSink sys testCases testDetail).length
      = (testCases.filter fun c =>
          c.Status = TestCaseStatus.Pass ∨ c.Status = TestCaseStatus.Fail ∨
          c.Status = TestCaseStatus.Skip).length := by
  have h := testCase_foldl sys testDetail (testDetailResultToResultDBStatus testDetail.Result).1
    testCases []
  simp only [List.map_nil, List.nil_append] at h
  have hl := congrArg List.length h
  rw [List.length_map] at hl
  rw [testCaseToResultSink, hl]
  clear h hl
  induction testCases with
  | nil => rfl
  | cons c cs ih =>
    cases hs : c.Status <;> simp [List.filterMap_cons, List.filter_cons, convertedCase, hs, ih]

theorem testCaseToResultSink_nil (sys : System) (testDetail : TestDetails) :
    testCaseToResultSink sys [] testDetail = [] := rfl

/-- What one pass of the loop of SummaryToResultSink appends for a test. -/
theorem summary_step (sys : System) (rootPath : String) (test : TestDetails)
    (r : List (Option SinkTestResult)) :
    (match testDetailsToResultSink sys test rootPath with
      | (testResult, none) =>
        (if test.Cases.length > 0 then
          r ++ (testCaseToResultSink sys test.Cases test).map some else r) ++ [testResult]
      | (_, some _) =>
        (if test.Cases.length > 0 then
          r ++ (testCaseToResultSink sys test.Cases test).map some else r))
    = r ++ ((testCaseToResultSink sys test.Cases test).map some
        ++ (if test.Result = TestResult.TestSuccess ∨ test.Result = TestResult.TestFailure
            then [(testDetailsToResultSink sys test rootPath).1] else [])) := by
  have hc : (if test.Cases.length > 0 then
        r ++ (testCaseToResultSink sys test.Cases test).map some else r)
      = r ++ (testCaseToResultSink sys test.Cases test).map some := by
    cases hcs : test.Cases with
    | nil => simp [testCaseToResultSink_nil]
    | cons c cs => simp
  rw [hc]
  cases h : test.Result with
  | other s => simp [testDetailsToResultSink, testDetailResultToResultDBStatus, h]
  | TestSuccess => simp [testDetailsToResultSink, testDetailResultToResultDBStatus, h]
  | TestFailure => simp [testDetailsToResultSink, testDetailResultToResultDBStatus, h]

theorem foldl_append_flatMap {α β : Type} (f : α → List β) (l : List α) (init : List β) :
    l.foldl (fun r x => r ++ f x) init = init ++ l.flatMap f := by
  induction l generalizing init with
  | nil => simp
  | cons x xs ih => simp [ih]

/-- C22. For every test summary, the output of SummaryToResultSink is the concatenation,
over the tests in the order of the summary, of the results that testCaseToResultSink
makes of the cases of the test, followed by the result of testDetailsToResultSink for
the test itself, which is there if and only if the result of the test is TestSuccess or
TestFailure; no element is a nil pointer; and the length of the output is the number of
cases whose status is Pass, Fail or Skip plus the number of tests whose result is
TestSuccess or TestFailure. -/
theorem SummaryToResultSink_spec (sys : System) (s : TestSummary) (outputRoot : String) :
    SummaryToResultSink sys s outputRoot
      = s.Tests.flatMap (fun test =>
          (testCaseToResultSink sys test.Cases test).map some
          ++ (if test.Result = TestResult.TestSuccess ∨ test.Result = TestResult.TestFailure
              then [(testDetailsToResultSink sys test
                (sys.Abs (if outputRoot.utf8ByteSize = 0 then sys.Getwd else outputRoot))).1]
              else [])) ∧
    (∀ r ∈ SummaryToResultSink sys s outputRoot, r ≠ none) ∧
    (SummaryToResultSink sys s outputRoot).length
      = (s.Tests.map fun test => (test.Cases.filter fun c =>
          c.Status = TestCaseStatus.Pass ∨ c.Status = TestCaseStatus.Fail ∨
          c.Status = TestCaseStatus.Skip).length).sum
        + (s.Tests.filter fun test =>
            test.Result = TestResult.TestSuccess ∨ test.Result = TestResult.TestFailure).length := by
  have heq : SummaryToResultSink sys s outputRoot
      = s.Tests.flatMap (fun test =>
          (testCaseToResultSink sys test.Cases test).map some
          ++ (if test.Result = TestResult.TestSuccess ∨ test.Result = TestResult.TestFailure
              then [(testDetailsToResultSink sys test
                (sys.Abs (if outputRoot.utf8ByteSize = 0 then sys.Getwd else outputRoot))).1]
              else [])) := by
    simp only [SummaryToResultSink, summary_step, foldl_append_flatMap, List.nil_append]
  refine ⟨heq, ?_, ?_⟩
  · rw [heq]
    intro r hr
    obtain ⟨test, -, hr⟩ := List.mem_flatMap.1 hr
    rcases List.mem_append.1 hr with h | h
    · obtain ⟨x, -, rfl⟩ := List.mem_map.1 h
      simp
    · cases hres : test.Result with
      | other t => simp [hres] at h
      | TestSuccess =>
        simp [hres, testDetailsToResultSink, testDetailResultToResultDBStatus] at h
        simp [h]
      | TestFailure =>
        simp [hres, testDetailsToResultSink, testDetailResultToResultDBStatus] at h
        simp [h]
  · rw [heq]
    generalize sys.Abs (if outputRoot.utf8ByteSize = 0 then sys.Getwd else outputRoot) = rootPath
    induction s.Tests with
    | nil => rfl
    | cons t ts ih =>
      simp only [List.flatMap_cons, List.length_append, List.length_map, ih, List.map_cons,
        List.sum_cons, List.filter_cons, testCaseToResultSink_length]
      by_cases h : t.Result = TestResult.TestSuccess ∨ t.Result = TestResult.TestFailure
      · simp [h]; omega
      · simp [h]; omega

/-- C28, counterexample: for the empty list of test results and the chunkSize 2^62,
which is at least 2, `(0 - 1) / chunkSize` is 0 and totalChunks is 1, and
createTestResultsRequests returns no request: the `make` of the buffer of the one
request panics. -/
theorem createTestResultsRequests_empty_large_chunkSize :
    (2 : Int) ≤ 4611686018427387904 ∧
    ((0 : Int) - 1).tdiv 4611686018427387904 = 0 ∧
    createTestResultsRequests ([] : List Nat) 4611686018427387904 = none := by
  refine ⟨by decide, by decide, ?_⟩
  exact createTestResultsRequests_none [] 4611686018427387904 (by decide) (by decide)

/-- C28, amended.  For the empty list of test results and every chunkSize of at least 2
that make accepts as the capacity of a slice of pointers (8 * chunkSize is at most
`maxAlloc`, so chunkSize is at most 2^45), createTestResultsRequests returns exactly one
request, which holds no test result: the division `(0 - 1) / chunkSize` truncates to 0,
so totalChunks is 1.  So for a summary without tests, whose list of results is empty,
one empty request is made. -/
theorem createTestResultsRequests_empty {α : Type} (chunkSize : Int) (h : 2 ≤ chunkSize)
    (hcap : 8 * chunkSize ≤ maxAlloc) :
    ((0 : Int) - 1).tdiv chunkSize = 0 ∧
    createTestResultsRequests ([] : List α) chunkSize = some [[]] ∧
    (∀ (sys : System) (outputRoot : String),
      createTestResultsRequests (SummaryToResultSink sys ⟨[]⟩ outputRoot) chunkSize
        = some [[]]) := by
  obtain ⟨c, rfl⟩ : ∃ c : Nat, chunkSize = (c : Int) := ⟨chunkSize.toNat, by omega⟩
  have hc : 2 ≤ c := by omega
  have hdiv : ((0 : Int) - 1).tdiv (c : Int) = -((1 / c : Nat) : Int) := by rfl
  have h1 : 1 / c = 0 := Nat.div_eq_of_lt (by omega)
  have h0 : ((0 : Int) - 1).tdiv (c : Int) = 0 := by rw [hdiv, h1]; rfl
  have hmk : makeslice 0 (c : Int) = true := makeslice_of_le 0 c (le_refl 0) (by omega) hcap
  have key : ∀ β : Type, createTestResultsRequests ([] : List β) (c : Int) = some [[]] := by
    intro β
    have hne : ¬ (c : Int) = 0 := by omega
    have hlen : ((([] : List β).length : Nat) : Int) - 1 = (0 : Int) - 1 := by simp
    have hone : makeslice ((0 : Int) + 1) ((0 : Int) + 1) = true := by decide
    simp only [createTestResultsRequests, hne, if_false, hlen, h0, hmk, hone, reduceCtorEq,
      and_false]
    rfl
  exact ⟨h0, key α, fun sys outputRoot => key _⟩

/-- Witness of C28: the chunk size 500 that mainImpl passes. -/
theorem createTestResultsRequests_empty_witness :
    (2 : Int) ≤ 500 ∧ ((0 : Int) - 1).tdiv 500 = 0 ∧
    createTestResultsRequests ([] : List Nat) 500 = some [[]] ∧
    (∀ (sys : System) (outputRoot : String),
      createTestResultsRequests (SummaryToResultSink sys ⟨[]⟩ outputRoot) 500
        = some [[]]) :=
  ⟨by decide, createTestResultsRequests_empty 500 (by decide) (by decide)⟩

end Resultdb

namespace Gidl

/-! ## buildBytes (common.go) -/

theorem hexValue_digitChar : ∀ k, k < 16 → hexValue (Nat.digitChar k) = some k := by
  decide

theorem digitChar_mem_hex : ∀ k, k < 16 →
    Nat.digitChar k ∈ "0123456789abcdef".data := by
  decide

theorem uint8_ofNat_toNat (b : UInt8) : UInt8.ofNat b.toNat = b := by
  cases b with
  | mk v =>
    apply UInt8.ext
    simp [UInt8.ofNat, UInt8.toNat]

theorem sprintfByte_data (b : UInt8) :
    (sprintfByte b).data
      = ['0', 'x', Nat.digitChar (b.toNat / 16), Nat.digitChar (b.toNat % 16), ','] := rfl

/-- The characters of the output of buildBytes. -/
theorem buildBytes_data (bytes : List UInt8) :
    (buildBytes bytes).data
      = ['[', ']', 'b', 'y', 't', 'e', '\x7b', '\n']
        ++ (bytes.enum.flatMap fun ib =>
            ['0', 'x', Nat.digitChar (ib.2.toNat / 16), Nat.digitChar (ib.2.toNat % 16), ',']
              ++ (if ib.1 % 8 = 7 then ['\n'] else []))
        ++ ['\x7d'] := by
  rw [buildBytes_eq]
  simp only [String.data_append, String.data_join, List.map_map]
  congr 2
  rw [List.flatMap_def]
  congr 1
  apply List.map_congr_left
  intro ib _
  simp only [Function.comp, String.data_append, sprintfByte_data]
  split <;> rfl

theorem readLiterals_newline (rest : List Char) :
    readLiterals ('\n' :: rest) = readLiterals rest := by
  rfl

theorem readLiterals_literal (h l : Char) (rest : List Char) :
    readLiterals ('0' :: 'x' :: h :: l :: ',' :: rest)
      = match hexValue h, hexValue l, readLiterals rest with
        | some a, some b, some bytes => some (UInt8.ofNat (a * 16 + b) :: bytes)
        | _, _, _ => none := by
  rfl

theorem readLiterals_entries (bytes : List UInt8) : ∀ n : Nat,
    readLiterals (((bytes.enumFrom n).flatMap fun ib =>
        ['0', 'x', Nat.digitChar (ib.2.toNat / 16), Nat.digitChar (ib.2.toNat % 16), ',']
          ++ (if ib.1 % 8 = 7 then ['\n'] else []))
      ++ ['\x7d']) = some bytes := by
  induction bytes with
  | nil => intro n; rfl
  | cons b bs ih =>
    intro n
    have hb : b.toNat < 256 := b.val.isLt
    have h1 := hexValue_digitChar (b.toNat / 16) (by omega)
    have h2 := hexValue_digitChar (b.toNat % 16) (by omega)
    have hv : b.toNat / 16 * 16 + b.toNat % 16 = b.toNat := by omega
    rw [List.enumFrom_cons, List.flatMap_cons]
    have ih' := ih (n + 1)
    generalize ((List.enumFrom (n + 1) bs).flatMap fun ib =>
        ['0', 'x', Nat.digitChar (ib.2.toNat / 16), Nat.digitChar (ib.2.toNat % 16), ',']
          ++ (if ib.1 % 8 = 7 then ['\n'] else [])) = tail at ih' ⊢
    by_cases hn : n % 8 = 7
    · rw [if_pos hn]
      show readLiterals ('0' :: 'x' :: Nat.digitChar (b.toNat / 16)
        :: Nat.digitChar (b.toNat % 16) :: ',' :: '\n' :: (tail ++ ['\x7d'])) = _
      rw [readLiterals_literal, readLiterals_newline, ih', h1, h2]
      simp only [hv, uint8_ofNat_toNat]
    · rw [if_neg hn]
      show readLiterals ('0' :: 'x' :: Nat.digitChar (b.toNat / 16)
        :: Nat.digitChar (b.toNat % 16) :: ',' :: (tail ++ ['\x7d'])) = _
      rw [readLiterals_literal, ih', h1, h2]
      simp only [hv, uint8_ofNat_toNat]

/-- C27. For every byte slice, the output of buildBytes is the text `[]byte{` and a
newline, then for each byte in order the literal `0x` with the two lower-case
hexadecimal digits of the byte and a comma, with a newline after the literal at index i
exactly when i % 8 = 7 (after every eighth literal, and nowhere else), then `}`; so
there are as many literals as bytes, and reading the literals back gives the bytes. -/
theorem buildBytes_round_trip (bytes : List UInt8) :
    (buildBytes bytes).data
      = "[]byte\x7b\n".data
        ++ (bytes.enum.flatMap fun ib =>
            ['0', 'x', Nat.digitChar (ib.2.toNat / 16), Nat.digitChar (ib.2.toNat % 16), ',']
              ++ (if ib.1 % 8 = 7 then ['\n'] else []))
        ++ "\x7d".data ∧
    bytes.enum.length = bytes.length ∧
    (∀ b ∈ bytes,
      Nat.digitChar (b.toNat / 16) ∈ "0123456789abcdef".data ∧
      Nat.digitChar (b.toNat % 16) ∈ "0123456789abcdef".data ∧
      hexValue (Nat.digitChar (b.toNat / 16)) = some (b.toNat / 16) ∧
      hexValue (Nat.digitChar (b.toNat % 16)) = some (b.toNat % 16)) ∧
    readByteSlice (buildBytes bytes) = some bytes := by
  refine ⟨buildBytes_data bytes, by simp, ?_, ?_⟩
  · intro b _
    have hb : b.toNat < 256 := b.val.isLt
    exact ⟨digitChar_mem_hex _ (by omega), digitChar_mem_hex _ (by omega),
      hexValue_digitChar _ (by omega), hexValue_digitChar _ (by omega)⟩
  · unfold readByteSlice
    rw [buildBytes_data]
    exact readLiterals_entries bytes 0

end Gidl

namespace Llcpp

/-! ## The method table of the server -/

theorem unwrap_access_part (p : Protocol) (m : Method) (h : m.HasResponse = true) :
    ([Frag.text "        return reinterpret_cast<", .val m.Name, .text "Response*>("]
        ++ ResponseReceivedByteAccess m ++ [Frag.text ");\n"] <:+: ResultOfMethod p m) ∧
    ([Frag.text "        return reinterpret_cast<const ", .val m.Name, .text "Response*>("]
        ++ ResponseReceivedByteAccess m ++ [Frag.text ");\n"] <:+: ResultOfMethod p m) := by
  simp only [ResultOfMethod, h, if_true]
  constructor
  · iterate 3 refine List.IsInfix.trans ?_ (List.prefix_append _ _).isInfix
    refine List.IsInfix.trans ?_ (List.suffix_append _ _).isInfix
    iterate 2 refine List.IsInfix.trans ?_ (List.prefix_append _ _).isInfix
    refine ⟨[Frag.text "\n", .text "\n", .text "      ", .val m.Name,
        .text "Response* Unwrap() \x7b\n", .text "        ZX_DEBUG_ASSERT(ok());\n"],
      [Frag.text "      \x7d\n", .text "      const ", .val m.Name,
        .text "Response* Unwrap() const \x7b\n", .text "        ZX_DEBUG_ASSERT(ok());\n",
        .text "        return reinterpret_cast<const ", .val m.Name, .text "Response*>("], ?_⟩
    simp
  · iterate 3 refine List.IsInfix.trans ?_ (List.prefix_append _ _).isInfix
    refine List.IsInfix.trans ?_ (List.suffix_append _ _).isInfix
    refine ⟨[Frag.text "\n", .text "\n", .text "      ", .val m.Name,
        .text "Response* Unwrap() \x7b\n", .text "        ZX_DEBUG_ASSERT(ok());\n",
        .text "        return reinterpret_cast<", .val m.Name, .text "Response*>("]
        ++ ResponseReceivedByteAccess m
        ++ [Frag.text ");\n", .text "      \x7d\n", .text "      const ", .val m.Name,
          .text "Response* Unwrap() const \x7b\n", .text "        ZX_DEBUG_ASSERT(ok());\n"],
      [Frag.text "      \x7d\n",
       .text "\n",
       .text "      ",
       .val m.Name,
       .text "Response& value() \x7b return *Unwrap(); \x7d\n",
       .text "      const ",
       .val m.Name,
       .text "Response& value() const \x7b return *Unwrap(); \x7d\n",
       .text "\n",
       .text "      ",
       .val m.Name,
       .text "Response* operator->() \x7b return &value(); \x7d\n",
       .text "      const ",
       .val m.Name,
       .text "Response* operator->() const \x7b return &value(); \x7d\n",
       .text "\n",
       .text "      ",
       .val m.Name,
       .text "Response& operator*() \x7b return value(); \x7d\n",
       .text "      const ",
       .val m.Name,
       .text "Response& operator*() const \x7b return value(); \x7d"], ?_⟩
    simp

theorem storage_eq (m : Method) (h : m.HasResponse = true) :
    storageAccessed (ResponseReceivedByteAccess m)
      = some (if 512 < m.ResponseReceivedMaxSize then Storage.heap else Storage.inline) ∧
    storageDeclared (ResultOfBytes m)
      = some (if 512 < m.ResponseReceivedMaxSize then Storage.heap else Storage.inline) := by
  by_cases h1 : m.ResponseReceivedMaxSize > 512
  · have h1' : 512 < m.ResponseReceivedMaxSize := h1
    by_cases h2 : m.ResponseReceivedMaxSize > 65536 <;>
      simp [ResponseReceivedByteAccess, ResultOfBytes, ResponseReceivedSize, h, h1, h1', h2,
        storageAccessed, storageDeclared]
  · have h1' : ¬ 512 < m.ResponseReceivedMaxSize := h1
    simp [ResponseReceivedByteAccess, ResultOfBytes, h, h1, h1', storageAccessed,
      storageDeclared]

/-- C29. For every client method m with a response, both functions Unwrap of the class
ResultOf::<m> return the bytes through the expression that ResponseReceivedByteAccess
writes, and the private section of the class declares `bytes_`; the storage that the
expression assumes is the storage that the declaration gives: the expression is
`bytes_->data()` exactly when `bytes_` is declared as a `unique_ptr` to an
`AlignedBuffer`, which is when the received max size is above 512, and it is `bytes_`
exactly when `bytes_` is declared as an inline array, which is when the received max
size is at most 512. -/
theorem unwrap_access_agrees_with_storage (p : Protocol) (m : Method)
    (h : m.HasResponse = true) :
    ([Frag.text "        return reinterpret_cast<", .val m.Name, .text "Response*>("]
        ++ ResponseReceivedByteAccess m ++ [Frag.text ");\n"] <:+: ResultOfMethod p m) ∧
    ([Frag.text "        return reinterpret_cast<const ", .val m.Name, .text "Response*>("]
        ++ ResponseReceivedByteAccess m ++ [Frag.text ");\n"] <:+: ResultOfMethod p m) ∧
    ResultOfBytes m <:+: ResultOfMethod p m ∧
    storageAccessed (ResponseReceivedByteAccess m) = storageDeclared (ResultOfBytes m) ∧
    (ResponseReceivedByteAccess m = [Frag.text "bytes_->data()"]
      ↔ storageDeclared (ResultOfBytes m) = some Storage.heap) ∧
    (ResponseReceivedByteAccess m = [Frag.text "bytes_"]
      ↔ storageDeclared (ResultOfBytes m) = some Storage.inline) ∧
    (storageDeclared (ResultOfBytes m) = some Storage.heap
      ↔ Frag.text "        std::unique_ptr<::fidl::internal::AlignedBuffer<"
          ∈ ResultOfMethod p m) ∧
    (storageDeclared (ResultOfBytes m) = some Storage.inline
      ↔ Frag.text "        uint8_t bytes_[" ∈ ResultOfMethod p m) ∧
    (storageDeclared (ResultOfBytes m) = some Storage.heap
      ↔ 512 < m.ResponseReceivedMaxSize) ∧
    (storageDeclared (ResultOfBytes m) = some Storage.inline
      ↔ m.ResponseReceivedMaxSize ≤ 512) := by
  obtain ⟨ha, hd⟩ := storage_eq m h
  have hmem := mem_bytes_result_of p m
  refine ⟨(unwrap_access_part p m h).1, (unwrap_access_part p m h).2,
    result_of_bytes_part p m, by rw [ha, hd], ?_, ?_, ?_, ?_, ?_, ?_⟩
  · rw [hd]
    by_cases h1 : 512 < m.ResponseReceivedMaxSize
    · have h1' : m.ResponseReceivedMaxSize > 512 := h1
      simp [ResponseReceivedByteAccess, h1, h1']
    · have h1' : ¬ m.ResponseReceivedMaxSize > 512 := h1
      simp [ResponseReceivedByteAccess, h1, h1']
  · rw [hd]
    by_cases h1 : 512 < m.ResponseReceivedMaxSize
    · have h1' : m.ResponseReceivedMaxSize > 512 := h1
      simp [ResponseReceivedByteAccess, h1, h1']
    · have h1' : ¬ m.ResponseReceivedMaxSize > 512 := h1
      simp [ResponseReceivedByteAccess, h1, h1']
  · rw [hd, hmem.2]
    by_cases h1 : 512 < m.ResponseReceivedMaxSize <;> simp [h, h1]
  · rw [hd, hmem.1]
    by_cases h1 : 512 < m.ResponseReceivedMaxSize
    · have : ¬ m.ResponseReceivedMaxSize ≤ 512 := by omega
      simp [h, h1, this]
    · have : m.ResponseReceivedMaxSize ≤ 512 := by omega
      simp [h, h1, this]
  · rw [hd]
    by_cases h1 : 512 < m.ResponseReceivedMaxSize <;> simp [h1]
  · rw [hd]
    by_cases h1 : 512 < m.ResponseReceivedMaxSize
    · have : ¬ m.ResponseReceivedMaxSize ≤ 512 := by omega
      simp [h1, this]
    · have : m.ResponseReceivedMaxSize ≤ 512 := by omega
      simp [h1, this]

/-- Witness of C29: the response of `Ping` is small, so `bytes_` is an inline array and
Unwrap names it directly. -/
theorem unwrap_access_agrees_with_storage_witness :
    pingMethod.HasResponse = true ∧
    storageAccessed (ResponseReceivedByteAccess pingMethod)
      = storageDeclared (ResultOfBytes pingMethod) ∧
    ResponseReceivedByteAccess pingMethod = [Frag.text "bytes_"] :=
  ⟨rfl, (unwrap_access_agrees_with_storage pingerProtocol pingMethod rfl).2.2.2.1, by
    simp [ResponseReceivedByteAccess, pingMethod]⟩

/-! ## Dispatch of a protocol without client methods -/

/-- C30. For a protocol p without client methods, the generated TryDispatch returns
kNotFound with no effect on the message or the transaction, and the generated Dispatch
closes the handles of the message, reports kUnexpectedMessage with ZX_ERR_NOT_SUPPORTED
and returns kNotFound.  The body that the template writes for Dispatch when there are
client methods (the one of any protocol q that has some), run with the TryDispatch of
p, has the same result and the same effects in the same order; and whenever TryDispatch
returns kNotFound after effects es, that body has the effects es followed by the two
effects above and returns kNotFound. -/
theorem dispatch_branches_agree (p q : Protocol)
    (lib : String → IncomingMsg → DispatchResult × List Effect) (msg : IncomingMsg)
    (hp : p.ClientMethods = []) (hq : q.ClientMethods ≠ []) :
    TryDispatch p lib msg = some (DispatchResult.kNotFound, []) ∧
    Dispatch p lib msg = some (DispatchResult.kNotFound,
      [Effect.FidlHandleInfoCloseMany msg.handles msg.num_handles,
       Effect.InternalError "::fidl::UnbindInfo::kUnexpectedMessage" "ZX_ERR_NOT_SUPPORTED"]) ∧
    exec lib (TryDispatch p lib msg) msg (DispatchBody q) ⟨none, [], false⟩
      = Dispatch p lib msg ∧
    (∀ es, exec lib (some (DispatchResult.kNotFound, es)) msg (DispatchBody q) ⟨none, [], false⟩
      = some (DispatchResult.kNotFound, es ++
          [Effect.FidlHandleInfoCloseMany msg.handles msg.num_handles,
           Effect.InternalError "::fidl::UnbindInfo::kUnexpectedMessage"
             "ZX_ERR_NOT_SUPPORTED"])) := by
  have h1 : TryDispatch p lib msg = some (DispatchResult.kNotFound, []) := by
    simp [TryDispatch, TryDispatchBody, hp, exec]
  have h2 : Dispatch p lib msg = some (DispatchResult.kNotFound,
      [Effect.FidlHandleInfoCloseMany msg.handles msg.num_handles,
       Effect.InternalError "::fidl::UnbindInfo::kUnexpectedMessage"
         "ZX_ERR_NOT_SUPPORTED"]) := by
    simp [Dispatch, DispatchBody, hp, exec]
  have h3 : ∀ es, exec lib (some (DispatchResult.kNotFound, es)) msg (DispatchBody q)
      ⟨none, [], false⟩
      = some (DispatchResult.kNotFound, es ++
          [Effect.FidlHandleInfoCloseMany msg.handles msg.num_handles,
           Effect.InternalError "::fidl::UnbindInfo::kUnexpectedMessage"
             "ZX_ERR_NOT_SUPPORTED"]) := by
    intro es
    simp [DispatchBody, hq, exec]
  refine ⟨h1, h2, ?_, h3⟩
  rw [h1, h2, h3]
  rfl

/-- Witness of C30: the protocol Notifier has no client method and the protocol Pinger
has two. -/
theorem dispatch_branches_agree_witness :
    notifierProtocol.ClientMethods = [] ∧ pingerProtocol.ClientMethods ≠ [] ∧
    Dispatch notifierProtocol (fun _ _ => (DispatchResult.kFound, [])) ⟨[3, 4], 2⟩
      = some (DispatchResult.kNotFound,
        [Effect.FidlHandleInfoCloseMany [3, 4] 2,
         Effect.InternalError "::fidl::UnbindInfo::kUnexpectedMessage"
           "ZX_ERR_NOT_SUPPORTED"]) ∧
    exec (fun _ _ => (DispatchResult.kFound, []))
        (TryDispatch notifierProtocol (fun _ _ => (DispatchResult.kFound, [])) ⟨[3, 4], 2⟩)
        ⟨[3, 4], 2⟩ (DispatchBody pingerProtocol) ⟨none, [], false⟩
      = Dispatch notifierProtocol (fun _ _ => (DispatchResult.kFound, [])) ⟨[3, 4], 2⟩ :=
  ⟨rfl, by simp [pingerProtocol],
    (dispatch_branches_agree notifierProtocol pingerProtocol
      (fun _ _ => (DispatchResult.kFound, [])) ⟨[3, 4], 2⟩ rfl (by simp [pingerProtocol])).2.1,
    (dispatch_branches_agree notifierProtocol pingerProtocol
      (fun _ _ => (DispatchResult.kFound, [])) ⟨[3, 4], 2⟩ rfl (by simp [pingerProtocol])).2.2.1⟩

end Llcpp

namespace Mdlint

/-! ## The findings of the reporter (reporter.go) -/

theorem findings_eq_map (sort : sortableMessages → sortableMessages) (r : RootReporter) :
    (messagesToFindingsJSON sort r).2 = (sort r.messages).map findingOf ∧
    (messagesToFindingsJSON sort r).1 = { r with messages := sort r.messages } := by
  have key : ∀ (l : List message) (init : List findingJSON),
      l.foldl (fun (findings : List findingJSON) (msg : message) =>
        findings ++ [findingOf msg]) init = init ++ l.map findingOf := by
    intro l
    induction l with
    | nil => intro init; simp
    | cons m ms ih => intro init; simp [ih]
  exact ⟨by simpa [messagesToFindingsJSON, findingOf] using key (sort r.messages) [], rfl⟩

theorem wrapInt_eq_self (x : Int) (h0 : -9223372036854775808 ≤ x)
    (h1 : x ≤ 9223372036854775807) : wrapInt x = x := by
  unfold wrapInt
  omega

theorem wrapInt_wrapInt_add (x y : Int) : wrapInt (wrapInt x + y) = wrapInt (x + y) := by
  unfold wrapInt
  omega

/-- The state of the loop of numLinesAndCharsOnLastLine after the characters `cs`, the
counters being those of an `int` of 64 bits. -/
theorem numLines_foldl (cs : List Char) (n e : Int) :
    cs.foldl (fun (state : Int × Int) (r : Char) =>
        if r = '\n' then (wrapInt (state.1 + 1), 0) else (state.1, wrapInt (state.2 + 1)))
        (wrapInt n, wrapInt e)
      = (wrapInt (n + (cs.count '\n' : Nat)),
         if '\n' ∈ cs then
           wrapInt (((cs.reverse.takeWhile fun r => r ≠ '\n').length : Nat) : Int)
         else wrapInt (e + (cs.length : Nat))) := by
  induction cs using List.reverseRecOn with
  | nil => simp
  | append_singleton init c ih =>
    rw [List.foldl_append, ih]
    by_cases hc : c = '\n'
    · subst hc
      simp only [List.foldl_cons, List.foldl_nil, if_true, wrapInt_wrapInt_add,
        List.count_append, List.count_singleton_self, Nat.cast_add, Nat.cast_one,
        List.mem_append, List.mem_singleton, or_true, List.reverse_append,
        List.reverse_singleton, List.singleton_append, List.takeWhile_cons, ne_eq,
        not_true_eq_false, decide_False, List.length_nil, Nat.cast_zero,
        Bool.false_eq_true, if_false]
      refine Prod.ext ?_ ?_
      · show wrapInt (n + ↑(List.count '\n' init) + 1) = wrapInt (n + (↑(List.count '\n' init) + 1))
        rw [add_assoc]
      · show (0 : Int) = wrapInt 0
        rfl
    · have hc' : ¬ '\n' = c := fun h => hc h.symm
      have hcount : List.count '\n' (init ++ [c]) = List.count '\n' init := by
        simp [List.count_append, hc']
      have hmem : ('\n' ∈ init ++ [c]) ↔ '\n' ∈ init := by
        simp [hc']
      have htw : ((init ++ [c]).reverse.takeWhile fun r => r ≠ '\n').length
          = (init.reverse.takeWhile fun r => r ≠ '\n').length + 1 := by
        simp [List.takeWhile_cons, hc]
      simp only [List.foldl_cons, List.foldl_nil, hc, if_false, hcount, hmem, htw,
        List.length_append, List.length_singleton]
      refine Prod.ext rfl ?_
      by_cases hin : '\n' ∈ init
      · simp only [hin, if_true, wrapInt_wrapInt_add, Nat.cast_add, Nat.cast_one]
      · simp only [hin, if_false, wrapInt_wrapInt_add, Nat.cast_add, Nat.cast_one, add_assoc]

/-- At the largest column that an `int` holds the counter of the last line wraps, as in
the code: two characters after column 2^63 - 1 give -2^63. -/
theorem numLinesAndCharsOnLastLine_wraps :
    numLinesAndCharsOnLastLine { exampleToken with Content := "ab", col := 9223372036854775807 }
      = (0, -9223372036854775808) := by
  decide

/-- C25. For every token at a column c of at least 1 (c is a value of an `int`, and the
content is a Go string, of at most 2^63 - 1 characters), numLinesAndCharsOnLastLine
returns (k, e), where k is the number of newline characters of the content and e is the
number of characters after the last newline when k is above 0, and (c - 1) plus the
number of characters of the content when k is 0, the sum being that of an `int` of 64
bits: it is the exact sum, and not negative, when the exact sum is at most 2^63 - 1.  So
in the finding of a message on the token EndLine - StartLine, as an `int`, is k (exactly
so when the line of the token plus k is at most 2^63 - 1), and for a token without a
newline EndLine is StartLine and EndChar is StartChar plus the number of characters of
the content, again as an `int` and exactly when the sum is at most 2^63 - 1. -/
theorem numLinesAndCharsOnLastLine_spec (tok : Token) (hcol : 1 ≤ tok.col)
    (hint : tok.col ≤ 9223372036854775807)
    (hstr : (tok.Content.length : Int) ≤ 9223372036854775807) :
    numLinesAndCharsOnLastLine tok
      = (((tok.Content.data.count '\n' : Nat) : Int),
         if 0 < tok.Content.data.count '\n' then
           (((tok.Content.data.reverse.takeWhile fun r => r ≠ '\n').length : Nat) : Int)
         else wrapInt ((tok.col - 1) + (tok.Content.length : Nat))) ∧
    (tok.col - 1 + (tok.Content.length : Nat) ≤ 9223372036854775807 →
      numLinesAndCharsOnLastLine tok
        = (((tok.Content.data.count '\n' : Nat) : Int),
           if 0 < tok.Content.data.count '\n' then
             (((tok.Content.data.reverse.takeWhile fun r => r ≠ '\n').length : Nat) : Int)
           else (tok.col - 1) + (tok.Content.length : Nat)) ∧
      0 ≤ (numLinesAndCharsOnLastLine tok).2) ∧
    (∀ msg : message, msg.tok = tok →
      -9223372036854775808 ≤ tok.ln → tok.ln ≤ 9223372036854775807 →
      wrapInt ((findingOf msg).EndLine - (findingOf msg).StartLine)
        = ((tok.Content.data.count '\n' : Nat) : Int) ∧
      (tok.ln + ((tok.Content.data.count '\n' : Nat) : Int) ≤ 9223372036854775807 →
        (findingOf msg).EndLine - (findingOf msg).StartLine
          = ((tok.Content.data.count '\n' : Nat) : Int)) ∧
      (tok.Content.data.count '\n' = 0 →
        (findingOf msg).EndLine = (findingOf msg).StartLine ∧
        (findingOf msg).EndChar
          = wrapInt ((findingOf msg).StartChar + (tok.Content.length : Nat)) ∧
        (tok.col - 1 + (tok.Content.length : Nat) ≤ 9223372036854775807 →
          (findingOf msg).EndChar
            = (findingOf msg).StartChar + (tok.Content.length : Nat)))) := by
  have h := numLines_foldl tok.Content.data 0 (tok.col - 1)
  have hmem : ('\n' ∈ tok.Content.data) ↔ 0 < tok.Content.data.count '\n' :=
    List.count_pos_iff.symm
  have hlen : tok.Content.length = tok.Content.data.length := rfl
  have hk : tok.Content.data.count '\n' ≤ tok.Content.data.length := List.count_le_length _ _
  have hafter : (tok.Content.data.reverse.takeWhile fun r => r ≠ '\n').length
      ≤ tok.Content.data.length := by
    have := (List.takeWhile_prefix (fun r => decide (r ≠ '\n'))
      (l := tok.Content.data.reverse)).length_le
    simpa using this
  rw [hlen] at hstr
  have heq : numLinesAndCharsOnLastLine tok
      = (((tok.Content.data.count '\n' : Nat) : Int),
         if 0 < tok.Content.data.count '\n' then
           (((tok.Content.data.reverse.takeWhile fun r => r ≠ '\n').length : Nat) : Int)
         else wrapInt ((tok.col - 1) + (tok.Content.length : Nat))) := by
    have h0 : wrapInt 0 = 0 := rfl
    unfold numLinesAndCharsOnLastLine
    rw [show ((0 : Int), wrapInt (tok.col - 1)) = (wrapInt 0, wrapInt (tok.col - 1)) by rw [h0]]
    rw [h]
    simp only [hmem, zero_add, hlen]
    rw [wrapInt_eq_self (↑(List.count '\n' tok.Content.data)) (by omega) (by omega),
      wrapInt_eq_self
        (↑(List.takeWhile (fun r => decide (r ≠ '\n')) tok.Content.data.reverse).length)
        (by omega) (by omega)]
  have hexact : tok.col - 1 + (tok.Content.length : Nat) ≤ 9223372036854775807 →
      wrapInt ((tok.col - 1) + (tok.Content.length : Nat))
        = (tok.col - 1) + (tok.Content.length : Nat) := fun hfit =>
    wrapInt_eq_self _ (by omega) hfit
  refine ⟨heq, fun hfit => ?_, ?_⟩
  · rw [heq, hexact hfit]
    refine ⟨rfl, ?_⟩
    by_cases hk0 : 0 < tok.Content.data.count '\n'
    · simp only [hk0, if_true]; omega
    · simp only [hk0, if_false]; omega
  · intro msg hmsg hln hln'
    subst hmsg
    have hsc : wrapInt (msg.tok.col - 1) = msg.tok.col - 1 :=
      wrapInt_eq_self _ (by omega) (by omega)
    simp only [findingOf, heq, hsc]
    refine ⟨?_, fun hlast => ?_, fun hk0 => ?_⟩
    · have hk1 : (0 : Int) ≤ ((List.count '\n' msg.tok.Content.data : Nat) : Int) := by omega
      have hk2 : ((List.count '\n' msg.tok.Content.data : Nat) : Int) ≤ 9223372036854775807 := by
        omega
      generalize ((List.count '\n' msg.tok.Content.data : Nat) : Int) = k at hk1 hk2 ⊢
      unfold wrapInt
      omega
    · rw [wrapInt_eq_self (msg.tok.ln + _) (by omega) hlast]
      omega
    · simp only [hk0, Nat.lt_irrefl, if_false, Nat.cast_zero, add_zero]
      refine ⟨wrapInt_eq_self _ hln hln', trivial, fun hfit => hexact hfit⟩

/-- Witness of C25: the word `text` at column 7 of line 2 has no newline and ends at
character 10 of the same line. -/
theorem numLinesAndCharsOnLastLine_spec_witness :
    (1 : Int) ≤ exampleToken.col ∧ numLinesAndCharsOnLastLine exampleToken = (0, 10) ∧
    (findingOf ⟨"general", exampleToken, "m"⟩).EndLine = 2 ∧
    (findingOf ⟨"general", exampleToken, "m"⟩).EndChar = 10 := by
  have h := numLinesAndCharsOnLastLine_spec exampleToken (by decide) (by decide) (by decide)
  refine ⟨by decide, ?_, ?_, ?_⟩
  · rw [(h.2.1 (by decide)).1]
    decide
  · have h2 := (h.2.2 ⟨"general", exampleToken, "m"⟩ rfl (by decide) (by decide)).2.2
      (by decide)
    rw [h2.1]
    rfl
  · have h2 := (h.2.2 ⟨"general", exampleToken, "m"⟩ rfl (by decide) (by decide)).2.2
      (by decide)
    rw [h2.2.2 (by decide)]
    decide

/-! ## The squiggle under a token (reporter.go) -/

theorem squiggleLoop_eq (isSeparatorSpace : Char → Bool) (tok : Token) (cs : List Char) :
    ∀ (col : Int) (squiggle : List Char), col ≤ tok.col →
      squiggleLoop isSeparatorSpace tok cs col squiggle
        = squiggle ++ (cs.take (tok.col - col).toNat).map
            (fun r => if isSeparatorSpace r then r else ' ') := by
  induction cs with
  | nil => intro col squiggle _; simp [squiggleLoop]
  | cons r rest ih =>
    intro col squiggle hle
    by_cases heq : col = tok.col
    · simp [squiggleLoop, heq]
    · have hlt : col + 1 ≤ tok.col := by omega
      obtain ⟨k, hk⟩ : ∃ k : Nat, (tok.col - col).toNat = k + 1 ∧ (tok.col - (col + 1)).toNat = k :=
        ⟨(tok.col - (col + 1)).toNat, by omega, rfl⟩
      simp only [squiggleLoop, heq, if_false]
      cases hsep : isSeparatorSpace r <;>
        simp [hsep, ih (col + 1) _ hlt, hk.1, hk.2]

theorem utf8ByteSize_eq_sum (cs : List Char) :
    (String.mk cs).utf8ByteSize = (cs.map Char.utf8Size).sum := by
  have key : String.utf8ByteSize.go cs = (cs.map Char.utf8Size).sum := by
    induction cs with
    | nil => rfl
    | cons c cs ih =>
      simp only [String.utf8ByteSize.go, List.map_cons, List.sum_cons, ih]
      omega
  exact key

theorem IndexNewline_eq (cs : List Char) :
    IndexNewline cs
      = if '\n' ∈ cs then
          ((((cs.takeWhile fun r => r ≠ '\n').map Char.utf8Size).sum : Nat) : Int)
        else -1 := by
  induction cs with
  | nil => simp [IndexNewline]
  | cons c cs ih =>
    by_cases hc : c = '\n'
    · subst hc
      simp [IndexNewline]
    · have hc' : ¬ '\n' = c := fun h => hc h.symm
      by_cases hin : '\n' ∈ cs
      · have hne : ¬ ((((cs.takeWhile fun r => r ≠ '\n').map Char.utf8Size).sum : Nat) : Int) = -1 := by
          omega
        simp only [IndexNewline, hc, if_false, ih, hin, if_true, hne]
        simp [hc, hc', hin, List.takeWhile_cons]
      · simp [IndexNewline, hc, hc', ih, hin]

theorem takeWhile_eq_self_of_not_mem (cs : List Char) (h : '\n' ∉ cs) :
    (cs.takeWhile fun r => r ≠ '\n') = cs := by
  apply List.takeWhile_eq_self_iff.2
  intro r hr
  have : r ≠ '\n' := fun h' => h (h' ▸ hr)
  simpa using this

/-- C26. For every line and every token at a column between 1 and the number of
characters of the line plus 1, whose content is not empty and does not begin with a
newline, makeSquiggle returns (`strings.Repeat` does not panic): col - 1 characters,
which are for each of the first col - 1 characters of the line that character when it
is a separator space and a plain space otherwise, then one `^`, then n - 1 characters
`~`, where n is the number of bytes of the content before its first newline (of the whole
content when it has none), and n is at least 1. -/
theorem makeSquiggle_spec (isSeparatorSpace : Char → Bool) (line : String) (tok : Token)
    (h1 : 1 ≤ tok.col) (h2 : tok.col ≤ (line.length : Int) + 1)
    (hne : tok.Content.data ≠ []) (hnl : tok.Content.data.head? ≠ some '\n') :
    makeSquiggle isSeparatorSpace line tok
      = some (String.mk (
          (line.data.take (tok.col - 1).toNat).map
              (fun r => if isSeparatorSpace r then r else ' ')
          ++ ['^']
          ++ List.replicate
              ((((tok.Content.data.takeWhile fun r => r ≠ '\n').map Char.utf8Size).sum) - 1)
              '~')) ∧
    (((line.data.take (tok.col - 1).toNat).map
        (fun r => if isSeparatorSpace r then r else ' ')).length : Int) = tok.col - 1 ∧
    1 ≤ ((tok.Content.data.takeWhile fun r => r ≠ '\n').map Char.utf8Size).sum ∧
    ('\n' ∉ tok.Content.data →
      ((tok.Content.data.takeWhile fun r => r ≠ '\n').map Char.utf8Size).sum
        = tok.Content.utf8ByteSize) := by
  obtain ⟨c, cs, hdata⟩ : ∃ c cs, tok.Content.data = c :: cs := by
    cases h : tok.Content.data with
    | nil => exact absurd h hne
    | cons c cs => exact ⟨c, cs, rfl⟩
  have hc : c ≠ '\n' := by
    intro h
    apply hnl
    rw [hdata, h]
    rfl
  have hpos : 1 ≤ ((tok.Content.data.takeWhile fun r => r ≠ '\n').map Char.utf8Size).sum := by
    rw [hdata]
    have := Char.utf8Size_pos c
    simp [List.takeWhile_cons, hc]
    omega
  have hsize : tok.Content.utf8ByteSize = (tok.Content.data.map Char.utf8Size).sum :=
    utf8ByteSize_eq_sum tok.Content.data
  have hlen : ∀ (hmem : '\n' ∉ tok.Content.data),
      ((tok.Content.data.takeWhile fun r => r ≠ '\n').map Char.utf8Size).sum
        = tok.Content.utf8ByteSize := by
    intro hmem
    rw [takeWhile_eq_self_of_not_mem _ hmem, hsize]
  refine ⟨?_, ?_, hpos, hlen⟩
  · simp only [makeSquiggle, squiggleLoop_eq isSeparatorSpace tok line.data 1 [] h1,
      IndexNewline_eq, List.nil_append]
    by_cases hmem : '\n' ∈ tok.Content.data
    · have hne1 : ¬ ((((tok.Content.data.takeWhile fun r => r ≠ '\n').map Char.utf8Size).sum
          : Nat) : Int) = -1 := by omega
      have hlt : ¬ ((((tok.Content.data.takeWhile fun r => r ≠ '\n').map Char.utf8Size).sum
          : Nat) : Int) - 1 < 0 := by omega
      have hn : (((((tok.Content.data.takeWhile fun r => r ≠ '\n').map Char.utf8Size).sum
          : Nat) : Int) - 1).toNat
          = ((tok.Content.data.takeWhile fun r => r ≠ '\n').map Char.utf8Size).sum - 1 := by
        omega
      simp only [hmem, if_true, ne_eq, hne1, not_false_eq_true, hlt, if_false, hn,
        List.append_assoc]
    · have hl := hlen hmem
      have hlt : ¬ ((tok.Content.utf8ByteSize : Int) - 1 < 0) := by omega
      have hn : ((tok.Content.utf8ByteSize : Int) - 1).toNat
          = ((tok.Content.data.takeWhile fun r => r ≠ '\n').map Char.utf8Size).sum - 1 := by
        omega
      simp only [hmem, if_false, ne_eq, not_true_eq_false, hlt, hn, List.append_assoc]
  · have hl : (tok.col - 1).toNat ≤ line.data.length := by
      have : line.length = line.data.length := rfl
      omega
    simp only [List.length_map, List.length_take, Nat.min_eq_left hl]
    omega

/-- Witness of C26: the word `text` at column 7 of the second line of the example
document. -/
theorem makeSquiggle_spec_witness :
    (1 : Int) ≤ exampleToken.col ∧
    exampleToken.col ≤ (("some  text here".length : Nat) : Int) + 1 ∧
    exampleToken.Content.data ≠ [] ∧ exampleToken.Content.data.head? ≠ some '\n' ∧
    makeSquiggle (fun r => r = ' ') "some  text here" exampleToken = some "      ^~~~" := by
  refine ⟨by decide, by decide, by decide, by decide, ?_⟩
  rw [(makeSquiggle_spec (fun r => r = ' ') "some  text here" exampleToken (by decide)
    (by decide) (by decide) (by decide)).1]
  decide

/-! ## The order of the messages (reporter.go) -/

theorem compareBytes_lt (a : List Nat) : ∀ b : List Nat, compareBytes a b < 0 ↔ a < b := by
  induction a with
  | nil =>
    intro b
    cases b with
    | nil => simp [compareBytes]
    | cons y ys => simp [compareBytes, List.nil_lt_cons]
  | cons x xs ih =>
    intro b
    cases b with
    | nil =>
      simp only [compareBytes]
      constructor
      · intro h; omega
      · intro h; cases h
    | cons y ys =>
      simp only [compareBytes]
      by_cases h1 : x < y
      · simp only [h1, if_true]
        exact ⟨fun _ => List.Lex.rel h1, fun _ => by omega⟩
      · by_cases h2 : y < x
        · simp only [h1, h2, if_true, if_false]
          constructor
          · intro h; omega
          · intro h
            cases h with
            | cons h' => omega
            | rel h' => omega
        · have hxy : x = y := by omega
          subst hxy
          simp only [h1, if_false, ih ys]
          constructor
          · intro h; exact List.Lex.cons h
          · intro h
            cases h with
            | cons h' => exact h'
            | rel h' => omega

theorem compareBytes_gt (a : List Nat) : ∀ b : List Nat, 0 < compareBytes a b ↔ b < a := by
  induction a with
  | nil =>
    intro b
    cases b with
    | nil => simp [compareBytes]
    | cons y ys =>
      simp only [compareBytes]
      constructor
      · intro h; omega
      · intro h; cases h
  | cons x xs ih =>
    intro b
    cases b with
    | nil => simp [compareBytes, List.nil_lt_cons]
    | cons y ys =>
      simp only [compareBytes]
      by_cases h1 : x < y
      · simp only [h1, if_true]
        constructor
        · intro h; omega
        · intro h
          cases h with
          | cons h' => omega
          | rel h' => omega
      · by_cases h2 : y < x
        · simp only [h1, h2, if_true, if_false]
          exact ⟨fun _ => List.Lex.rel h2, fun _ => by omega⟩
        · have hxy : x = y := by omega
          subst hxy
          simp only [h1, if_false, ih ys]
          constructor
          · intro h; exact List.Lex.cons h
          · intro h
            cases h with
            | cons h' => exact h'
            | rel h' => omega

theorem compareBytes_eq (a : List Nat) : ∀ b : List Nat, compareBytes a b = 0 ↔ a = b := by
  induction a with
  | nil =>
    intro b
    cases b <;> simp [compareBytes]
  | cons x xs ih =>
    intro b
    cases b with
    | nil => simp [compareBytes]
    | cons y ys =>
      simp only [compareBytes]
      by_cases h1 : x < y
      · have : x ≠ y := by omega
        simp [h1, this]
      · by_cases h2 : y < x
        · have : x ≠ y := by omega
          simp [h1, h2, this]
        · have hxy : x = y := by omega
          subst hxy
          simp [ih ys]

theorem wrapInt_sub (a b : Int) (ha : 0 ≤ a) (ha' : a < 9223372036854775808)
    (hb : 0 ≤ b) (hb' : b < 9223372036854775808) : wrapInt (a - b) = a - b := by
  unfold wrapInt
  omega

/-- On messages whose line and column numbers are not negative (and fit an `int`), Less
is the lexicographic order of the tuples. -/
theorem lessMessage_iff (a b : message)
    (ha : 0 ≤ a.tok.ln ∧ a.tok.ln < 9223372036854775808 ∧
      0 ≤ a.tok.col ∧ a.tok.col < 9223372036854775808)
    (hb : 0 ≤ b.tok.ln ∧ b.tok.ln < 9223372036854775808 ∧
      0 ≤ b.tok.col ∧ b.tok.col < 9223372036854775808) :
    lessMessage a b = true ↔ keyLt a b := by
  obtain ⟨ha1, ha2, ha3, ha4⟩ := ha
  obtain ⟨hb1, hb2, hb3, hb4⟩ := hb
  have hf1 := compareBytes_lt (bytesOf a.tok.Doc.filename) (bytesOf b.tok.Doc.filename)
  have hf2 := compareBytes_gt (bytesOf a.tok.Doc.filename) (bytesOf b.tok.Doc.filename)
  have hf3 := compareBytes_eq (bytesOf a.tok.Doc.filename) (bytesOf b.tok.Doc.filename)
  have hc1 := compareBytes_lt (bytesOf a.content) (bytesOf b.content)
  simp only [lessMessage, Compare, wrapInt_sub _ _ ha1 ha2 hb1 hb2,
    wrapInt_sub _ _ ha3 ha4 hb3 hb4, keyLt]
  by_cases h1 : compareBytes (bytesOf a.tok.Doc.filename) (bytesOf b.tok.Doc.filename) < 0
  · simp only [h1, if_true, true_iff]
    exact Or.inl (hf1.1 h1)
  · by_cases h2 : compareBytes (bytesOf a.tok.Doc.filename) (bytesOf b.tok.Doc.filename) > 0
    · simp only [h1, h2, if_true, if_false, Bool.false_eq_true, false_iff]
      have hgt := hf2.1 h2
      rintro (h | ⟨h, -⟩)
      · exact lt_asymm h hgt
      · rw [h] at hgt
        exact lt_irrefl _ hgt
    · have h0 : compareBytes (bytesOf a.tok.Doc.filename) (bytesOf b.tok.Doc.filename) = 0 := by
        omega
      have heq := hf3.1 h0
      have hnlt : ¬ bytesOf a.tok.Doc.filename < bytesOf b.tok.Doc.filename := by
        rw [heq]; exact lt_irrefl _
      simp only [h1, h2, if_false]
      have hr : ∀ R : Prop, (bytesOf a.tok.Doc.filename < bytesOf b.tok.Doc.filename ∨
          (bytesOf a.tok.Doc.filename = bytesOf b.tok.Doc.filename ∧ R)) ↔ R :=
        fun R => ⟨fun h => h.elim (fun h => absurd h hnlt) (fun h => h.2),
          fun h => Or.inr ⟨heq, h⟩⟩
      rw [hr]
      by_cases h3 : a.tok.ln - b.tok.ln < 0
      · simp only [h3, if_true, true_iff]
        exact Or.inl (by omega)
      · by_cases h4 : a.tok.ln - b.tok.ln > 0
        · simp only [h3, h4, if_true, if_false, Bool.false_eq_true, false_iff]
          rintro (h | ⟨h, -⟩) <;> omega
        · have hln : a.tok.ln = b.tok.ln := by omega
          have hnl : ¬ a.tok.ln < b.tok.ln := by omega
          simp only [h3, h4, if_false]
          have hr2 : ∀ R : Prop, (a.tok.ln < b.tok.ln ∨ (a.tok.ln = b.tok.ln ∧ R)) ↔ R :=
            fun R => ⟨fun h => h.elim (fun h => absurd h hnl) (fun h => h.2),
              fun h => Or.inr ⟨hln, h⟩⟩
          rw [hr2]
          by_cases h5 : a.tok.col - b.tok.col < 0
          · simp only [h5, if_true, true_iff]
            exact Or.inl (by omega)
          · by_cases h6 : a.tok.col - b.tok.col > 0
            · simp only [h5, h6, if_true, if_false, Bool.false_eq_true, false_iff]
              rintro (h | ⟨h, -⟩) <;> omega
            · have hcol : a.tok.col = b.tok.col := by omega
              have hnc : ¬ a.tok.col < b.tok.col := by omega
              simp only [h5, h6, if_false, decide_eq_true_eq]
              have hr3 : ∀ R : Prop,
                  (a.tok.col < b.tok.col ∨ (a.tok.col = b.tok.col ∧ R)) ↔ R :=
                fun R => ⟨fun h => h.elim (fun h => absurd h hnc) (fun h => h.2),
                  fun h => Or.inr ⟨hcol, h⟩⟩
              rw [hr3]
              exact hc1

/-- The tuple of a message in the lexicographic order of Mathlib. -/
theorem keyLt_iff_lex (a b : message) :
    keyLt a b ↔
      toLex (bytesOf a.tok.Doc.filename, toLex (a.tok.ln, toLex (a.tok.col, bytesOf a.content)))
        < toLex (bytesOf b.tok.Doc.filename,
            toLex (b.tok.ln, toLex (b.tok.col, bytesOf b.content))) := by
  simp only [keyLt, Prod.Lex.lt_iff]

theorem keyLt_irrefl (a : message) : ¬ keyLt a a := by
  rw [keyLt_iff_lex]
  exact lt_irrefl _

theorem keyLt_trans (a b c : message) (h1 : keyLt a b) (h2 : keyLt b c) : keyLt a c := by
  rw [keyLt_iff_lex] at *
  exact lt_trans h1 h2

theorem keyLt_total (a b : message) (h : ¬ keyLt a b) (h' : ¬ keyLt b a) :
    bytesOf a.tok.Doc.filename = bytesOf b.tok.Doc.filename ∧ a.tok.ln = b.tok.ln ∧
    a.tok.col = b.tok.col ∧ bytesOf a.content = bytesOf b.content := by
  rw [keyLt_iff_lex] at h h'
  have heq := le_antisymm (not_lt.1 h') (not_lt.1 h)
  have h1 := congrArg (fun x => (ofLex x).1) heq
  have h2 := congrArg (fun x => (ofLex (ofLex x).2).1) heq
  have h3 := congrArg (fun x => (ofLex (ofLex (ofLex x).2).2).1) heq
  have h4 := congrArg (fun x => (ofLex (ofLex (ofLex x).2).2).2) heq
  exact ⟨h1, h2, h3, h4⟩

theorem Less_eq (s : sortableMessages) (i j : Nat) (hi : i < s.length) (hj : j < s.length) :
    s.Less i j = some (lessMessage s[i] s[j]) := by
  simp [sortableMessages.Less, List.getElem?_eq_getElem hi, List.getElem?_eq_getElem hj]

theorem Less_some (s : sortableMessages) (i j : Nat) (b : Bool) (h : s.Less i j = some b) :
    ∃ (hi : i < s.length) (hj : j < s.length), lessMessage s[i] s[j] = b := by
  by_cases hi : i < s.length
  · by_cases hj : j < s.length
    · rw [Less_eq s i j hi hj] at h
      exact ⟨hi, hj, by simpa using h⟩
    · have : s[j]? = none := List.getElem?_eq_none (by omega)
      simp [sortableMessages.Less, this] at h
  · have : s[i]? = none := List.getElem?_eq_none (by omega)
    simp [sortableMessages.Less, this] at h

/-- C24. For all messages whose tokens have line and column numbers that are not
negative (they are values of an `int` of 64 bits), Less(i, j) holds if and only if the
tuple (filename, line, column, content) of message i is strictly smaller than that of
message j in lexicographic order, the strings being compared byte by byte.  So Less is
irreflexive and transitive, and two messages with the same token and content, which can
differ only in category, are not ordered either way. -/
theorem Less_iff_tuple_lt (s : sortableMessages)
    (hrange : ∀ m ∈ s, 0 ≤ m.tok.ln ∧ m.tok.ln < 9223372036854775808 ∧
      0 ≤ m.tok.col ∧ m.tok.col < 9223372036854775808) :
    (∀ (i j : Nat) (hi : i < s.length) (hj : j < s.length),
      (s.Less i j = some true ↔ keyLt s[i] s[j]) ∧
      (s.Less i j = some false ↔ ¬ keyLt s[i] s[j])) ∧
    (∀ i, i < s.length → s.Less i i = some false) ∧
    (∀ i j k, s.Less i j = some true → s.Less j k = some true → s.Less i k = some true) ∧
    (∀ (i j : Nat) (hi : i < s.length) (hj : j < s.length),
      s[i].tok = s[j].tok → s[i].content = s[j].content →
      s.Less i j = some false ∧ s.Less j i = some false) := by
  have key : ∀ (i j : Nat) (hi : i < s.length) (hj : j < s.length),
      lessMessage s[i] s[j] = true ↔ keyLt s[i] s[j] := fun i j hi hj =>
    lessMessage_iff s[i] s[j] (hrange _ (List.getElem_mem hi)) (hrange _ (List.getElem_mem hj))
  have hfalse : ∀ (i j : Nat) (hi : i < s.length) (hj : j < s.length),
      ¬ keyLt s[i] s[j] → s.Less i j = some false := by
    intro i j hi hj h
    rw [Less_eq s i j hi hj]
    cases hl : lessMessage s[i] s[j] with
    | false => rfl
    | true => exact absurd ((key i j hi hj).1 hl) h
  refine ⟨?_, ?_, ?_, ?_⟩
  · intro i j hi hj
    rw [Less_eq s i j hi hj]
    constructor
    · simp only [Option.some.injEq]
      exact key i j hi hj
    · simp only [Option.some.injEq, ← key i j hi hj]
      cases lessMessage s[i] s[j] <;> simp
  · intro i hi
    exact hfalse i i hi hi (keyLt_irrefl _)
  · intro i j k h1 h2
    obtain ⟨hi, hj, h1⟩ := Less_some s i j true h1
    obtain ⟨_, hk, h2⟩ := Less_some s j k true h2
    rw [Less_eq s i k hi hk]
    exact congrArg some ((key i k hi hk).2
      (keyLt_trans _ _ _ ((key i j hi hj).1 h1) ((key j k hj hk).1 h2)))
  · intro i j hi hj htok hcontent
    have h1 : ¬ keyLt s[i] s[j] := by
      unfold keyLt
      rw [htok, hcontent]
      intro h
      rcases h with h | ⟨-, h | ⟨-, h | ⟨-, h⟩⟩⟩
      · exact lt_irrefl _ h
      · exact lt_irrefl _ h
      · exact lt_irrefl _ h
      · exact lt_irrefl _ h
    have h2 : ¬ keyLt s[j] s[i] := by
      unfold keyLt
      rw [htok, hcontent]
      intro h
      rcases h with h | ⟨-, h | ⟨-, h | ⟨-, h⟩⟩⟩
      · exact lt_irrefl _ h
      · exact lt_irrefl _ h
      · exact lt_irrefl _ h
      · exact lt_irrefl _ h
    exact ⟨hfalse i j hi hj h1, hfalse j i hj hi h2⟩

/-- Witness of C24: a message of the rule `r` and a general message on the same token,
with the same content. -/
theorem Less_iff_tuple_lt_witness :
    (∀ m ∈ ([⟨"r", exampleToken, "m"⟩, ⟨"general", exampleToken, "m"⟩] : sortableMessages),
      0 ≤ m.tok.ln ∧ m.tok.ln < 9223372036854775808 ∧
      0 ≤ m.tok.col ∧ m.tok.col < 9223372036854775808) ∧
    sortableMessages.Less [⟨"r", exampleToken, "m"⟩, ⟨"general", exampleToken, "m"⟩] 0 1
      = some false ∧
    sortableMessages.Less [⟨"r", exampleToken, "m"⟩, ⟨"general", exampleToken, "m"⟩] 1 0
      = some false := by
  have h : ∀ m ∈ ([⟨"r", exampleToken, "m"⟩, ⟨"general", exampleToken, "m"⟩] : sortableMessages),
      0 ≤ m.tok.ln ∧ m.tok.ln < 9223372036854775808 ∧
      0 ≤ m.tok.col ∧ m.tok.col < 9223372036854775808 := by
    simp [exampleToken]
  exact ⟨h, (Less_iff_tuple_lt _ h).2.2.2 0 1 (by simp) (by simp) rfl rfl⟩

/-! ## The findings in order (reporter.go) -/

theorem record_messages (generalName : String) (calls : List Call) :
    ∀ r : RootReporter,
      (record generalName r calls).messages
        = r.messages ++ calls.map (Call.recorded generalName) := by
  induction calls with
  | nil => intro r; simp [record]
  | cons c cs ih =>
    intro r
    have h := ih (match c with
      | .root tok content => r.Warnf generalName tok content
      | .rule rule tok content => (r.ForRule rule).Warnf r tok content)
    simp only [record, List.foldl_cons] at h ⊢
    rw [h]
    cases c <;>
      simp [RootReporter.Warnf, ruleReporter.Warnf, RootReporter.ForRule, RootReporter.warnf,
        Call.recorded]

theorem findingLt_findingOf (a b : message)
    (ha : 0 ≤ a.tok.col ∧ a.tok.col < 9223372036854775808)
    (hb : 0 ≤ b.tok.col ∧ b.tok.col < 9223372036854775808) :
    findingLt (findingOf a) (findingOf b) ↔ keyLt a b := by
  simp only [findingLt, findingOf, keyLt, wrapInt_eq_self (a.tok.col - 1) (by omega) (by omega),
    wrapInt_eq_self (b.tok.col - 1) (by omega) (by omega)]
  constructor
  · rintro (h | ⟨h1, h | ⟨h2, h | ⟨h3, h⟩⟩⟩)
    · exact Or.inl h
    · exact Or.inr ⟨h1, Or.inl h⟩
    · exact Or.inr ⟨h1, Or.inr ⟨h2, Or.inl (by omega)⟩⟩
    · exact Or.inr ⟨h1, Or.inr ⟨h2, Or.inr ⟨by omega, h⟩⟩⟩
  · rintro (h | ⟨h1, h | ⟨h2, h | ⟨h3, h⟩⟩⟩)
    · exact Or.inl h
    · exact Or.inr ⟨h1, Or.inl h⟩
    · exact Or.inr ⟨h1, Or.inr ⟨h2, Or.inl (by omega)⟩⟩
    · exact Or.inr ⟨h1, Or.inr ⟨h2, Or.inr ⟨by omega, h⟩⟩⟩

/-- C23. Let messages be recorded through Warnf, on the root reporter or on rule
reporters made by ForRule, on tokens of documents, whose line and column numbers are
values of an `int` of 64 bits that are not negative (they are counted from 1), and let
`sort.Sort` return a permutation of the messages that is sorted for Less.  Then
messagesToFindingsJSON returns exactly one finding for each recorded message (a
permutation of the findings of the calls), ordered non-decreasingly by (Path, StartLine,
StartChar, Message); the finding of a call has the category "mdlint/" followed by the
name of the rule (`generalName` on the root reporter), the text of the message, the file
name, the line, and the column minus one as StartChar. -/
theorem messagesToFindingsJSON_sorted (generalName : String)
    (sort : sortableMessages → sortableMessages) (JSONOutput : Bool) (calls : List Call)
    (hrange : ∀ c ∈ calls, 0 ≤ c.tok.ln ∧ c.tok.ln < 9223372036854775808 ∧
      0 ≤ c.tok.col ∧ c.tok.col < 9223372036854775808)
    (hperm : (sort (record generalName ⟨[], JSONOutput⟩ calls).messages).Perm
      (record generalName ⟨[], JSONOutput⟩ calls).messages)
    (hsorted : (sort (record generalName ⟨[], JSONOutput⟩ calls).messages).Pairwise
      (fun a b => lessMessage b a = false)) :
    (messagesToFindingsJSON sort (record generalName ⟨[], JSONOutput⟩ calls)).2.Perm
      (calls.map fun c =>
        match c with
        | .root tok content =>
          { Category := "mdlint/" ++ generalName, Message := content,
            Path := tok.Doc.filename, StartLine := tok.ln, StartChar := tok.col - 1,
            EndLine := wrapInt (tok.ln + (numLinesAndCharsOnLastLine tok).1),
            EndChar := (numLinesAndCharsOnLastLine tok).2 }
        | .rule rule tok content =>
          { Category := "mdlint/" ++ rule, Message := content,
            Path := tok.Doc.filename, StartLine := tok.ln, StartChar := tok.col - 1,
            EndLine := wrapInt (tok.ln + (numLinesAndCharsOnLastLine tok).1),
            EndChar := (numLinesAndCharsOnLastLine tok).2 }) ∧
    (messagesToFindingsJSON sort (record generalName ⟨[], JSONOutput⟩ calls)).2.length
      = calls.length ∧
    (messagesToFindingsJSON sort (record generalName ⟨[], JSONOutput⟩ calls)).2.Pairwise
      (fun f g => ¬ findingLt g f) := by
  have hmsgs : (record generalName ⟨[], JSONOutput⟩ calls).messages
      = calls.map (Call.recorded generalName) := by
    rw [record_messages]
    rfl
  have hfind := (findings_eq_map sort (record generalName ⟨[], JSONOutput⟩ calls)).1
  rw [hmsgs] at hperm hsorted hfind
  rw [hfind]
  refine ⟨?_, ?_, ?_⟩
  · have h := hperm.map findingOf
    rw [List.map_map] at h
    refine h.trans (List.Perm.of_eq ?_)
    apply List.map_congr_left
    intro c hc
    have hr := hrange c hc
    cases c with
    | root token content =>
      have hw : wrapInt (token.col - 1) = token.col - 1 :=
        wrapInt_eq_self _ (by have := hr.2.2.1; simp only [Call.tok] at this; omega)
          (by have := hr.2.2.2; simp only [Call.tok] at this; omega)
      simp only [Function.comp, findingOf, Call.recorded, hw]
    | rule name token content =>
      have hw : wrapInt (token.col - 1) = token.col - 1 :=
        wrapInt_eq_self _ (by have := hr.2.2.1; simp only [Call.tok] at this; omega)
          (by have := hr.2.2.2; simp only [Call.tok] at this; omega)
      simp only [Function.comp, findingOf, Call.recorded, hw]
  · rw [List.length_map, hperm.length_eq, List.length_map]
  · rw [List.pairwise_map]
    have hr : ∀ m ∈ sort (calls.map (Call.recorded generalName)),
        0 ≤ m.tok.ln ∧ m.tok.ln < 9223372036854775808 ∧
        0 ≤ m.tok.col ∧ m.tok.col < 9223372036854775808 := by
      intro m hm
      obtain ⟨c, hc, rfl⟩ := List.mem_map.1 (hperm.subset hm)
      have := hrange c hc
      cases c <;> exact this
    refine List.Pairwise.imp_of_mem ?_ hsorted
    intro a b ha hb hab
    rw [findingLt_findingOf b a (hr b hb).2.2 (hr a ha).2.2,
      ← lessMessage_iff b a (hr b hb) (hr a ha), hab]
    simp

/-- C23, witness: a general message on the word `text` of line 2 and a message of the
rule `r` on the title of line 1, sorted by insertion sort: the finding of the title
comes first. -/
theorem messagesToFindingsJSON_sorted_witness :
    (∀ c ∈ [Call.root exampleToken "m", Call.rule "r" titleToken "t"],
      0 ≤ c.tok.ln ∧ c.tok.ln < 9223372036854775808 ∧
      0 ≤ c.tok.col ∧ c.tok.col < 9223372036854775808) ∧
    (messagesToFindingsJSON insertionSort (record "general" ⟨[], true⟩
        [Call.root exampleToken "m", Call.rule "r" titleToken "t"])).2.length = 2 ∧
    (messagesToFindingsJSON insertionSort (record "general" ⟨[], true⟩
        [Call.root exampleToken "m", Call.rule "r" titleToken "t"])).2.Pairwise
      (fun f g => ¬ findingLt g f) ∧
    (messagesToFindingsJSON insertionSort (record "general" ⟨[], true⟩
        [Call.root exampleToken "m", Call.rule "r" titleToken "t"])).2.map
      (fun f => (f.Category, f.StartLine, f.StartChar, f.EndLine, f.EndChar))
      = [("mdlint/r", 1, 0, 2, 0), ("mdlint/general", 2, 6, 2, 10)] := by
  have hsorted : insertionSort (record "general" ⟨[], true⟩
        [Call.root exampleToken "m", Call.rule "r" titleToken "t"]).messages
      = [⟨"r", titleToken, "t"⟩, ⟨"general", exampleToken, "m"⟩] := by decide
  have h1 : ∀ c ∈ [Call.root exampleToken "m", Call.rule "r" titleToken "t"],
      0 ≤ c.tok.ln ∧ c.tok.ln < 9223372036854775808 ∧
      0 ≤ c.tok.col ∧ c.tok.col < 9223372036854775808 := by
    simp [Call.tok, exampleToken, titleToken]
  have h := messagesToFindingsJSON_sorted "general" insertionSort true
    [Call.root exampleToken "m", Call.rule "r" titleToken "t"] h1
    (by rw [hsorted]; exact List.Perm.swap _ _ _)
    (by rw [hsorted]; simp; decide)
  exact ⟨h1, h.2.1, h.2.2, by decide⟩

end Mdlint

end Fidlgen
